import Mathlib

/-!
# city-timezones-go: the query layer over the city table

A shallow embedding of `citytimezones.go`.

Modelling conventions:

* A Go `string` is taken to hold valid UTF-8 and is represented by the list of its runes
  (`GoString`).  On such strings byte-wise equality, `strings.Contains` and `strings.Split`
  coincide with their rune-wise counterparts.
* The package variable `cityMapping` is an explicit argument of every query.
* A Go slice result is a `Slice`: either the nil slice or a non-nil slice with its elements.
* Code of the Go standard library that the queries call is either written out from its
  documented behaviour (`strings.TrimSpace`, `strings.Fields`, `strings.Contains`,
  `strings.Join`, `strings.Split`, `unicode.IsSpace`, the ASCII part of `strings.ToLower`,
  IEEE-754 comparison of `float64`) or taken as a parameter (the Unicode case table beyond
  ASCII, `float64` arithmetic and package `math`, `sort.Slice`, `strconv.ParseFloat`).
-/

namespace CityTimezones

/-! ## Strings -/

/-- A Go string (valid UTF-8), as the list of its runes. -/
abbrev GoString := List Char

/-- The rune predicate `unicode.IsSpace`: the Unicode White_Space property. -/
def isSpace (c : Char) : Bool :=
  let r := c.toNat
  (0x09 ≤ r && r ≤ 0x0D) || r == 0x20 || r == 0x85 || r == 0xA0 || r == 0x1680 ||
  (0x2000 ≤ r && r ≤ 0x200A) || r == 0x2028 || r == 0x2029 || r == 0x202F ||
  r == 0x205F || r == 0x3000

/-- Go `strings.TrimSpace`: drop the leading and the trailing white space. -/
def TrimSpace (s : GoString) : GoString :=
  ((s.dropWhile isSpace).reverse.dropWhile isSpace).reverse

/-- Go `unicode.ToLower` on one rune.  ASCII is mapped as the standard library does; beyond
ASCII the rune is looked up in the Unicode case table `lowerTable`, which is data of the Go
release and a parameter here. -/
def unicodeToLower (lowerTable : Char → Char) (c : Char) : Char :=
  if c.toNat ≤ 0x7F then
    if 0x41 ≤ c.toNat ∧ c.toNat ≤ 0x5A then Char.ofNat (c.toNat + 0x20) else c
  else lowerTable c

/-- Go `strings.ToLower`: every rune mapped by `unicode.ToLower`. -/
def ToLower (lowerTable : Char → Char) (s : GoString) : GoString :=
  s.map (unicodeToLower lowerTable)

/-- Loop of Go `strings.FieldsFunc`: `cur` is the field being read, the list is the rest of
the input. -/
def fieldsLoop : GoString → GoString → List GoString
  | cur, [] => if cur = [] then [] else [cur]
  | cur, c :: cs =>
    if isSpace c then
      if cur = [] then fieldsLoop [] cs else cur :: fieldsLoop [] cs
    else fieldsLoop (cur ++ [c]) cs

/-- Go `strings.Fields`: the maximal runs of non-space runes, in order. -/
def Fields (s : GoString) : List GoString := fieldsLoop [] s

/-- Go `strings.Contains s substr`: `substr` occurs in `s` as a contiguous block. -/
def Contains : GoString → GoString → Bool
  | [], substr => substr.isEmpty
  | c :: cs, substr => substr.isPrefixOf (c :: cs) || Contains cs substr

/-- Go `strings.Join elems sep`. -/
def Join : List GoString → GoString → GoString
  | [], _ => []
  | [e], _ => e
  | e :: es, sep => e ++ sep ++ Join es sep

/-- Go `strings.Split s ","`: the pieces of `s` between commas (always at least one piece). -/
def splitComma : GoString → List GoString
  | [] => [[]]
  | c :: cs =>
    if c = ',' then [] :: splitComma cs
    else
      match splitComma cs with
      | [] => [[c]]
      | p :: ps => (c :: p) :: ps

/-! ## float64 -/

/-- A Go `float64`, by its IEEE-754 binary64 bit pattern (taken modulo `2^64`). -/
structure F64 where
  bits : Nat
deriving DecidableEq, Repr

/-- The place of a `float64` in the IEEE-754 order: `none` for a NaN, otherwise the
sign-magnitude integer of the bit pattern (both zeros give `0`, the infinities are the two
extremes).  Two non-NaN values compare as their keys do. -/
def F64.key (x : F64) : Option Int :=
  let b : Nat := x.bits % 2 ^ 64
  let mag : Nat := b % 2 ^ 63
  if 0x7FF0000000000000 < mag then none
  else some (if b < 2 ^ 63 then (mag : Int) else -(mag : Int))

/-- Go `x <= y` on `float64`: false as soon as one side is NaN. -/
def F64.le (x y : F64) : Bool :=
  match x.key, y.key with
  | some a, some b => decide (a ≤ b)
  | _, _ => false

/-- Go `x < y` on `float64`: false as soon as one side is NaN. -/
def F64.lt (x y : F64) : Bool :=
  match x.key, y.key with
  | some a, some b => decide (a < b)
  | _, _ => false

/-- The `float64` arithmetic and the functions of package `math` used by
`haversineDistance`; they are not code of this repository. -/
structure Math where
  add : F64 → F64 → F64
  sub : F64 → F64 → F64
  mul : F64 → F64 → F64
  div : F64 → F64 → F64
  Sin : F64 → F64
  Cos : F64 → F64
  Sqrt : F64 → F64
  Atan2 : F64 → F64 → F64

/-- The constant `math.Pi` as a `float64`. -/
def F64.pi : F64 := ⟨0x400921FB54442D18⟩
/-- The constant `1`. -/
def F64.one : F64 := ⟨0x3FF0000000000000⟩
/-- The constant `2`. -/
def F64.two : F64 := ⟨0x4000000000000000⟩
/-- The constant `50.0`. -/
def F64.fifty : F64 := ⟨0x4049000000000000⟩
/-- The constant `180`. -/
def F64.c180 : F64 := ⟨0x4066800000000000⟩
/-- The constant `earthRadius = 6371`. -/
def F64.earthRadius : F64 := ⟨0x40B8E30000000000⟩

/-! ## Data model -/

/-- A Go `interface{}` value as `encoding/json` fills it: nil (absent or `null`), a string,
a number, a boolean, or a composite (array or object), whose content no query reads. -/
inductive Any where
  | nil : Any
  | str (s : GoString) : Any
  | num (x : F64) : Any
  | bool (b : Bool) : Any
  | composite : Any
deriving DecidableEq, Repr

/-- The struct `CityData`. -/
structure CityData where
  City : GoString
  CityAscii : GoString
  Lat : F64
  Lng : F64
  Pop : Any
  Country : GoString
  ISO2 : Any
  ISO3 : Any
  Province : GoString
  Timezone : GoString
  StateAnsi : Any
  ExactCity : Any
  ExactProvince : Any
deriving DecidableEq, Repr

/-- A Go slice value: the nil slice, or a non-nil slice with its elements. -/
inductive Slice (α : Type) where
  | nil : Slice α
  | mk (elems : List α) : Slice α
deriving DecidableEq, Repr

/-- The elements of a slice, in order. -/
def Slice.toList {α : Type} : Slice α → List α
  | Slice.nil => []
  | Slice.mk l => l

/-- Go `append(s, x)`: the result is never nil. -/
def Slice.append {α : Type} (s : Slice α) (x : α) : Slice α :=
  Slice.mk (s.toList ++ [x])

/-- Go `len(s)`. -/
def Slice.len {α : Type} (s : Slice α) : Nat := s.toList.length

/-! ## Queries on strings -/

/-- Go `LookupViaCity`, over the table `cityMapping`. -/
def LookupViaCity (lowerTable : Char → Char) (cityMapping : List CityData)
    (city : GoString) : Slice CityData :=
  let results : Slice CityData := Slice.nil
  let cityTrimmed := TrimSpace city
  if cityTrimmed = [] then results
  else
    let cityLower := ToLower lowerTable cityTrimmed
    cityMapping.foldl
      (fun results c =>
        if ToLower lowerTable c.City = cityLower then results.append c else results)
      results

/-- The search fields of one record, as the loop body of `FindFromCityStateProvince` builds
them: `City`, then `StateAnsi` when it holds a non-empty string, then `Province` and
`Country`. -/
def searchFieldsOf (c : CityData) : List GoString :=
  let searchFields : List GoString := [c.City]
  let searchFields : List GoString :=
    match c.StateAnsi with
    | Any.str stateAnsi => if stateAnsi ≠ [] then searchFields ++ [stateAnsi] else searchFields
    | _ => searchFields
  searchFields ++ [c.Province, c.Country]

/-- Go `findPartialMatch`. -/
def findPartialMatch (lowerTable : Char → Char) (searchFields : List GoString)
    (searchString : GoString) : Bool :=
  let searchTrimmed := TrimSpace searchString
  if searchTrimmed = [] then false
  else
    let searchTerms := Fields (ToLower lowerTable searchTrimmed)
    let joinedFields := ToLower lowerTable (Join searchFields [' '])
    searchTerms.all (fun term => Contains joinedFields term)

/-- Go `FindFromCityStateProvince`, over the table `cityMapping`. -/
def FindFromCityStateProvince (lowerTable : Char → Char) (cityMapping : List CityData)
    (searchString : GoString) : Slice CityData :=
  if searchString = [] then Slice.mk []
  else
    cityMapping.foldl
      (fun results c =>
        if findPartialMatch lowerTable (searchFieldsOf c) searchString then results.append c
        else results)
      Slice.nil

/-- Go `FindFromIsoCode`, over the table `cityMapping`. -/
def FindFromIsoCode (lowerTable : Char → Char) (cityMapping : List CityData)
    (isoCode : GoString) : Slice CityData :=
  let isoTrimmed := TrimSpace isoCode
  if isoTrimmed = [] then Slice.mk []
  else
    let isoLower := ToLower lowerTable isoTrimmed
    cityMapping.foldl
      (fun results c =>
        let iso2Match : Bool :=
          match c.ISO2 with
          | Any.str iso2Str => decide (ToLower lowerTable iso2Str = isoLower)
          | _ => false
        let iso3Match : Bool :=
          match c.ISO3 with
          | Any.str iso3Str => decide (ToLower lowerTable iso3Str = isoLower)
          | _ => false
        if iso2Match || iso3Match then results.append c else results)
      Slice.nil

/-- Go `GetCityMapping`. -/
def GetCityMapping (cityMapping : List CityData) : List CityData := cityMapping

/-! ## Queries on coordinates -/

/-- The struct `CityDistance`: a `CityData` with its distance from a reference point. -/
structure CityDistance extends CityData where
  Distance : F64
deriving DecidableEq, Repr

/-- Go `haversineDistance`. -/
def haversineDistance (m : Math) (lat1 lon1 lat2 lon2 : F64) : F64 :=
  let earthRadius := F64.earthRadius
  let lat1Rad := m.div (m.mul lat1 F64.pi) F64.c180
  let lon1Rad := m.div (m.mul lon1 F64.pi) F64.c180
  let lat2Rad := m.div (m.mul lat2 F64.pi) F64.c180
  let lon2Rad := m.div (m.mul lon2 F64.pi) F64.c180
  let dLat := m.sub lat2Rad lat1Rad
  let dLon := m.sub lon2Rad lon1Rad
  let a :=
    m.add (m.mul (m.Sin (m.div dLat F64.two)) (m.Sin (m.div dLat F64.two)))
      (m.mul
        (m.mul (m.mul (m.Cos lat1Rad) (m.Cos lat2Rad)) (m.Sin (m.div dLon F64.two)))
        (m.Sin (m.div dLon F64.two)))
  let c := m.mul F64.two (m.Atan2 (m.Sqrt a) (m.Sqrt (m.sub F64.one a)))
  let distance := m.mul earthRadius c
  distance

/-- The comparison handed to `sort.Slice` by `FindNearestCities`. -/
def distanceLess (a b : CityDistance) : Bool := F64.lt a.Distance b.Distance

/-- Go `FindNearestCities`, over the table `cityMapping`.  `sortSlice less xs` stands for the
slice that `sort.Slice(xs, less)` leaves behind. -/
def FindNearestCities (m : Math)
    (sortSlice : (CityDistance → CityDistance → Bool) → List CityDistance → List CityDistance)
    (cityMapping : List CityData) (lat lng radiusKm : F64) : Slice CityData :=
  let results : Slice CityDistance :=
    cityMapping.foldl
      (fun results city =>
        let distance := haversineDistance m lat lng city.Lat city.Lng
        if F64.le distance radiusKm then results.append ⟨city, distance⟩ else results)
      Slice.nil
  let results : List CityDistance := sortSlice distanceLess results.toList
  results.foldl (fun cities result => cities.append result.toCityData) (Slice.mk [])

/-- The dynamic type of the argument of `parseCoordinates`, as far as its type switch
tells values apart. -/
inductive Coords where
  | string (v : GoString) : Coords
  | array2 (v0 v1 : F64) : Coords
  | slice (v : List F64) : Coords
  | other : Coords
deriving DecidableEq, Repr

/-- Go `parseCoordinates`: `none` stands for a non-nil error.  `parseFloat s` is
`strconv.ParseFloat(s, 64)`, with `none` for a non-nil error. -/
def parseCoordinates (parseFloat : GoString → Option F64) (coords : Coords) :
    Option (F64 × F64) :=
  match coords with
  | Coords.string v =>
    let parts := splitComma v
    match parts with
    | [part0, part1] =>
      match parseFloat (TrimSpace part0) with
      | none => none
      | some lat =>
        match parseFloat (TrimSpace part1) with
        | none => none
        | some lng => some (lat, lng)
    | _ => none
  | Coords.array2 v0 v1 => some (v0, v1)
  | Coords.slice v =>
    match v with
    | [v0, v1] => some (v0, v1)
    | _ => none
  | Coords.other => none

/-- Go `FindFromCoordinates`, over the table `cityMapping`. -/
def FindFromCoordinates (m : Math)
    (sortSlice : (CityDistance → CityDistance → Bool) → List CityDistance → List CityDistance)
    (parseFloat : GoString → Option F64) (cityMapping : List CityData) (coords : Coords) :
    Slice CityData :=
  match parseCoordinates parseFloat coords with
  | none => Slice.mk []
  | some (lat, lng) => FindNearestCities m sortSlice cityMapping lat lng F64.fifty

/-- The struct `olc.CodeArea` of the decoder library. -/
structure CodeArea where
  LatLo : F64
  LngLo : F64
  LatHi : F64
  LngHi : F64
  Len : Nat
deriving DecidableEq, Repr

/-- Go `FindFromPlusCode`, over the table `cityMapping`.  `olcDecode code` is
`olc.Decode(code)` of the Open Location Code library, with `none` for a non-nil error. -/
def FindFromPlusCode (m : Math)
    (sortSlice : (CityDistance → CityDistance → Bool) → List CityDistance → List CityDistance)
    (olcDecode : GoString → Option CodeArea) (cityMapping : List CityData)
    (plusCode : GoString) : Slice CityData :=
  let plusCodeTrimmed := TrimSpace plusCode
  if plusCodeTrimmed = [] then Slice.mk []
  else
    match olcDecode plusCodeTrimmed with
    | none => Slice.mk []
    | some area =>
      let centerLat := m.add area.LatLo (m.div (m.sub area.LatHi area.LatLo) F64.two)
      let centerLng := m.add area.LngLo (m.div (m.sub area.LngHi area.LngLo) F64.two)
      FindNearestCities m sortSlice cityMapping centerLat centerLng F64.fifty

/-! ## Upper case -/

/-- Go `unicode.ToUpper` on one rune.  ASCII is mapped as the standard library does; beyond
ASCII the rune is looked up in the Unicode case table `upperTable`, a parameter as
`lowerTable` is. -/
def unicodeToUpper (upperTable : Char → Char) (c : Char) : Char :=
  if c.toNat ≤ 0x7F then
    if 0x61 ≤ c.toNat ∧ c.toNat ≤ 0x7A then Char.ofNat (c.toNat - 0x20) else c
  else upperTable c

/-- Go `strings.ToUpper`: every rune mapped by `unicode.ToUpper`. -/
def ToUpper (upperTable : Char → Char) (s : GoString) : GoString :=
  s.map (unicodeToUpper upperTable)

/-- A rune on which the case tables are consistent: lower-casing its lower-case or its
upper-case form gives its lower-case form, and neither form differs from the rune in being
white space. -/
def caseStable (lowerTable upperTable : Char → Char) (c : Char) : Prop :=
  unicodeToLower lowerTable (unicodeToLower lowerTable c) = unicodeToLower lowerTable c ∧
  unicodeToLower lowerTable (unicodeToUpper upperTable c) = unicodeToLower lowerTable c ∧
  isSpace (unicodeToLower lowerTable c) = isSpace c ∧
  isSpace (unicodeToUpper upperTable c) = isSpace c

/-! ## The numeric formulas over an arbitrary number type -/

/-- The operations and constants that `haversineDistance` and the centre computation of
`FindFromPlusCode` use, over a number type `F`. -/
structure Arith (F : Type) where
  add : F → F → F
  sub : F → F → F
  mul : F → F → F
  div : F → F → F
  Sin : F → F
  Cos : F → F
  Sqrt : F → F
  Atan2 : F → F → F
  pi : F
  one : F
  two : F
  c180 : F
  earthRadius : F

/-- The `float64` reading of the operations: those of `m` and the constants of the code. -/
def Math.arith (m : Math) : Arith F64 :=
  ⟨m.add, m.sub, m.mul, m.div, m.Sin, m.Cos, m.Sqrt, m.Atan2,
    F64.pi, F64.one, F64.two, F64.c180, F64.earthRadius⟩

/-- The intermediate value `a` of Go `haversineDistance`, over `F`. -/
def haversineA {F : Type} (A : Arith F) (lat1 lon1 lat2 lon2 : F) : F :=
  let lat1Rad := A.div (A.mul lat1 A.pi) A.c180
  let lon1Rad := A.div (A.mul lon1 A.pi) A.c180
  let lat2Rad := A.div (A.mul lat2 A.pi) A.c180
  let lon2Rad := A.div (A.mul lon2 A.pi) A.c180
  let dLat := A.sub lat2Rad lat1Rad
  let dLon := A.sub lon2Rad lon1Rad
  A.add (A.mul (A.Sin (A.div dLat A.two)) (A.Sin (A.div dLat A.two)))
    (A.mul
      (A.mul (A.mul (A.Cos lat1Rad) (A.Cos lat2Rad)) (A.Sin (A.div dLon A.two)))
      (A.Sin (A.div dLon A.two)))

/-- Go `haversineDistance`, over `F`. -/
def haversineOver {F : Type} (A : Arith F) (lat1 lon1 lat2 lon2 : F) : F :=
  let a := haversineA A lat1 lon1 lat2 lon2
  let c := A.mul A.two (A.Atan2 (A.Sqrt a) (A.Sqrt (A.sub A.one a)))
  let distance := A.mul A.earthRadius c
  distance

/-- The centre `lo + (hi - lo)/2` that Go `FindFromPlusCode` computes, over `F`. -/
def centerOver {F : Type} (A : Arith F) (lo hi : F) : F :=
  A.add lo (A.div (A.sub hi lo) A.two)

/-- Exact arithmetic: the operations over the real numbers, `math.Atan2 y x` being the
argument of the point `(x, y)`. -/
noncomputable def realArith : Arith ℝ :=
  ⟨fun x y => x + y, fun x y => x - y, fun x y => x * y, fun x y => x / y,
    Real.sin, Real.cos, Real.sqrt, fun y x => Complex.arg ⟨x, y⟩,
    Real.pi, 1, 2, 180, 6371⟩

/-- The constant `+0`. -/
def F64.zero : F64 := ⟨0⟩
/-- The constant `90`. -/
def F64.c90 : F64 := ⟨0x4056800000000000⟩
/-- The constant `-90`. -/
def F64.neg90 : F64 := ⟨0xC056800000000000⟩
/-- The constant `-180`. -/
def F64.neg180 : F64 := ⟨0xC066800000000000⟩

/-- A `float64` that is neither an infinity nor a NaN. -/
def F64.isFinite (x : F64) : Bool :=
  decide ((x.bits % 2 ^ 64) % 2 ^ 63 < 0x7FF0000000000000)

/-- The facts about `float64` arithmetic (IEEE-754, rounding to nearest) and about the
documented special cases of package `math` on which the distance of a point to itself
rests: `x - x` is `+0` for finite `x`; the radian value of a coordinate within `[-180, 180]`
is finite; `Sin(+0) = +0`; the square of a cosine is finite and not negative, so that its
product with `+0` is `+0`; `Sqrt(+0) = +0`, `Sqrt(1) = 1`, `Atan2(+0, 1) = +0`; and the
sums, differences and products of the constants with `+0`. -/
structure FloatFacts (m : Math) : Prop where
  sub_self : ∀ x : F64, x.isFinite = true → m.sub x x = F64.zero
  radians_finite : ∀ x : F64, F64.le F64.neg180 x = true → F64.le x F64.c180 = true →
    (m.div (m.mul x F64.pi) F64.c180).isFinite = true
  zero_div_two : m.div F64.zero F64.two = F64.zero
  sin_zero : m.Sin F64.zero = F64.zero
  zero_mul_zero : m.mul F64.zero F64.zero = F64.zero
  cos_cos_mul_zero : ∀ x : F64, x.isFinite = true →
    m.mul (m.mul (m.Cos x) (m.Cos x)) F64.zero = F64.zero
  zero_add_zero : m.add F64.zero F64.zero = F64.zero
  sqrt_zero : m.Sqrt F64.zero = F64.zero
  one_sub_zero : m.sub F64.one F64.zero = F64.one
  sqrt_one : m.Sqrt F64.one = F64.one
  atan2_zero_one : m.Atan2 F64.zero F64.one = F64.zero
  two_mul_zero : m.mul F64.two F64.zero = F64.zero
  earthRadius_mul_zero : m.mul F64.earthRadius F64.zero = F64.zero

/-! ## Loading the table -/

/-- The contents of a file or of a byte slice. -/
abbrev Bytes := List Nat

/-- The ways in which loading fails, one for each error return of `loadEmbeddedCityData` and
`loadCityData`. -/
inductive LoadError where
  | createGzipReader : LoadError
  | decompress : LoadError
  | parseJSON : LoadError
  | readExternal : LoadError
  | parseExternal : LoadError
deriving DecidableEq, Repr

/-- What loading takes from outside the package: the embedded file `data/cityMap.json.gz`,
the files on disk (`os.ReadFile`, `none` for an error), `gzip.NewReader` (`none` for an
error; the reader is represented by the data it reads), `io.ReadAll` on that reader, and
`json.Unmarshal data target`, which gives the decoded table, or fails and leaves the target
with some content. -/
structure LoadEnv where
  embeddedCityData : Bytes
  readFile : GoString → Option Bytes
  gzipNewReader : Bytes → Option Bytes
  readAll : Bytes → Option Bytes
  jsonUnmarshal : Bytes → List CityData → Except (List CityData) (List CityData)

/-- The package state: the variable `cityMapping`, and the names of the files read so
far. -/
structure PkgState where
  cityMapping : List CityData
  filesRead : List GoString
deriving DecidableEq, Repr

/-- Go `loadEmbeddedCityData` (embedded.go). -/
def loadEmbeddedCityData (env : LoadEnv) : Except LoadError (List CityData) :=
  match env.gzipNewReader env.embeddedCityData with
  | none => Except.error LoadError.createGzipReader
  | some gzReader =>
    match env.readAll gzReader with
    | none => Except.error LoadError.decompress
    | some decompressed =>
      match env.jsonUnmarshal decompressed [] with
      | Except.error _ => Except.error LoadError.parseJSON
      | Except.ok cities => Except.ok cities

/-- Go `loadCityData`: the error returned (`none` for nil) and the package state left. -/
def loadCityData (env : LoadEnv) (st : PkgState) : Option LoadError × PkgState :=
  match loadEmbeddedCityData env with
  | Except.ok cities => (none, ⟨cities, st.filesRead⟩)
  | Except.error _ =>
    let filesRead := st.filesRead ++ ["data/cityMap.json".toList]
    match env.readFile "data/cityMap.json".toList with
    | none => (some LoadError.readExternal, ⟨st.cityMapping, filesRead⟩)
    | some data =>
      match env.jsonUnmarshal data st.cityMapping with
      | Except.error left => (some LoadError.parseExternal, ⟨left, filesRead⟩)
      | Except.ok cities => (none, ⟨cities, filesRead⟩)

/-! ## The queries on memory

The queries once more, this time with the slices laid out in memory as the Go runtime does:
a slice is a header that points into a backing array, `append` writes into the backing array
while the capacity lasts and moves to a new array otherwise, `sort.Slice` permutes the
backing array in place, and the package variable `cityMapping` is such a header too.  A
`[]CityData` and a `[]CityDistance` never share a backing array, so each element type has
its own heap. -/

/-- A slice value as the runtime holds it: the address of the backing array, the length and
the capacity; `arr = none` is the nil slice. -/
structure SliceHeader where
  arr : Option Nat
  len : Nat
  cap : Nat
deriving DecidableEq, Repr

/-- The backing arrays of one element type, by address. -/
abbrev Heap (α : Type) := List (List α)

/-- The memory that the queries work on: the backing arrays of the two slice types and the
package variable `cityMapping`. -/
structure Memory where
  cities : Heap CityData
  distances : Heap CityDistance
  cityMapping : SliceHeader

/-- The zero value of `CityData`. -/
def CityData.zero : CityData :=
  ⟨[], [], ⟨0⟩, ⟨0⟩, Any.nil, [], Any.nil, Any.nil, [], [], Any.nil, Any.nil, Any.nil⟩

/-- The zero value of `CityDistance`. -/
def CityDistance.zero : CityDistance := ⟨CityData.zero, ⟨0⟩⟩

/-- The elements of the slice `s`. -/
def sliceElems {α : Type} (h : Heap α) (s : SliceHeader) : List α :=
  match s.arr with
  | none => []
  | some a => (h.getD a []).take s.len

/-- The element `s[i]`. -/
def sliceIndex {α : Type} (h : Heap α) (s : SliceHeader) (i : Nat) : Option α :=
  match s.arr with
  | none => none
  | some a => if i < s.len then (h.getD a [])[i]? else none

/-- Go `make([]T, 0, n)`: a new backing array of `n` zero values. -/
def sliceMake {α : Type} (zero : α) (h : Heap α) (n : Nat) : SliceHeader × Heap α :=
  (⟨some h.length, 0, n⟩, h ++ [List.replicate n zero])

/-- Go `append(s, x)`: within the capacity the element is written into the backing array of
`s`; otherwise a new array receives the elements of `s`, then `x`, then as many spare
places as the runtime chooses (`spare`). -/
def sliceAppend {α : Type} (zero : α) (spare : Nat → Nat) (h : Heap α) (s : SliceHeader)
    (x : α) : SliceHeader × Heap α :=
  match s.arr with
  | some a =>
    if s.len < s.cap then
      (⟨some a, s.len + 1, s.cap⟩, h.set a ((h.getD a []).set s.len x))
    else
      (⟨some h.length, s.len + 1, s.len + 1 + spare s.len⟩,
        h ++ [sliceElems h s ++ [x] ++ List.replicate (spare s.len) zero])
  | none =>
    (⟨some h.length, s.len + 1, s.len + 1 + spare s.len⟩,
      h ++ [sliceElems h s ++ [x] ++ List.replicate (spare s.len) zero])

/-- Go `sort.Slice(s, less)`: the elements of `s` are rearranged within its backing
array. -/
def sortInPlace
    (sortSlice : (CityDistance → CityDistance → Bool) → List CityDistance → List CityDistance)
    (less : CityDistance → CityDistance → Bool) (h : Heap CityDistance) (s : SliceHeader) :
    Heap CityDistance :=
  match s.arr with
  | none => h
  | some a => h.set a (sortSlice less ((h.getD a []).take s.len) ++ (h.getD a []).drop s.len)

/-- The loop `for _, c := range src { if y, ok := f(c); ok { dst = append(dst, y) } }`, with
`n` iterations left from index `i` on.  The element `src[i]` is read from memory in each
iteration: from the heap `srcHeap h`, where `h` is the heap that the loop appends to. -/
def rangeAppend {α β : Type} (zero : β) (spare : Nat → Nat) (f : α → Option β)
    (srcHeap : Heap β → Heap α) (src : SliceHeader) :
    Nat → Nat → Heap β × SliceHeader → Heap β × SliceHeader
  | 0, _, st => st
  | n + 1, i, (h, dst) =>
    match sliceIndex (srcHeap h) src i with
    | none => (h, dst)
    | some c =>
      match f c with
      | some y =>
        rangeAppend zero spare f srcHeap src n (i + 1)
          ((sliceAppend zero spare h dst y).2, (sliceAppend zero spare h dst y).1)
      | none => rangeAppend zero spare f srcHeap src n (i + 1) (h, dst)

/-- Go `GetCityMapping` on memory: the header held by the package variable. -/
def GetCityMappingMem (mem : Memory) : SliceHeader × Memory := (mem.cityMapping, mem)

/-- The records that the slice returned by `GetCityMapping()` holds. -/
def tableOf (mem : Memory) : List CityData :=
  sliceElems (GetCityMappingMem mem).2.cities (GetCityMappingMem mem).1

/-- Go `LookupViaCity` on memory. -/
def LookupViaCityMem (spare : Nat → Nat) (lowerTable : Char → Char) (mem : Memory)
    (city : GoString) : SliceHeader × Memory :=
  let results : SliceHeader := ⟨none, 0, 0⟩
  let cityTrimmed := TrimSpace city
  if cityTrimmed = [] then (results, mem)
  else
    let cityLower := ToLower lowerTable cityTrimmed
    let r := rangeAppend CityData.zero spare
      (fun c => if ToLower lowerTable c.City = cityLower then some c else none)
      (fun h => h) mem.cityMapping mem.cityMapping.len 0 (mem.cities, results)
    (r.2, ⟨r.1, mem.distances, mem.cityMapping⟩)

/-- Go `FindFromCityStateProvince` on memory. -/
def FindFromCityStateProvinceMem (spare : Nat → Nat) (lowerTable : Char → Char)
    (mem : Memory) (searchString : GoString) : SliceHeader × Memory :=
  if searchString = [] then
    ((sliceMake CityData.zero mem.cities 0).1,
      ⟨(sliceMake CityData.zero mem.cities 0).2, mem.distances, mem.cityMapping⟩)
  else
    let results : SliceHeader := ⟨none, 0, 0⟩
    let r := rangeAppend CityData.zero spare
      (fun c =>
        if findPartialMatch lowerTable (searchFieldsOf c) searchString then some c else none)
      (fun h => h) mem.cityMapping mem.cityMapping.len 0 (mem.cities, results)
    (r.2, ⟨r.1, mem.distances, mem.cityMapping⟩)

/-- Go `FindFromIsoCode` on memory. -/
def FindFromIsoCodeMem (spare : Nat → Nat) (lowerTable : Char → Char) (mem : Memory)
    (isoCode : GoString) : SliceHeader × Memory :=
  let isoTrimmed := TrimSpace isoCode
  if isoTrimmed = [] then
    ((sliceMake CityData.zero mem.cities 0).1,
      ⟨(sliceMake CityData.zero mem.cities 0).2, mem.distances, mem.cityMapping⟩)
  else
    let results : SliceHeader := ⟨none, 0, 0⟩
    let isoLower := ToLower lowerTable isoTrimmed
    let r := rangeAppend CityData.zero spare
      (fun c =>
        let iso2Match : Bool :=
          match c.ISO2 with
          | Any.str iso2Str => decide (ToLower lowerTable iso2Str = isoLower)
          | _ => false
        let iso3Match : Bool :=
          match c.ISO3 with
          | Any.str iso3Str => decide (ToLower lowerTable iso3Str = isoLower)
          | _ => false
        if iso2Match || iso3Match then some c else none)
      (fun h => h) mem.cityMapping mem.cityMapping.len 0 (mem.cities, results)
    (r.2, ⟨r.1, mem.distances, mem.cityMapping⟩)

/-- Go `FindNearestCities` on memory. -/
def FindNearestCitiesMem (spare : Nat → Nat) (m : Math)
    (sortSlice : (CityDistance → CityDistance → Bool) → List CityDistance → List CityDistance)
    (mem : Memory) (lat lng radiusKm : F64) : SliceHeader × Memory :=
  let r1 := rangeAppend CityDistance.zero spare
    (fun city =>
      let distance := haversineDistance m lat lng city.Lat city.Lng
      if F64.le distance radiusKm then some (⟨city, distance⟩ : CityDistance) else none)
    (fun _ => mem.cities) mem.cityMapping mem.cityMapping.len 0 (mem.distances, ⟨none, 0, 0⟩)
  let results := r1.2
  let distances := sortInPlace sortSlice distanceLess r1.1 results
  let made := sliceMake CityData.zero mem.cities results.len
  let r2 := rangeAppend CityData.zero spare
    (fun result : CityDistance => some result.toCityData)
    (fun _ => distances) results results.len 0 (made.2, made.1)
  (r2.2, ⟨r2.1, distances, mem.cityMapping⟩)

/-- Go `FindFromCoordinates` on memory. -/
def FindFromCoordinatesMem (spare : Nat → Nat) (m : Math)
    (sortSlice : (CityDistance → CityDistance → Bool) → List CityDistance → List CityDistance)
    (parseFloat : GoString → Option F64) (mem : Memory) (coords : Coords) :
    SliceHeader × Memory :=
  match parseCoordinates parseFloat coords with
  | none =>
    ((sliceMake CityData.zero mem.cities 0).1,
      ⟨(sliceMake CityData.zero mem.cities 0).2, mem.distances, mem.cityMapping⟩)
  | some (lat, lng) => FindNearestCitiesMem spare m sortSlice mem lat lng F64.fifty

/-- Go `FindFromPlusCode` on memory. -/
def FindFromPlusCodeMem (spare : Nat → Nat) (m : Math)
    (sortSlice : (CityDistance → CityDistance → Bool) → List CityDistance → List CityDistance)
    (olcDecode : GoString → Option CodeArea) (mem : Memory) (plusCode : GoString) :
    SliceHeader × Memory :=
  let plusCodeTrimmed := TrimSpace plusCode
  if plusCodeTrimmed = [] then
    ((sliceMake CityData.zero mem.cities 0).1,
      ⟨(sliceMake CityData.zero mem.cities 0).2, mem.distances, mem.cityMapping⟩)
  else
    match olcDecode plusCodeTrimmed with
    | none =>
      ((sliceMake CityData.zero mem.cities 0).1,
        ⟨(sliceMake CityData.zero mem.cities 0).2, mem.distances, mem.cityMapping⟩)
    | some area =>
      let centerLat := m.add area.LatLo (m.div (m.sub area.LatHi area.LatLo) F64.two)
      let centerLng := m.add area.LngLo (m.div (m.sub area.LngHi area.LngLo) F64.two)
      FindNearestCitiesMem spare m sortSlice mem centerLat centerLng F64.fifty

/-- A slice header is valid in a heap when its length is within its capacity, the nil slice
has length zero, and a non-nil slice points to an existing backing array that is at least
as long as the capacity. -/
def headerValid {α : Type} (h : Heap α) (s : SliceHeader) : Prop :=
  s.len ≤ s.cap ∧ (s.arr = none → s.len = 0) ∧
    ∀ a, s.arr = some a → a < h.length ∧ s.cap ≤ (h.getD a []).length

/-- The slice `dst` does not point to the backing array at address `t`, and points into
the heap `h`. -/
def separateFrom {α : Type} (t : Nat) (h : Heap α) (dst : SliceHeader) : Prop :=
  ∀ a, dst.arr = some a → a ≠ t ∧ a < h.length

/-- The Go slice value that a header denotes in a heap. -/
def sliceValue {α : Type} (h : Heap α) (s : SliceHeader) : Slice α :=
  match s.arr with
  | none => Slice.nil
  | some _ => Slice.mk (sliceElems h s)

/-! ## Matching field by field -/

/-- Every term is a substring of the lower-cased form of at least one of the fields. -/
def matchesWithinFields (lowerTable : Char → Char) (searchFields : List GoString)
    (terms : List GoString) : Bool :=
  terms.all (fun term => searchFields.any (fun field => Contains (ToLower lowerTable field) term))

/-- The matching rule as the specification words it, without the joined string: the trimmed
query is non-empty, and every term of it, lower-cased, is a substring of the lower-cased
form of at least one individual field.  It is compared with the code of `findPartialMatch`
below. -/
def findPartialMatchByField (lowerTable : Char → Char) (searchFields : List GoString)
    (searchString : GoString) : Bool :=
  decide (TrimSpace searchString ≠ []) &&
    matchesWithinFields lowerTable searchFields
      ((Fields (TrimSpace searchString)).map (ToLower lowerTable))

/-! ## Goroutines

Several goroutines call the query functions at the same time, on the one memory.  A call is
cut into steps: entering the function, one iteration of a loop (which reads one element of
the slice ranged over and may append to the goroutine's own result slice), the call of
`sort.Slice`, the call of `make`.  A schedule says which goroutine takes the next step; the
steps of different goroutines interleave in any order. -/

/-- One call of a query function. -/
inductive Call where
  | lookupViaCity (city : GoString) : Call
  | findFromIsoCode (isoCode : GoString) : Call
  | findNearestCities (lat lng radiusKm : F64) : Call
  | getCityMapping : Call

/-- Where a goroutine stands in its call, with the local variables of the function that are
live there: in the loop of `LookupViaCity` or `FindFromIsoCode` (`filtering`, with the loop
condition `f`, the slice ranged over, the index and `results`), in the first loop of
`FindNearestCities` (`measuring`), before `sort.Slice` (`sorting`), before `make` (`making`),
in the second loop of `FindNearestCities` (`copying`), or back with its result. -/
inductive Goroutine where
  | called (call : Call) : Goroutine
  | filtering (f : CityData → Option CityData) (src : SliceHeader) (i : Nat)
      (results : SliceHeader) : Goroutine
  | measuring (f : CityData → Option CityDistance) (src : SliceHeader) (i : Nat)
      (results : SliceHeader) : Goroutine
  | sorting (results : SliceHeader) : Goroutine
  | making (results : SliceHeader) : Goroutine
  | copying (results : SliceHeader) (i : Nat) (cities : SliceHeader) : Goroutine
  | returned (result : SliceHeader) : Goroutine

/-- The first step of a call: the code of the function up to its first loop. -/
def Call.enter (lowerTable : Char → Char) (m : Math) (mem : Memory) :
    Call → Memory × Goroutine
  | Call.lookupViaCity city =>
    let results : SliceHeader := ⟨none, 0, 0⟩
    let cityTrimmed := TrimSpace city
    if cityTrimmed = [] then (mem, Goroutine.returned results)
    else
      let cityLower := ToLower lowerTable cityTrimmed
      (mem, Goroutine.filtering
        (fun c => if ToLower lowerTable c.City = cityLower then some c else none)
        mem.cityMapping 0 results)
  | Call.findFromIsoCode isoCode =>
    let isoTrimmed := TrimSpace isoCode
    if isoTrimmed = [] then
      (⟨(sliceMake CityData.zero mem.cities 0).2, mem.distances, mem.cityMapping⟩,
        Goroutine.returned (sliceMake CityData.zero mem.cities 0).1)
    else
      let results : SliceHeader := ⟨none, 0, 0⟩
      let isoLower := ToLower lowerTable isoTrimmed
      (mem, Goroutine.filtering
        (fun c =>
          let iso2Match : Bool :=
            match c.ISO2 with
            | Any.str iso2Str => decide (ToLower lowerTable iso2Str = isoLower)
            | _ => false
          let iso3Match : Bool :=
            match c.ISO3 with
            | Any.str iso3Str => decide (ToLower lowerTable iso3Str = isoLower)
            | _ => false
          if iso2Match || iso3Match then some c else none)
        mem.cityMapping 0 results)
  | Call.findNearestCities lat lng radiusKm =>
    (mem, Goroutine.measuring
      (fun city =>
        let distance := haversineDistance m lat lng city.Lat city.Lng
        if F64.le distance radiusKm then some (⟨city, distance⟩ : CityDistance) else none)
      mem.cityMapping 0 ⟨none, 0, 0⟩)
  | Call.getCityMapping => (mem, Goroutine.returned mem.cityMapping)

/-- One step of a goroutine on the memory: the memory and the goroutine afterwards.  A
goroutine that has returned does nothing more. -/
def Goroutine.step (spare : Nat → Nat) (lowerTable : Char → Char) (m : Math)
    (sortSlice : (CityDistance → CityDistance → Bool) → List CityDistance → List CityDistance)
    (mem : Memory) : Goroutine → Memory × Goroutine
  | Goroutine.called call => call.enter lowerTable m mem
  | Goroutine.filtering f src i results =>
    if i < src.len then
      match sliceIndex mem.cities src i with
      | none => (mem, Goroutine.returned results)
      | some c =>
        match f c with
        | some y =>
          (⟨(sliceAppend CityData.zero spare mem.cities results y).2, mem.distances,
              mem.cityMapping⟩,
            Goroutine.filtering f src (i + 1)
              (sliceAppend CityData.zero spare mem.cities results y).1)
        | none => (mem, Goroutine.filtering f src (i + 1) results)
    else (mem, Goroutine.returned results)
  | Goroutine.measuring f src i results =>
    if i < src.len then
      match sliceIndex mem.cities src i with
      | none => (mem, Goroutine.sorting results)
      | some city =>
        match f city with
        | some y =>
          (⟨mem.cities, (sliceAppend CityDistance.zero spare mem.distances results y).2,
              mem.cityMapping⟩,
            Goroutine.measuring f src (i + 1)
              (sliceAppend CityDistance.zero spare mem.distances results y).1)
        | none => (mem, Goroutine.measuring f src (i + 1) results)
    else (mem, Goroutine.sorting results)
  | Goroutine.sorting results =>
    (⟨mem.cities, sortInPlace sortSlice distanceLess mem.distances results, mem.cityMapping⟩,
      Goroutine.making results)
  | Goroutine.making results =>
    (⟨(sliceMake CityData.zero mem.cities results.len).2, mem.distances, mem.cityMapping⟩,
      Goroutine.copying results 0 (sliceMake CityData.zero mem.cities results.len).1)
  | Goroutine.copying results i cities =>
    if i < results.len then
      match sliceIndex mem.distances results i with
      | none => (mem, Goroutine.returned cities)
      | some result =>
        (⟨(sliceAppend CityData.zero spare mem.cities cities result.toCityData).2,
            mem.distances, mem.cityMapping⟩,
          Goroutine.copying results (i + 1)
            (sliceAppend CityData.zero spare mem.cities cities result.toCityData).1)
    else (mem, Goroutine.returned cities)
  | Goroutine.returned result => (mem, Goroutine.returned result)

/-- The goroutine numbered `k` takes one step (nothing happens when there is no such
goroutine). -/
def schedStep (spare : Nat → Nat) (lowerTable : Char → Char) (m : Math)
    (sortSlice : (CityDistance → CityDistance → Bool) → List CityDistance → List CityDistance)
    (st : Memory × List Goroutine) (k : Nat) : Memory × List Goroutine :=
  match st.2[k]? with
  | none => st
  | some g =>
    ((Goroutine.step spare lowerTable m sortSlice st.1 g).1,
      st.2.set k (Goroutine.step spare lowerTable m sortSlice st.1 g).2)

/-- The goroutines run as the schedule says: each number in `sched` is the goroutine that
takes the next step. -/
def runSchedule (spare : Nat → Nat) (lowerTable : Char → Char) (m : Math)
    (sortSlice : (CityDistance → CityDistance → Bool) → List CityDistance → List CityDistance)
    (sched : List Nat) (st : Memory × List Goroutine) : Memory × List Goroutine :=
  sched.foldl (schedStep spare lowerTable m sortSlice) st

/-- The call run alone, from beginning to end, on the memory `mem`. -/
def Call.alone (spare : Nat → Nat) (lowerTable : Char → Char) (m : Math)
    (sortSlice : (CityDistance → CityDistance → Bool) → List CityDistance → List CityDistance)
    (mem : Memory) : Call → SliceHeader × Memory
  | Call.lookupViaCity city => LookupViaCityMem spare lowerTable mem city
  | Call.findFromIsoCode isoCode => FindFromIsoCodeMem spare lowerTable mem isoCode
  | Call.findNearestCities lat lng radiusKm =>
    FindNearestCitiesMem spare m sortSlice mem lat lng radiusKm
  | Call.getCityMapping => GetCityMappingMem mem

/-- The slice value that the call returns when it runs alone on the memory `mem`. -/
def Call.valueAlone (spare : Nat → Nat) (lowerTable : Char → Char) (m : Math)
    (sortSlice : (CityDistance → CityDistance → Bool) → List CityDistance → List CityDistance)
    (mem : Memory) (call : Call) : Slice CityData :=
  sliceValue (call.alone spare lowerTable m sortSlice mem).2.cities
    (call.alone spare lowerTable m sortSlice mem).1

/-- The slice of element type `CityData` that the goroutine holds in a local variable. -/
def Goroutine.cityHeader : Goroutine → SliceHeader
  | Goroutine.filtering _ _ _ results => results
  | Goroutine.copying _ _ cities => cities
  | Goroutine.returned result => result
  | _ => ⟨none, 0, 0⟩

/-- The slice of element type `CityDistance` that the goroutine holds in a local variable. -/
def Goroutine.distHeader : Goroutine → SliceHeader
  | Goroutine.measuring _ _ _ results => results
  | Goroutine.sorting results => results
  | Goroutine.making results => results
  | Goroutine.copying results _ _ => results
  | _ => ⟨none, 0, 0⟩

/-- A bound on the number of steps that the goroutine has left, for a table of `n`
records. -/
def Goroutine.stepsLeft (n : Nat) : Goroutine → Nat
  | Goroutine.called _ => 2 * n + 5
  | Goroutine.filtering _ src i _ => (src.len - i) + 1
  | Goroutine.measuring _ src i results => 2 * (src.len - i) + results.len + 4
  | Goroutine.sorting results => results.len + 3
  | Goroutine.making results => results.len + 2
  | Goroutine.copying results i _ => (results.len - i) + 1
  | Goroutine.returned _ => 0

/-- The slice that a loop leaves which started from the nil slice and appended the
elements `l`: nil when it appended nothing. -/
def valueOfKept {α : Type} (l : List α) : Slice α :=
  if l.isEmpty = true then Slice.nil else Slice.mk l

/-- The value that a call returns on a table with the records `T`, held by a slice with the
header `hdr`: the list-level function of the call. -/
def Call.result (lowerTable : Char → Char) (m : Math)
    (sortSlice : (CityDistance → CityDistance → Bool) → List CityDistance → List CityDistance)
    (hdr : SliceHeader) (T : List CityData) : Call → Slice CityData
  | Call.lookupViaCity city => LookupViaCity lowerTable T city
  | Call.findFromIsoCode isoCode => FindFromIsoCode lowerTable T isoCode
  | Call.findNearestCities lat lng radiusKm => FindNearestCities m sortSlice T lat lng radiusKm
  | Call.getCityMapping =>
    match hdr.arr with
    | none => Slice.nil
    | some _ => Slice.mk T

/-- The memory holds the table: the package variable is the header `hdr`, a valid slice
with the elements `T`. -/
def tableIs (hdr : SliceHeader) (T : List CityData) (mem : Memory) : Prop :=
  mem.cityMapping = hdr ∧ headerValid mem.cities hdr ∧ sliceElems mem.cities hdr = T

/-- What is true of a goroutine in the middle of the call `call`, in terms of the elements
`C` of its `CityData` slice and the elements `D` of its `CityDistance` slice: how far the
loops have come, that its result slice is not the table, and that what is left to do gives
the result of the call. -/
def Goroutine.inv (lowerTable : Char → Char) (m : Math)
    (sortSlice : (CityDistance → CityDistance → Bool) → List CityDistance → List CityDistance)
    (hdr : SliceHeader) (T : List CityData) (call : Call) (C : List CityData)
    (D : List CityDistance) : Goroutine → Prop
  | Goroutine.called c => c = call
  | Goroutine.filtering f src i results =>
    src = hdr ∧ i ≤ T.length ∧ (∀ a, results.arr = some a → hdr.arr ≠ some a) ∧
    C = (T.take i).filterMap f ∧ (results.arr = none ↔ C = []) ∧
    valueOfKept (T.filterMap f) = call.result lowerTable m sortSlice hdr T
  | Goroutine.measuring f src i _ =>
    src = hdr ∧ i ≤ T.length ∧ D = (T.take i).filterMap f ∧
    Slice.mk ((sortSlice distanceLess (T.filterMap f)).map (fun e => e.toCityData)) =
      call.result lowerTable m sortSlice hdr T
  | Goroutine.sorting _ =>
    Slice.mk ((sortSlice distanceLess D).map (fun e => e.toCityData)) =
      call.result lowerTable m sortSlice hdr T
  | Goroutine.making _ =>
    Slice.mk (D.map (fun e => e.toCityData)) = call.result lowerTable m sortSlice hdr T
  | Goroutine.copying results i cities =>
    (∀ a, cities.arr = some a → hdr.arr ≠ some a) ∧ cities.arr ≠ none ∧ i ≤ results.len ∧
    C = (D.take i).map (fun e => e.toCityData) ∧
    Slice.mk (D.map (fun e => e.toCityData)) = call.result lowerTable m sortSlice hdr T
  | Goroutine.returned result =>
    (match result.arr with
      | none => Slice.nil
      | some _ => Slice.mk C) = call.result lowerTable m sortSlice hdr T

/-- The goroutine is in order in the memory `mem`: its slices are valid, and `inv` holds of
their elements. -/
def Goroutine.ok (lowerTable : Char → Char) (m : Math)
    (sortSlice : (CityDistance → CityDistance → Bool) → List CityDistance → List CityDistance)
    (hdr : SliceHeader) (T : List CityData) (call : Call) (mem : Memory) (g : Goroutine) :
    Prop :=
  headerValid mem.cities g.cityHeader ∧ headerValid mem.distances g.distHeader ∧
  g.inv lowerTable m sortSlice hdr T call (sliceElems mem.cities g.cityHeader)
    (sliceElems mem.distances g.distHeader)

/-- The goroutines are in order in the memory, each in its call of `calls`, and no two of
them hold the same backing array, the table apart. -/
def goroutinesOk (lowerTable : Char → Char) (m : Math)
    (sortSlice : (CityDistance → CityDistance → Bool) → List CityDistance → List CityDistance)
    (hdr : SliceHeader) (T : List CityData) (calls : List Call)
    (st : Memory × List Goroutine) : Prop :=
  tableIs hdr T st.1 ∧
  (∀ (k : Nat) (g : Goroutine), st.2[k]? = some g →
    ∃ call, calls[k]? = some call ∧ g.ok lowerTable m sortSlice hdr T call st.1) ∧
  (∀ (j k : Nat) (gj gk : Goroutine) (a : Nat), j ≠ k → st.2[j]? = some gj →
    st.2[k]? = some gk →
    gj.cityHeader.arr = some a → gk.cityHeader.arr = some a → hdr.arr = some a) ∧
  (∀ (j k : Nat) (gj gk : Goroutine) (a : Nat), j ≠ k → st.2[j]? = some gj →
    st.2[k]? = some gk →
    gj.distHeader.arr = some a → gk.distHeader.arr = some a → False)

/-! ## sort.Slice as package sort implements it, on short slices

The function `sort.Slice` of the Go library (file `zsortfunc.go`, `pdqsort_func`), as far as
it runs on a slice of at most 13 elements: up to 12 elements are sorted by insertion; 13
elements go once through the choice of a pivot, the check for a slice that is sorted
already, and the partition, and the two parts left are sorted by insertion. -/

/-- The call `data.Less(i, j)`: `less` on the elements at the positions `i` and `j`. -/
def lessAt {β : Type} (less : β → β → Bool) (data : List β) (i j : Nat) : Bool :=
  match data[i]?, data[j]? with
  | some x, some y => less x y
  | _, _ => false

/-- The call `data.Swap(i, j)`. -/
def swapAt {β : Type} (data : List β) (i j : Nat) : List β :=
  match data[i]?, data[j]? with
  | some x, some y => (data.set i y).set j x
  | _, _ => data

/-- The inner loop of `insertionSort_func`:
`for j := i; j > a && data.Less(j, j-1); j-- { data.Swap(j, j-1) }`, from `j` on. -/
def insertionInner {β : Type} (less : β → β → Bool) (a : Nat) : Nat → List β → List β
  | 0, data => data
  | j + 1, data =>
    if a < j + 1 ∧ lessAt less data (j + 1) j = true then
      insertionInner less a j (swapAt data (j + 1) j)
    else data

/-- Go `insertionSort_func(data, a, b)`: `for i := a + 1; i < b; i++` around the inner
loop. -/
def insertionSort_func {β : Type} (less : β → β → Bool) (data : List β) (a b : Nat) : List β :=
  (List.range' (a + 1) (b - (a + 1))).foldl (fun data i => insertionInner less a i data) data

/-- Go `order2_func(data, a, b, swaps)`: the two positions with the smaller element first,
and the count of swaps. -/
def order2_func {β : Type} (less : β → β → Bool) (data : List β) (a b swaps : Nat) :
    Nat × Nat × Nat :=
  if lessAt less data b a = true then (b, a, swaps + 1) else (a, b, swaps)

/-- Go `median_func(data, a, b, c, swaps)`: the position of the median of three, and the
count of swaps. -/
def median_func {β : Type} (less : β → β → Bool) (data : List β) (a b c swaps : Nat) :
    Nat × Nat :=
  let r1 := order2_func less data a b swaps
  let r2 := order2_func less data r1.2.1 c r1.2.2
  let r3 := order2_func less data r1.1 r2.1 r2.2.2
  (r3.2.1, r3.2.2)

/-- The type `sortedHint` of package sort. -/
inductive sortedHint where
  | unknownHint : sortedHint
  | increasingHint : sortedHint
  | decreasingHint : sortedHint
deriving DecidableEq, Repr

/-- Go `choosePivot_func(data, a, b)` on a range of fewer than `shortestNinther = 50`
elements: a static pivot below 8 elements, the median of three from 8 on. -/
def choosePivot_func {β : Type} (less : β → β → Bool) (data : List β) (a b : Nat) :
    Nat × sortedHint :=
  let l := b - a
  let i := a + l / 4 * 1
  let j := a + l / 4 * 2
  let k := a + l / 4 * 3
  let r : Nat × Nat := if 8 ≤ l then median_func less data i j k 0 else (j, 0)
  if r.2 = 0 then (r.1, sortedHint.increasingHint)
  else if r.2 = 4 * 3 then (r.1, sortedHint.decreasingHint)
  else (r.1, sortedHint.unknownHint)

/-- The scan `for i < b && !data.Less(i, i-1) { i++ }` of `partialInsertionSort_func`, with
`fuel` bounding the iterations: the position where it stops. -/
def scanSorted {β : Type} (less : β → β → Bool) (data : List β) (b : Nat) : Nat → Nat → Nat
  | 0, i => i
  | fuel + 1, i =>
    if i < b ∧ lessAt less data i (i - 1) = false then scanSorted less data b fuel (i + 1)
    else i

/-- Go `partialInsertionSort_func(data, a, b)` on a range of fewer than
`shortestShifting = 50` elements: it moves nothing, and says whether the range is sorted. -/
def partialInsertionSort_func {β : Type} (less : β → β → Bool) (data : List β) (a b : Nat) :
    Bool :=
  decide (scanSorted less data b (b - a) (a + 1) = b)

/-- The scan `for i <= j && data.Less(i, a) { i++ }` of `partition_func`: the position
where it stops. -/
def scanLess {β : Type} (less : β → β → Bool) (data : List β) (a j : Nat) : Nat → Nat → Nat
  | 0, i => i
  | fuel + 1, i =>
    if i ≤ j ∧ lessAt less data i a = true then scanLess less data a j fuel (i + 1) else i

/-- The scan `for i <= j && !data.Less(j, a) { j-- }` of `partition_func`: the position
where it stops. -/
def scanNotLess {β : Type} (less : β → β → Bool) (data : List β) (a i : Nat) : Nat → Nat → Nat
  | 0, j => j
  | fuel + 1, j =>
    if i ≤ j ∧ lessAt less data j a = false then scanNotLess less data a i fuel (j - 1) else j

/-- The loop `for { ... }` of `partition_func`: the two scans, then a swap, until the
positions cross. -/
def partitionLoop {β : Type} (less : β → β → Bool) (a : Nat) :
    Nat → List β → Nat → Nat → List β × Nat
  | 0, data, _, j => (data, j)
  | fuel + 1, data, i, j =>
    let i2 := scanLess less data a j data.length i
    let j2 := scanNotLess less data a i2 data.length j
    if j2 < i2 then (data, j2)
    else partitionLoop less a fuel (swapAt data i2 j2) (i2 + 1) (j2 - 1)

/-- Go `partition_func(data, a, b, pivot)`: the slice, the new position of the pivot, and
whether the range was partitioned already. -/
def partition_func {β : Type} (less : β → β → Bool) (data : List β) (a b pivot : Nat) :
    List β × Nat × Bool :=
  let data := swapAt data a pivot
  let i := scanLess less data a (b - 1) data.length (a + 1)
  let j := scanNotLess less data a i data.length (b - 1)
  if j < i then (swapAt data j a, j, true)
  else
    let r := partitionLoop less a data.length (swapAt data i j) (i + 1) (j - 1)
    (swapAt r.1 r.2 a, r.2, false)

/-- Go `pdqsort_func(data, 0, n, bits.Len(n))`, the call that `sort.Slice` makes, for
`n ≤ 13`; `none` for a longer slice, which is not modelled.  With 13 elements the first
round of the loop runs with `wasBalanced` and `wasPartitioned` true and `a = 0`, so
`breakPatterns_func` and `partitionEqual_func` are not called; the hint cannot be
`decreasingHint`, which takes 12 swaps; each part that the partition leaves has at most 12
elements and is sorted by insertion, the shorter part first. -/
def pdqsort_func {β : Type} (less : β → β → Bool) (data : List β) : Option (List β) :=
  let n := data.length
  if n ≤ 12 then some (insertionSort_func less data 0 n)
  else if n = 13 then
    let p := choosePivot_func less data 0 n
    if p.2 = sortedHint.increasingHint ∧ partialInsertionSort_func less data 0 n = true then
      some data
    else
      let r := partition_func less data 0 n p.1
      let mid := r.2.1
      if mid - 0 < n - mid then
        some (insertionSort_func less (insertionSort_func less r.1 0 mid) (mid + 1) n)
      else
        some (insertionSort_func less (insertionSort_func less r.1 (mid + 1) n) 0 mid)
  else none

/-- Go `sort.Slice(x, less)` on a slice of at most 13 elements: the slice that it leaves
behind.  The sort is followed on the positions that the elements had at the start: `less`
is asked about the elements that stand at two positions now.  A longer slice is outside
this model and comes back as it is. -/
def goSortSlice {α : Type} (less : α → α → Bool) (l : List α) : List α :=
  match pdqsort_func (fun a b => lessAt less l a b) (List.range l.length) with
  | some perm => perm.filterMap (fun p => l[p]?)
  | none => l

/-! ## IEEE-754 binary64 arithmetic

Go's `+`, `-`, `*`, `/` on `float64` and `math.Sqrt` are the operations of IEEE-754 binary64
with rounding to nearest, ties to even.  A finite `float64` is a whole number of units of
`2^-1074`, so the exact result of an operation is a ratio of two natural numbers of units,
and the operation returns the `float64` nearest to it.  The payload and the sign of a NaN
result are not modelled: every NaN result is `F64.nan`. -/

/-- Go `math.IsNaN`. -/
def F64.isNaN (x : F64) : Bool :=
  decide (0x7FF0000000000000 < (x.bits % 2 ^ 64) % 2 ^ 63)

/-- Go `math.IsInf(x, 0)`. -/
def F64.isInf (x : F64) : Bool :=
  decide ((x.bits % 2 ^ 64) % 2 ^ 63 = 0x7FF0000000000000)

/-- Go `math.Signbit`. -/
def F64.signBit (x : F64) : Bool :=
  decide (2 ^ 63 ≤ x.bits % 2 ^ 64)

/-- The magnitude of a finite `float64` in units of `2^-1074`: the fraction field for a
subnormal number, and the 53-bit significand shifted by the exponent field otherwise. -/
def F64.mag (x : F64) : Nat :=
  let b := (x.bits % 2 ^ 64) % 2 ^ 63
  if b < 2 ^ 52 then b else (2 ^ 52 + b % 2 ^ 52) * 2 ^ (b / 2 ^ 52 - 1)

/-- The value of a finite `float64` in units of `2^-1074`. -/
def F64.toScaled (x : F64) : Int :=
  if x.signBit then -(x.mag : Int) else (x.mag : Int)

/-- The `float64` with the given sign bit and the given exponent and fraction fields. -/
def F64.ofSignMag (neg : Bool) (b : Nat) : F64 :=
  ⟨if neg then 2 ^ 63 + b else b⟩

/-- The NaN that the model returns for every NaN result. -/
def F64.nan : F64 := ⟨0x7FF8000000000001⟩

/-- The infinity of the given sign. -/
def F64.inf (neg : Bool) : F64 := F64.ofSignMag neg 0x7FF0000000000000

/-- The number of low bits, a multiple of `s`, that are dropped from `q` to bring it below
`2^(52+s)`: `q` is cut by `s` bits at a time, at most `fuel` times. -/
def shiftLoop (s : Nat) : Nat → Nat → Nat
  | 0, _ => 0
  | fuel + 1, q => if q < 2 ^ (52 + s) then 0 else shiftLoop s fuel (q / 2 ^ s) + s

/-- The number of low bits that `q < 2^3300` loses when it is cut to 53 bits: the least `e`
with `q / 2^e < 2^53`.  The bits are dropped 64 at a time, then 8 at a time, then one by
one. -/
def shiftFor (q : Nat) : Nat :=
  let a := shiftLoop 64 50 q
  let b := shiftLoop 8 8 (q / 2 ^ a)
  let c := shiftLoop 1 8 (q / 2 ^ a / 2 ^ b)
  a + b + c

/-- The exponent and fraction fields of the `float64` nearest to `n / d` units of `2^-1074`
(ties to even), for `d > 0`; those of the infinity when the rounded value is too large.  The
candidates near `n / d` are the multiples of `2^e` units; `q` is the one below, `r` what is
left over, and the fields of `q2 * 2^e` are `e * 2^52 + q2` whether the result is subnormal
(`e = 0`, `q2 < 2^52`), normal, or `q2 = 2^53`. -/
def roundMag (n d : Nat) : Nat :=
  let e := shiftFor (n / d)
  let D := d * 2 ^ e
  let q := n / D
  let r := n % D
  let q2 := if D < 2 * r ∨ (2 * r = D ∧ q % 2 = 1) then q + 1 else q
  min (e * 2 ^ 52 + q2) 0x7FF0000000000000

/-- Go `-x` on `float64`: the sign bit flipped. -/
def F64.neg (x : F64) : F64 :=
  ⟨(x.bits % 2 ^ 64 + 2 ^ 63) % 2 ^ 64⟩

/-- Go `x + y` on `float64`. -/
def F64.add (x y : F64) : F64 :=
  if x.isNaN || y.isNaN then F64.nan
  else if x.isInf then
    if y.isInf && (x.signBit != y.signBit) then F64.nan else F64.inf x.signBit
  else if y.isInf then F64.inf y.signBit
  else
    let z := x.toScaled + y.toScaled
    if z = 0 then F64.ofSignMag (x.signBit && y.signBit) 0
    else F64.ofSignMag (decide (z < 0)) (roundMag z.natAbs 1)

/-- Go `x - y` on `float64`. -/
def F64.sub (x y : F64) : F64 :=
  F64.add x y.neg

/-- Go `x * y` on `float64`. -/
def F64.mul (x y : F64) : F64 :=
  if x.isNaN || y.isNaN then F64.nan
  else if x.isInf || y.isInf then
    if (!x.isInf && x.mag = 0) || (!y.isInf && y.mag = 0) then F64.nan
    else F64.inf (x.signBit != y.signBit)
  else F64.ofSignMag (x.signBit != y.signBit) (roundMag (x.mag * y.mag) (2 ^ 1074))

/-- Go `x / y` on `float64`. -/
def F64.div (x y : F64) : F64 :=
  if x.isNaN || y.isNaN then F64.nan
  else if x.isInf then
    if y.isInf then F64.nan else F64.inf (x.signBit != y.signBit)
  else if y.isInf then F64.ofSignMag (x.signBit != y.signBit) 0
  else if y.mag = 0 then
    if x.mag = 0 then F64.nan else F64.inf (x.signBit != y.signBit)
  else F64.ofSignMag (x.signBit != y.signBit) (roundMag (x.mag * 2 ^ 1074) y.mag)

/-- The integer square root of `n < 2^(2*i)`, bit by bit from bit `i - 1` down; `r` holds
the bits found so far. -/
def isqrtLoop (n : Nat) : Nat → Nat → Nat
  | 0, r => r
  | i + 1, r => isqrtLoop n i (if (r + 2 ^ i) * (r + 2 ^ i) ≤ n then r + 2 ^ i else r)

/-- Newton's iteration for the integer square root of `n`, downwards from `x`, at most
`fuel` steps. -/
def isqrtNewton (n : Nat) : Nat → Nat → Nat
  | 0, x => x
  | fuel + 1, x => if (x + n / x) / 2 < x then isqrtNewton n fuel ((x + n / x) / 2) else x

/-- The integer square root of `n < 2^3200`: the result of Newton's iteration from `x0`
when that is the root, and otherwise the root as found bit by bit. -/
def isqrt (n x0 : Nat) : Nat :=
  let s := isqrtNewton n 64 x0
  if s * s ≤ n ∧ n < (s + 1) * (s + 1) then s else isqrtLoop n 1600 0

/-- Go `math.Sqrt`: NaN for a NaN and for a negative number, the argument itself for a zero
and for `+Inf`, and otherwise the `float64` nearest to the square root.  The square root of
`k` units is the square root of `k * 2^1074`, in units; the last bit added to twice its
integer part says whether anything is left below the integer part. -/
def F64.sqrt (x : F64) : F64 :=
  if x.isNaN then F64.nan
  else if x.mag = 0 then x
  else if x.signBit then F64.nan
  else if x.isInf then x
  else
    let n := x.mag * 2 ^ 1074
    let s := isqrt n (2 ^ ((shiftFor x.mag + 1128) / 2 + 1))
    F64.ofSignMag false (roundMag (2 * s + (if s * s = n then 0 else 1)) 2)

/-- The `float64` arithmetic of Go: the IEEE-754 operations and `math.Sqrt` as defined above,
with the given `math.Sin`, `math.Cos` and `math.Atan2`. -/
def ieeeMath (Sin Cos : F64 → F64) (Atan2 : F64 → F64 → F64) : Math :=
  ⟨F64.add, F64.sub, F64.mul, F64.div, Sin, Cos, F64.sqrt, Atan2⟩

/-- The operations `+`, `-` and `/` of `m` are those of IEEE-754 wherever the standard fixes
the result down to the last bit: on finite operands for `+` and `-`, and for `/` on a
dividend that is not a NaN and a finite divisor other than zero. -/
structure IEEEArith (m : Math) : Prop where
  add_eq : ∀ x y : F64, x.isFinite = true → y.isFinite = true → m.add x y = F64.add x y
  sub_eq : ∀ x y : F64, x.isFinite = true → y.isFinite = true → m.sub x y = F64.sub x y
  div_eq : ∀ x y : F64, x.isNaN = false → y.isFinite = true → y.mag ≠ 0 →
    m.div x y = F64.div x y

/-- A side `lo..hi` of a rectangle whose half-width `float64` computes without rounding: the
bounds are finite, `lo` is below `hi`, the `float64` value of `(hi - lo)/2` is finite and is
exactly half the difference of the bounds, and `lo + hi` does not overflow. -/
def exactSide (lo hi : F64) : Prop :=
  lo.isFinite = true ∧ hi.isFinite = true ∧ lo.toScaled < hi.toScaled ∧
  (F64.div (F64.sub hi lo) F64.two).isFinite = true ∧
  2 * (F64.div (F64.sub hi lo) F64.two).toScaled = hi.toScaled - lo.toScaled ∧
  (F64.add lo hi).isFinite = true

/-- The special cases through which a NaN reaches the result of `haversineDistance`:
`math.Sqrt` of a negative number is NaN, `math.Atan2(y, NaN)` is NaN, and a product with a
NaN factor is NaN. -/
structure NaNFacts (m : Math) : Prop where
  sqrt_neg : ∀ x : F64, F64.lt x F64.zero = true → (m.Sqrt x).isNaN = true
  atan2_nan : ∀ y x : F64, x.isNaN = true → (m.Atan2 y x).isNaN = true
  mul_nan : ∀ x y : F64, y.isNaN = true → (m.mul x y).isNaN = true

/-! ## Concrete instances used by the examples -/

/-- A case table without any mapping beyond ASCII. -/
def asciiCaseTable : Char → Char := fun c => c

/-- A record with the given name, state, province, country and ISO codes, at latitude and
longitude zero, and every other field empty. -/
def mkCity (city : GoString) (stateAnsi : Any) (province country : GoString)
    (iso2 iso3 : Any) : CityData :=
  ⟨city, [], ⟨0⟩, ⟨0⟩, Any.nil, country, iso2, iso3, province, [], stateAnsi, Any.nil, Any.nil⟩

/-- A record that has only a name. -/
def cityNamed (city : GoString) : CityData := mkCity city Any.nil [] [] Any.nil Any.nil

/-- What the documentation of `sort.Slice` promises about the slice it leaves behind: it is a
rearrangement of the input, and when `less` is a strict ordering on the elements that is
transitive both ways (the requirement on `Less` in package `sort`), no element is less than
one placed before it.  The order of equal elements is not promised ("The sort is not
guaranteed to be stable"). -/
structure SortSliceContract
    (sortSlice : (CityDistance → CityDistance → Bool) → List CityDistance → List CityDistance) :
    Prop where
  perm : ∀ less l, (sortSlice less l).Perm l
  sorted : ∀ less l,
    (∀ a ∈ l, less a a = false) →
    (∀ a ∈ l, ∀ b ∈ l, ∀ c ∈ l, less a b = true → less b c = true → less a c = true) →
    (∀ a ∈ l, ∀ b ∈ l, ∀ c ∈ l, less a b = false → less b c = false → less a c = false) →
    (sortSlice less l).Pairwise (fun a b => less b a = false)

/-- Insertion of `x` into a sorted list, in front of the first element that `x` is less
than. -/
def orderedInsert (less : CityDistance → CityDistance → Bool) (x : CityDistance) :
    List CityDistance → List CityDistance
  | [] => [x]
  | y :: ys => if less x y then x :: y :: ys else y :: orderedInsert less x ys

/-- An insertion sort, one behaviour that the contract of `sort.Slice` allows.  It is not the
algorithm of the Go library (for that see `goSortSlice`): it puts an element behind the
elements that it ties with, so that ties come out in the reverse of their order. -/
def insertionSort (less : CityDistance → CityDistance → Bool) (l : List CityDistance) :
    List CityDistance :=
  l.foldr (orderedInsert less) []

/-- A stand-in for the `float64` arithmetic, exact on nothing but simple enough to run: on
small bit patterns it makes `haversineDistance` the difference of the latitudes' bit
patterns. -/
def exampleMath : Math where
  add := fun a b => ⟨a.bits + b.bits⟩
  sub := fun a b => ⟨a.bits - b.bits⟩
  mul := fun a b => ⟨min a.bits b.bits⟩
  div := fun a _ => a
  Sin := fun a => a
  Cos := fun _ => ⟨0⟩
  Sqrt := fun a => a
  Atan2 := fun y _ => y

/-- A stand-in for `strconv.ParseFloat`: it accepts unsigned decimal numerals only and
returns the number as bit pattern. -/
def exampleParseFloat (s : GoString) : Option F64 :=
  if s ≠ [] ∧ s.all Char.isDigit = true then
    some ⟨s.foldl (fun n c => 10 * n + (c.toNat - 0x30)) 0⟩
  else none

/-- A record that has a name and a position. -/
def cityAt (city : GoString) (lat lng : F64) : CityData :=
  ⟨city, [], lat, lng, Any.nil, [], Any.nil, Any.nil, [], [], Any.nil, Any.nil, Any.nil⟩

/-- The coordinate inputs that the specification lists as denoting the pair `(lat, lng)`: a
string `a,b` with exactly one comma whose two trimmed components parse as `lat` and `lng`,
the array `[2]float64{lat, lng}`, or the slice `[]float64{lat, lng}`. -/
def denotesPair (parseFloat : GoString → Option F64) (coords : Coords) (lat lng : F64) :
    Prop :=
  (∃ a b : GoString, coords = Coords.string (a ++ ",".toList ++ b) ∧ ',' ∉ a ∧ ',' ∉ b ∧
    parseFloat (TrimSpace a) = some lat ∧ parseFloat (TrimSpace b) = some lng) ∨
  coords = Coords.array2 lat lng ∨ coords = Coords.slice [lat, lng]

/-- A small table for the examples: under `exampleMath` the records lie at the distances
5, 3, 5 and 9 from the point with bit patterns `(0, 0)`. -/
def exampleCities : List CityData :=
  [cityAt "a".toList ⟨5⟩ ⟨0⟩, cityAt "b".toList ⟨3⟩ ⟨0⟩, cityAt "c".toList ⟨5⟩ ⟨1⟩,
   cityAt "d".toList ⟨9⟩ ⟨1⟩]

/-- A stand-in for `olc.Decode`: it accepts the code `8` only, with a rectangle from 0 to 8
in both directions (as bit patterns). -/
def exampleDecode (code : GoString) : Option CodeArea :=
  if code = "8".toList then some ⟨⟨0⟩, ⟨0⟩, ⟨8⟩, ⟨8⟩, 1⟩ else none

/-- The one entry of the Unicode upper-case table that the example of the dotless i needs:
U+0131 has the upper case U+0049; the lower-case table leaves U+0131 as it is. -/
def dotlessUpperTable : Char → Char := fun c => if c = Char.ofNat 0x131 then 'I' else c

/-- A stand-in environment for loading: the embedded data is the byte `1`, the gzip reader
and `io.ReadAll` pass data through, and the JSON decoder reads the byte `1` as the example
table and refuses everything else; the fallback file holds the byte `0` when
`fallbackPresent`. -/
def exampleLoadEnv (embedded : Bytes) (fallbackPresent : Bool) : LoadEnv where
  embeddedCityData := embedded
  readFile := fun name =>
    if name = "data/cityMap.json".toList ∧ fallbackPresent = true then some [0] else none
  gzipNewReader := fun data => some data
  readAll := fun data => some data
  jsonUnmarshal := fun data target =>
    if data = [1] then Except.ok exampleCities else Except.error target

/-- A memory that holds the example table in a backing array with one spare place. -/
def exampleMemory : Memory :=
  ⟨[exampleCities ++ [CityData.zero]], [], ⟨some 0, 4, 5⟩⟩

/-- Three goroutines: one calls `LookupViaCity("a")`, one `FindNearestCities` around the
point with bit patterns `(0, 0)` with the radius of bit pattern `9`, one `GetCityMapping`. -/
def exampleCalls : List Call :=
  [Call.lookupViaCity "a".toList, Call.findNearestCities ⟨0⟩ ⟨0⟩ ⟨9⟩, Call.getCityMapping]

/-- A schedule that gives each of three goroutines thirteen steps, in turns of uneven
order. -/
def exampleSchedule : List Nat := (List.replicate 13 [1, 0, 1, 2, 0, 2]).flatten.take 39 ++
  (List.replicate 13 [2, 1, 0]).flatten

/-- Thirteen records, twelve at latitude `1.0` and longitude `0.0` and the one named `l` at
latitude `2.0` and longitude `0.0` (as `float64` bit patterns). -/
def thirteenCities : List CityData :=
  [cityAt "a".toList ⟨0x3FF0000000000000⟩ ⟨0⟩, cityAt "b".toList ⟨0x3FF0000000000000⟩ ⟨0⟩,
   cityAt "c".toList ⟨0x3FF0000000000000⟩ ⟨0⟩, cityAt "d".toList ⟨0x3FF0000000000000⟩ ⟨0⟩,
   cityAt "e".toList ⟨0x3FF0000000000000⟩ ⟨0⟩, cityAt "f".toList ⟨0x3FF0000000000000⟩ ⟨0⟩,
   cityAt "g".toList ⟨0x3FF0000000000000⟩ ⟨0⟩, cityAt "h".toList ⟨0x3FF0000000000000⟩ ⟨0⟩,
   cityAt "i".toList ⟨0x3FF0000000000000⟩ ⟨0⟩, cityAt "j".toList ⟨0x3FF0000000000000⟩ ⟨0⟩,
   cityAt "k".toList ⟨0x3FF0000000000000⟩ ⟨0⟩, cityAt "l".toList ⟨0x4000000000000000⟩ ⟨0⟩,
   cityAt "m".toList ⟨0x3FF0000000000000⟩ ⟨0⟩]

/-- Go `math.Sin` at the arguments that occur in the examples, as the Go code of package
`math` computes it without fused multiply-add; other arguments are not tabulated and give
`+0`.  In the order of the table: `Sin(-0.04363323129985824) = -0.043619387365336` and
`Sin(1.5707963267948966) = 1`, for `haversineDistance(2.5, 0, -2.5, 180)`;
`Sin(-0.5169804870747363) = -0.49425748545554227`, for
`haversineDistance(29.6208, -101.2114, -29.6208, 78.7886)`;
`Sin(0.008726646259971648) = 0.008726535498373935` and
`Sin(0.017453292519943295) = 0.01745240643728351`, for the distances from `(0, 0)` to
`(1, 0)` and to `(2, 0)`, which also take `Sin(0) = 0`. -/
def goSin (x : F64) : F64 :=
  if x = ⟨0xBFA657184AE74487⟩ then ⟨0xBFA65547C4694E11⟩
  else if x = ⟨0x3FF921FB54442D18⟩ then ⟨0x3FF0000000000000⟩
  else if x = ⟨0xBFE08B1AA994FF20⟩ then ⟨0xBFDFA1EA25F56C8A⟩
  else if x = ⟨0x3F81DF46A2529D39⟩ then ⟨0x3F81DF37C4954C21⟩
  else if x = ⟨0x3F91DF46A2529D39⟩ then ⟨0x3F91DF0B2B89DD1E⟩
  else F64.zero

/-- Go `math.Cos` at the arguments that occur in the examples, computed as for `goSin`;
other arguments are not tabulated and give `+0`.  In the order of the table:
`Cos(0.04363323129985824) = Cos(-0.04363323129985824) = 0.9990482215818578`, for
`haversineDistance(2.5, 0, -2.5, 180)`;
`Cos(0.5169804870747363) = Cos(-0.5169804870747363) = 0.8693155572467138`, for
`haversineDistance(29.6208, -101.2114, -29.6208, 78.7886)` (the polynomial of package
`math` gives this value, one unit in the last place above the `float64` nearest to the
cosine); `Cos(0) = 1`, `Cos(0.017453292519943295) = 0.9998476951563913` and
`Cos(0.03490658503988659) = 0.9993908270190958`, for the distances from `(0, 0)` to
`(1, 0)` and to `(2, 0)`. -/
def goCos (x : F64) : F64 :=
  if x = ⟨0x3FA657184AE74487⟩ then ⟨0x3FEFF833F9DA45F7⟩
  else if x = ⟨0xBFA657184AE74487⟩ then ⟨0x3FEFF833F9DA45F7⟩
  else if x = ⟨0x3FE08B1AA994FF20⟩ then ⟨0x3FEBD16EDC08EAB7⟩
  else if x = ⟨0xBFE08B1AA994FF20⟩ then ⟨0x3FEBD16EDC08EAB7⟩
  else if x = ⟨0⟩ then ⟨0x3FF0000000000000⟩
  else if x = ⟨0x3F91DF46A2529D39⟩ then ⟨0x3FEFFEC097F5AF8A⟩
  else if x = ⟨0x3FA1DF46A2529D39⟩ then ⟨0x3FEFFB0278BF0567⟩
  else F64.zero

/-- Go `math.Atan2` at the arguments that occur in the examples; other arguments are not
tabulated and give `+0`.  The special cases `Atan2(y, NaN) = NaN` and `Atan2(NaN, x) = NaN`
of its documentation, and the two pairs of square roots of the distances from `(0, 0)` to
`(1, 0)` and to `(2, 0)`, which are
`Atan2(0.008726535498373935, 0.9999619230641713) = 0.008726646259971648` and
`Atan2(0.01745240643728351, 0.9998476951563913) = 0.017453292519943295`. -/
def goAtan2 (y x : F64) : F64 :=
  if x.isNaN || y.isNaN then F64.nan
  else if y = ⟨0x3F81DF37C4954C21⟩ ∧ x = ⟨0x3FEFFFB02599C9CD⟩ then ⟨0x3F81DF46A2529D39⟩
  else if y = ⟨0x3F91DF0B2B89DD1E⟩ ∧ x = ⟨0x3FEFFEC097F5AF8A⟩ then ⟨0x3F91DF46A2529D39⟩
  else F64.zero

/-- The arithmetic of the examples: the IEEE-754 operations, with `math.Sin`, `math.Cos`
and `math.Atan2` at the tabulated arguments. -/
def goMath : Math := ieeeMath goSin goCos goAtan2

/-- Go `olc.Decode` at the codes of the examples: the padded code `86HJ0000+` names the cell
of one degree with the corner `(41, -88)`, which is decoded to latitudes `41..42` and
longitudes `-88..-87` with four digits.  Every other code is treated as rejected, as the
code `invalid` of the test suite is. -/
def gridDecode (code : GoString) : Option CodeArea :=
  if code = "86HJ0000+".toList then
    some ⟨⟨0x4044800000000000⟩, ⟨0xC056000000000000⟩, ⟨0x4045000000000000⟩,
      ⟨0xC055C00000000000⟩, 4⟩
  else none

/-! ## Slices and the filtering loops -/

theorem Slice.toList_append {α : Type} (s : Slice α) (x : α) :
    (s.append x).toList = s.toList ++ [x] := rfl

/-- A loop that appends the elements satisfying `p` computes a filter. -/
theorem toList_foldl_append {α : Type} (p : α → Prop) [DecidablePred p] (l : List α)
    (init : Slice α) :
    (l.foldl (fun results c => if p c then results.append c else results) init).toList =
      init.toList ++ l.filter (fun c => decide (p c)) := by
  induction l generalizing init with
  | nil => simp
  | cons a l ih =>
    rw [List.foldl_cons, ih]
    by_cases h : p a
    · simp [h, Slice.toList_append]
    · simp [h]

/-! ## LookupViaCity -/

theorem LookupViaCity_toList (lowerTable : Char → Char) (cityMapping : List CityData)
    (city : GoString) :
    (LookupViaCity lowerTable cityMapping city).toList =
      if TrimSpace city = [] then []
      else cityMapping.filter (fun c =>
        decide (ToLower lowerTable c.City = ToLower lowerTable (TrimSpace city))) := by
  unfold LookupViaCity
  by_cases h : TrimSpace city = []
  · simp [h, Slice.toList]
  · simp only [h, if_false]
    rw [toList_foldl_append (fun c : CityData =>
      ToLower lowerTable c.City = ToLower lowerTable (TrimSpace city))]
    simp [Slice.toList]

/-- C1 (as stated, refuted): with the table holding one record whose `City` is empty and the
name `" "`, the records whose lower-cased `City` equals the lower-cased trimmed name are that
one record, yet `LookupViaCity` returns nothing. -/
theorem C1_counterexample :
    (LookupViaCity asciiCaseTable [cityNamed []] " ".toList).toList = [] ∧
    [cityNamed []].filter (fun c =>
        decide (ToLower asciiCaseTable c.City = ToLower asciiCaseTable (TrimSpace " ".toList)))
      = [cityNamed []] ∧
    (LookupViaCity asciiCaseTable [cityNamed []] " ".toList).toList ≠
      [cityNamed []].filter (fun c =>
        decide (ToLower asciiCaseTable c.City = ToLower asciiCaseTable (TrimSpace " ".toList))) := by
  decide

/-- C1 (amended): when the trimmed name is empty `LookupViaCity` returns no record; otherwise
it returns exactly the table records whose lower-cased `City` equals the lower-cased trimmed
name, in table order.  `CityAscii` plays no part: a record whose `City` does not match is
never returned, whatever its `CityAscii`. -/
theorem C1_LookupViaCity_exact (lowerTable : Char → Char) (cityMapping : List CityData)
    (city : GoString) :
    (LookupViaCity lowerTable cityMapping city).toList =
      (if TrimSpace city = [] then []
       else cityMapping.filter (fun c =>
        decide (ToLower lowerTable c.City = ToLower lowerTable (TrimSpace city)))) ∧
    ∀ c : CityData, ToLower lowerTable c.City ≠ ToLower lowerTable (TrimSpace city) →
      c ∉ (LookupViaCity lowerTable cityMapping city).toList := by
  refine ⟨LookupViaCity_toList lowerTable cityMapping city, ?_⟩
  intro c hc hmem
  rw [LookupViaCity_toList] at hmem
  by_cases h : TrimSpace city = []
  · simp [h] at hmem
  · simp only [h, if_false, List.mem_filter, decide_eq_true_eq] at hmem
    exact hc hmem.2

/-- C2 (as stated, refuted): the record named `" a"` is in the table, yet looking up its own
name does not return it, because the name is trimmed and the `City` field is not. -/
theorem C2_counterexample :
    cityNamed " a".toList ∈ [cityNamed " a".toList] ∧
    cityNamed " a".toList ∉
      (LookupViaCity asciiCaseTable [cityNamed " a".toList] (cityNamed " a".toList).City).toList := by
  decide

/-- C2 (amended): a record of the table whose `City` is non-empty and has no leading or
trailing white space is among the results of looking up its own `City`. -/
theorem C2_LookupViaCity_includes_entry (lowerTable : Char → Char)
    (cityMapping : List CityData) (e : CityData) (he : e ∈ cityMapping)
    (hne : e.City ≠ []) (htrim : TrimSpace e.City = e.City) :
    e ∈ (LookupViaCity lowerTable cityMapping e.City).toList := by
  rw [LookupViaCity_toList, htrim]
  simp [hne, he]

/-- C2 (amended), at the table of Paris and Chicago and the record of Chicago. -/
theorem C2_LookupViaCity_includes_entry_witness :
    cityNamed "Chicago".toList ∈
      (LookupViaCity asciiCaseTable [cityNamed "Paris".toList, cityNamed "Chicago".toList]
        (cityNamed "Chicago".toList).City).toList :=
  C2_LookupViaCity_includes_entry asciiCaseTable
    [cityNamed "Paris".toList, cityNamed "Chicago".toList] (cityNamed "Chicago".toList)
    (by decide) (by decide) (by decide)

/-! ## FindFromCityStateProvince -/

/-- `strings.Contains` decides the contiguous-sublist relation. -/
theorem Contains_iff (s substr : GoString) : Contains s substr = true ↔ substr <:+: s := by
  induction s with
  | nil => simp [Contains, List.isEmpty_iff]
  | cons c cs ih =>
    rw [Contains, Bool.or_eq_true, ih, List.infix_cons_iff, List.isPrefixOf_iff_prefix]

theorem Join_two (a b : GoString) (sep : GoString) : Join [a, b] sep = a ++ sep ++ b := rfl

theorem Join_three (a b c : GoString) (sep : GoString) :
    Join [a, b, c] sep = a ++ sep ++ (b ++ sep ++ c) := rfl

theorem Join_four (a b c d : GoString) (sep : GoString) :
    Join [a, b, c, d] sep = a ++ sep ++ (b ++ sep ++ (c ++ sep ++ d)) := rfl

theorem findPartialMatch_iff (lowerTable : Char → Char) (searchFields : List GoString)
    (searchString : GoString) :
    findPartialMatch lowerTable searchFields searchString = true ↔
      TrimSpace searchString ≠ [] ∧
      ∀ term ∈ Fields (ToLower lowerTable (TrimSpace searchString)),
        term <:+: ToLower lowerTable (Join searchFields [' ']) := by
  unfold findPartialMatch
  by_cases h : TrimSpace searchString = []
  · simp [h]
  · simp [h, List.all_eq_true, Contains_iff]

theorem FindFromCityStateProvince_toList (lowerTable : Char → Char)
    (cityMapping : List CityData) (searchString : GoString) :
    (FindFromCityStateProvince lowerTable cityMapping searchString).toList =
      cityMapping.filter (fun c => findPartialMatch lowerTable (searchFieldsOf c) searchString) := by
  unfold FindFromCityStateProvince
  by_cases h : searchString = []
  · subst h
    have : ∀ c : CityData, findPartialMatch lowerTable (searchFieldsOf c) [] = false := by
      intro c; simp [findPartialMatch, TrimSpace]
    simp [Slice.toList, this]
  · simp only [h, if_false]
    rw [toList_foldl_append (fun c : CityData =>
      findPartialMatch lowerTable (searchFieldsOf c) searchString = true)]
    simp [Slice.toList]

/-- The text that the search terms are looked up in: the search fields joined by one space. -/
theorem Join_searchFieldsOf (c : CityData) :
    Join (searchFieldsOf c) [' '] =
      match c.StateAnsi with
      | Any.str s =>
        if s = [] then c.City ++ ' ' :: c.Province ++ ' ' :: c.Country
        else c.City ++ ' ' :: s ++ ' ' :: c.Province ++ ' ' :: c.Country
      | _ => c.City ++ ' ' :: c.Province ++ ' ' :: c.Country := by
  unfold searchFieldsOf
  cases hs : c.StateAnsi with
  | str s =>
    by_cases h : s = []
    · simp [h, Join_three]
    · simp [h, Join_four]
  | nil => simp [Join_three]
  | num x => simp [Join_three]
  | bool b => simp [Join_three]
  | composite => simp [Join_three]

/-- C3 (as stated, refuted): for the query `" "` there is no search term, so every record
satisfies the stated condition, yet `FindFromCityStateProvince` returns nothing. -/
theorem C3_counterexample :
    (FindFromCityStateProvince asciiCaseTable [cityNamed "a".toList] " ".toList).toList = [] ∧
    cityNamed "a".toList ∈ [cityNamed "a".toList] ∧
    ∀ term ∈ Fields (ToLower asciiCaseTable (TrimSpace " ".toList)),
      term <:+: ToLower asciiCaseTable
        ((cityNamed "a".toList).City ++ ' ' :: (cityNamed "a".toList).Province ++
          ' ' :: (cityNamed "a".toList).Country) := by
  decide

/-- C3 (amended): when the trimmed query is empty `FindFromCityStateProvince` returns no
record; otherwise it returns, in table order, exactly the records for which every
whitespace-separated term of the lower-cased trimmed query is a contiguous part of the
lower-cased text made of `City`, `StateAnsi` (only when it is a non-empty string), `Province`
and `Country`, joined by single spaces.  A `StateAnsi` that is nil, not a string, or the empty
string contributes nothing. -/
theorem C3_FindFromCityStateProvince_exact (lowerTable : Char → Char)
    (cityMapping : List CityData) (searchString : GoString) :
    (FindFromCityStateProvince lowerTable cityMapping searchString).toList =
      if TrimSpace searchString = [] then []
      else cityMapping.filter (fun c =>
        decide (∀ term ∈ Fields (ToLower lowerTable (TrimSpace searchString)),
          term <:+: ToLower lowerTable
            (match c.StateAnsi with
             | Any.str s =>
               if s = [] then c.City ++ ' ' :: c.Province ++ ' ' :: c.Country
               else c.City ++ ' ' :: s ++ ' ' :: c.Province ++ ' ' :: c.Country
             | _ => c.City ++ ' ' :: c.Province ++ ' ' :: c.Country))) := by
  rw [FindFromCityStateProvince_toList]
  by_cases h : TrimSpace searchString = []
  · have : ∀ c : CityData,
        findPartialMatch lowerTable (searchFieldsOf c) searchString = false := by
      intro c
      have := findPartialMatch_iff lowerTable (searchFieldsOf c) searchString
      cases hf : findPartialMatch lowerTable (searchFieldsOf c) searchString with
      | false => rfl
      | true => exact absurd h (this.mp hf).1
    simp [h, this]
  · simp only [h, if_false]
    apply List.filter_congr
    intro c _
    rw [Bool.eq_iff_iff, findPartialMatch_iff, ← Join_searchFieldsOf c]
    simp [h]

/-! ## White space, fields and contiguous parts -/

/-- A contiguous part of `a ++ c :: b` that avoids `c` and starts `a ++ c :: b` lies in `a`. -/
theorem prefix_of_prefix_append_cons {x a b : GoString} {c : Char}
    (h : x <+: a ++ c :: b) (hc : c ∉ x) : x <+: a := by
  by_cases hlen : x.length ≤ a.length
  · exact List.prefix_of_prefix_length_le h (List.prefix_append a (c :: b)) hlen
  · exfalso
    have h1 : a ++ [c] <+: a ++ c :: b := by
      refine ⟨b, ?_⟩
      simp
    have h2 : a ++ [c] <+: x :=
      List.prefix_of_prefix_length_le h1 h (by simp; omega)
    exact hc (h2.subset (by simp))

/-- A contiguous part of `a ++ c :: b` that avoids `c` lies in `a` or in `b`. -/
theorem infix_of_infix_append_cons {x a b : GoString} {c : Char}
    (h : x <:+: a ++ c :: b) (hc : c ∉ x) : x <:+: a ∨ x <:+: b := by
  induction a with
  | nil =>
    rw [List.nil_append, List.infix_cons_iff] at h
    rcases h with h | h
    · left
      exact (prefix_of_prefix_append_cons (a := []) h hc).isInfix
    · exact Or.inr h
  | cons d a ih =>
    rw [List.cons_append, List.infix_cons_iff] at h
    rcases h with h | h
    · left
      exact (prefix_of_prefix_append_cons (a := d :: a) h hc).isInfix
    · rcases ih h with h | h
      · exact Or.inl (h.trans (List.suffix_cons d a).isInfix)
      · exact Or.inr h

/-- Every field is non-empty, free of white space, and a contiguous part of the input. -/
theorem mem_fieldsLoop {f : GoString} (rest : GoString) :
    ∀ cur : GoString, (∀ c ∈ cur, isSpace c = false) → f ∈ fieldsLoop cur rest →
      f ≠ [] ∧ (∀ c ∈ f, isSpace c = false) ∧ f <:+: cur ++ rest := by
  induction rest with
  | nil =>
    intro cur hcur hf
    by_cases h : cur = []
    · simp [fieldsLoop, h] at hf
    · simp only [fieldsLoop, h, if_false, List.mem_singleton] at hf
      subst hf
      exact ⟨h, hcur, by simp⟩
  | cons c cs ih =>
    intro cur hcur hf
    by_cases hsp : isSpace c = true
    · have hnil : f ∈ fieldsLoop [] cs → f ≠ [] ∧ (∀ c ∈ f, isSpace c = false) ∧
          f <:+: cur ++ c :: cs := by
        intro h
        obtain ⟨h1, h2, h3⟩ := ih [] (by simp) h
        refine ⟨h1, h2, ?_⟩
        rw [List.nil_append] at h3
        exact h3.trans ((List.suffix_cons c cs).isInfix.trans
          (List.suffix_append cur (c :: cs)).isInfix)
      by_cases h : cur = []
      · simp only [fieldsLoop, hsp, h, if_true] at hf
        exact hnil hf
      · simp only [fieldsLoop, hsp, h, if_true, if_false, List.mem_cons] at hf
        rcases hf with hf | hf
        · subst hf
          exact ⟨h, hcur, (List.prefix_append f (c :: cs)).isInfix⟩
        · exact hnil hf
    · simp only [fieldsLoop, hsp] at hf
      have hcur2 : ∀ d ∈ cur ++ [c], isSpace d = false := by
        intro d hd
        rcases List.mem_append.mp hd with hd | hd
        · exact hcur d hd
        · rw [List.mem_singleton.mp hd]; simpa using hsp
      obtain ⟨h1, h2, h3⟩ := ih (cur ++ [c]) hcur2 hf
      refine ⟨h1, h2, ?_⟩
      simpa using h3

/-- A non-empty contiguous part of the input that is free of white space lies within one
field. -/
theorem exists_mem_fieldsLoop {x : GoString} (hx : x ≠ [])
    (hxs : ∀ c ∈ x, isSpace c = false) (rest : GoString) :
    ∀ cur : GoString, x <:+: cur ++ rest → ∃ f ∈ fieldsLoop cur rest, x <:+: f := by
  induction rest with
  | nil =>
    intro cur h
    rw [List.append_nil] at h
    have hcur : cur ≠ [] := by
      rintro rfl
      exact hx (List.infix_nil.mp h)
    exact ⟨cur, by simp [fieldsLoop, hcur], h⟩
  | cons c cs ih =>
    intro cur h
    by_cases hsp : isSpace c = true
    · have hc : c ∉ x := by
        intro hmem
        rw [hxs c hmem] at hsp
        exact Bool.false_ne_true hsp
      rcases infix_of_infix_append_cons h hc with h | h
      · have hcur : cur ≠ [] := by
          rintro rfl
          exact hx (List.infix_nil.mp h)
        exact ⟨cur, by simp [fieldsLoop, hsp, hcur], h⟩
      · obtain ⟨f, hf, hxf⟩ := ih [] (by simpa using h)
        refine ⟨f, ?_, hxf⟩
        by_cases hcur : cur = []
        · simpa [fieldsLoop, hsp, hcur] using hf
        · simp [fieldsLoop, hsp, hcur, hf]
    · obtain ⟨f, hf, hxf⟩ := ih (cur ++ [c]) (by simpa using h)
      exact ⟨f, by simpa [fieldsLoop, hsp] using hf, hxf⟩

theorem mem_Fields {f s : GoString} (h : f ∈ Fields s) :
    f ≠ [] ∧ (∀ c ∈ f, isSpace c = false) ∧ f <:+: s := by
  have := mem_fieldsLoop s [] (by simp) h
  simpa using this

theorem exists_mem_Fields {x s : GoString} (hx : x ≠ [])
    (hxs : ∀ c ∈ x, isSpace c = false) (h : x <:+: s) : ∃ f ∈ Fields s, x <:+: f :=
  exists_mem_fieldsLoop hx hxs s [] (by simpa using h)

/-- What is left after dropping leading white space does not start with white space. -/
theorem head?_dropWhile_isSpace (s : GoString) :
    ∀ h ∈ (s.dropWhile isSpace).head?, isSpace h = false := by
  induction s with
  | nil => simp
  | cons c cs ih =>
    by_cases hc : isSpace c = true
    · rw [List.dropWhile_cons_of_pos hc]
      exact ih
    · rw [List.dropWhile_cons_of_neg hc]
      intro h hh
      simp only [List.head?_cons, Option.mem_def, Option.some.injEq] at hh
      subst hh
      simpa using hc

/-- A contiguous part that does not start with white space survives the dropping of leading
white space. -/
theorem infix_dropWhile_isSpace {x : GoString} (hne : x ≠ [])
    (hh : ∀ h ∈ x.head?, isSpace h = false) :
    ∀ s : GoString, x <:+: s → x <:+: s.dropWhile isSpace := by
  intro s
  induction s with
  | nil => intro h; exact absurd (List.infix_nil.mp h) hne
  | cons c cs ih =>
    intro h
    by_cases hc : isSpace c = true
    · rw [List.dropWhile_cons_of_pos hc]
      rcases List.infix_cons_iff.mp h with h | h
      · exfalso
        cases x with
        | nil => exact hne rfl
        | cons a x =>
          have hac : a = c := (List.cons_prefix_cons.mp h).1
          have := hh a (by simp)
          rw [hac, hc] at this
          exact Bool.noConfusion this
      · exact ih h
    · rw [List.dropWhile_cons_of_neg hc]
      exact h

/-- A contiguous part that neither starts nor ends with white space survives trimming. -/
theorem infix_TrimSpace {x s : GoString} (hne : x ≠ [])
    (hh : ∀ h ∈ x.head?, isSpace h = false)
    (hl : ∀ l ∈ x.reverse.head?, isSpace l = false) (h : x <:+: s) :
    x <:+: TrimSpace s := by
  have h1 : x <:+: s.dropWhile isSpace := infix_dropWhile_isSpace hne hh s h
  have h2 : x.reverse <:+: ((s.dropWhile isSpace).reverse).dropWhile isSpace :=
    infix_dropWhile_isSpace (by simpa using hne) hl _ (List.reverse_infix.mpr h1)
  have h3 := List.reverse_infix.mpr h2
  rw [List.reverse_reverse] at h3
  exact h3

theorem TrimSpace_prefix_dropWhile (s : GoString) : TrimSpace s <+: s.dropWhile isSpace :=
  List.rdropWhile_prefix isSpace (s.dropWhile isSpace)

theorem TrimSpace_infix_self (s : GoString) : TrimSpace s <:+: s :=
  (TrimSpace_prefix_dropWhile s).isInfix.trans (List.dropWhile_suffix isSpace).isInfix

/-- A trimmed string does not start with white space. -/
theorem head?_TrimSpace (s : GoString) : ∀ h ∈ (TrimSpace s).head?, isSpace h = false := by
  intro h hh
  obtain ⟨t, ht⟩ := TrimSpace_prefix_dropWhile s
  cases hts : TrimSpace s with
  | nil => rw [hts] at hh; simp at hh
  | cons a r =>
    rw [hts] at hh ht
    simp only [List.head?_cons, Option.mem_def, Option.some.injEq] at hh
    subst hh
    apply head?_dropWhile_isSpace s
    rw [← ht]
    simp

/-- A trimmed string does not end with white space. -/
theorem head?_reverse_TrimSpace (s : GoString) :
    ∀ l ∈ (TrimSpace s).reverse.head?, isSpace l = false := by
  unfold TrimSpace
  rw [List.reverse_reverse]
  exact head?_dropWhile_isSpace _

/-- Trimming a longer string keeps the trimmed form of any contiguous part of it. -/
theorem TrimSpace_infix_TrimSpace {s u : GoString} (h : s <:+: u) (hne : TrimSpace s ≠ []) :
    TrimSpace s <:+: TrimSpace u :=
  infix_TrimSpace hne (head?_TrimSpace s) (head?_reverse_TrimSpace s)
    ((TrimSpace_infix_self s).trans h)

/-- Every search term of `s` lies within a search term of any string that `s` is a
contiguous part of. -/
theorem searchTerms_mono (lowerTable : Char → Char) {s u : GoString} (h : s <:+: u)
    (hne : TrimSpace s ≠ []) :
    ∀ term ∈ Fields (ToLower lowerTable (TrimSpace s)),
      ∃ term2 ∈ Fields (ToLower lowerTable (TrimSpace u)), term <:+: term2 := by
  intro term hterm
  obtain ⟨h1, h2, h3⟩ := mem_Fields hterm
  apply exists_mem_Fields h1 h2
  exact h3.trans (List.IsInfix.map _ (TrimSpace_infix_TrimSpace h hne))

/-- A record that matches a query matches every query that is a contiguous part of it and
has a non-empty trimmed form. -/
theorem findPartialMatch_mono (lowerTable : Char → Char) (searchFields : List GoString)
    {s u : GoString} (h : s <:+: u) (hne : TrimSpace s ≠ [])
    (hu : findPartialMatch lowerTable searchFields u = true) :
    findPartialMatch lowerTable searchFields s = true := by
  rw [findPartialMatch_iff] at hu ⊢
  refine ⟨hne, ?_⟩
  intro term hterm
  obtain ⟨term2, h2, h12⟩ := searchTerms_mono lowerTable h hne term hterm
  exact h12.trans (hu.2 term2 h2)

/-- C4 (as stated, refuted): with the empty query `q` and the term `a`, the query
`q + " " + a` returns the record named `a`, which the query `q` does not return. -/
theorem C4_counterexample :
    cityNamed "a".toList ∈
      (FindFromCityStateProvince asciiCaseTable [cityNamed "a".toList]
        ([] ++ " ".toList ++ "a".toList)).toList ∧
    cityNamed "a".toList ∉
      (FindFromCityStateProvince asciiCaseTable [cityNamed "a".toList] []).toList := by
  decide

/-- C4 (amended): for every query `q` whose trimmed form is non-empty and every `t`, every
record returned for `q + " " + t` is also returned for `q`. -/
theorem C4_FindFromCityStateProvince_restrictive (lowerTable : Char → Char)
    (cityMapping : List CityData) (q t : GoString) (hq : TrimSpace q ≠ []) :
    ∀ c ∈ (FindFromCityStateProvince lowerTable cityMapping (q ++ " ".toList ++ t)).toList,
      c ∈ (FindFromCityStateProvince lowerTable cityMapping q).toList := by
  intro c hc
  rw [FindFromCityStateProvince_toList, List.mem_filter] at hc ⊢
  refine ⟨hc.1, findPartialMatch_mono lowerTable _ ?_ hq hc.2⟩
  rw [List.append_assoc]
  exact (List.prefix_append q _).isInfix

/-- C4 (amended), at the queries `springfield` and `springfield mo` over two Springfields. -/
theorem C4_FindFromCityStateProvince_restrictive_witness :
    TrimSpace "springfield".toList ≠ [] ∧
    ∀ c ∈ (FindFromCityStateProvince asciiCaseTable
        [mkCity "Springfield".toList (Any.str "MO".toList) "Missouri".toList
          "United States of America".toList (Any.str "US".toList) (Any.str "USA".toList),
         mkCity "Springfield".toList (Any.str "IL".toList) "Illinois".toList
          "United States of America".toList (Any.str "US".toList) (Any.str "USA".toList)]
        ("springfield".toList ++ " ".toList ++ "mo".toList)).toList,
      c ∈ (FindFromCityStateProvince asciiCaseTable
        [mkCity "Springfield".toList (Any.str "MO".toList) "Missouri".toList
          "United States of America".toList (Any.str "US".toList) (Any.str "USA".toList),
         mkCity "Springfield".toList (Any.str "IL".toList) "Illinois".toList
          "United States of America".toList (Any.str "US".toList) (Any.str "USA".toList)]
        "springfield".toList).toList :=
  ⟨by decide, C4_FindFromCityStateProvince_restrictive asciiCaseTable _ _ _ (by decide)⟩

/-! ## FindFromIsoCode -/

theorem FindFromIsoCode_toList (lowerTable : Char → Char) (cityMapping : List CityData)
    (isoCode : GoString) :
    (FindFromIsoCode lowerTable cityMapping isoCode).toList =
      if TrimSpace isoCode = [] then []
      else cityMapping.filter (fun c =>
        (match c.ISO2 with
          | Any.str iso2Str =>
            decide (ToLower lowerTable iso2Str = ToLower lowerTable (TrimSpace isoCode))
          | _ => false) ||
        (match c.ISO3 with
          | Any.str iso3Str =>
            decide (ToLower lowerTable iso3Str = ToLower lowerTable (TrimSpace isoCode))
          | _ => false)) := by
  unfold FindFromIsoCode
  by_cases h : TrimSpace isoCode = []
  · simp [h, Slice.toList]
  · simp only [h, if_false]
    rw [toList_foldl_append]
    simp [Slice.toList]

/-- The test that `FindFromIsoCode` applies to one code field: it holds a string whose
lower-cased form is `isoLower`. -/
theorem isoField_match_iff (lowerTable : Char → Char) (v : Any) (isoLower : GoString) :
    (match v with
      | Any.str isoStr => decide (ToLower lowerTable isoStr = isoLower)
      | _ => false) = true ↔
    ∃ isoStr, v = Any.str isoStr ∧ ToLower lowerTable isoStr = isoLower := by
  cases v <;> simp

/-- C5 (as stated, refuted): the record holds the string `""` in `ISO2`, which equals the
trimmed code `""` after lower-casing both, yet `FindFromIsoCode ""` returns nothing. -/
theorem C5_counterexample :
    mkCity "x".toList Any.nil [] [] (Any.str []) Any.nil ∈
      [mkCity "x".toList Any.nil [] [] (Any.str []) Any.nil] ∧
    (mkCity "x".toList Any.nil [] [] (Any.str []) Any.nil).ISO2 = Any.str [] ∧
    ToLower asciiCaseTable [] = ToLower asciiCaseTable (TrimSpace []) ∧
    (FindFromIsoCode asciiCaseTable
      [mkCity "x".toList Any.nil [] [] (Any.str []) Any.nil] []).toList = [] := by
  decide

/-- C5 (amended): when the trimmed code is empty `FindFromIsoCode` returns no record;
otherwise it returns, in table order, exactly the records whose `ISO2` or `ISO3` holds a
string equal to the trimmed code after lower-casing both.  A record whose `ISO2` and `ISO3`
both hold no string is returned for no code. -/
theorem C5_FindFromIsoCode_exact (lowerTable : Char → Char) (cityMapping : List CityData)
    (isoCode : GoString) :
    (∃ keep : CityData → Bool,
      (∀ c, keep c = true ↔
        (TrimSpace isoCode ≠ [] ∧
          ((∃ s, c.ISO2 = Any.str s ∧
              ToLower lowerTable s = ToLower lowerTable (TrimSpace isoCode)) ∨
           (∃ s, c.ISO3 = Any.str s ∧
              ToLower lowerTable s = ToLower lowerTable (TrimSpace isoCode))))) ∧
      (FindFromIsoCode lowerTable cityMapping isoCode).toList = cityMapping.filter keep) ∧
    ∀ c : CityData, (∀ s, c.ISO2 ≠ Any.str s) → (∀ s, c.ISO3 ≠ Any.str s) →
      c ∉ (FindFromIsoCode lowerTable cityMapping isoCode).toList := by
  have key : ∀ c : CityData,
      ((match c.ISO2 with
          | Any.str iso2Str =>
            decide (ToLower lowerTable iso2Str = ToLower lowerTable (TrimSpace isoCode))
          | _ => false) ||
        (match c.ISO3 with
          | Any.str iso3Str =>
            decide (ToLower lowerTable iso3Str = ToLower lowerTable (TrimSpace isoCode))
          | _ => false)) = true ↔
      ((∃ s, c.ISO2 = Any.str s ∧
          ToLower lowerTable s = ToLower lowerTable (TrimSpace isoCode)) ∨
       (∃ s, c.ISO3 = Any.str s ∧
          ToLower lowerTable s = ToLower lowerTable (TrimSpace isoCode))) := by
    intro c
    rw [Bool.or_eq_true, isoField_match_iff, isoField_match_iff]
  constructor
  · by_cases h : TrimSpace isoCode = []
    · refine ⟨fun _ => false, ?_, ?_⟩
      · intro c; simp [h]
      · rw [FindFromIsoCode_toList]; simp [h]
    · rw [FindFromIsoCode_toList, if_neg h]
      exact ⟨_, fun c => by rw [key c]; simp [h], rfl⟩
  · intro c h2 h3 hmem
    rw [FindFromIsoCode_toList] at hmem
    by_cases h : TrimSpace isoCode = []
    · simp [h] at hmem
    · rw [if_neg h, List.mem_filter] at hmem
      rcases (key c).mp hmem.2 with ⟨s, hs, _⟩ | ⟨s, hs, _⟩
      · exact h2 s hs
      · exact h3 s hs

/-! ## Comparison of float64 values -/

theorem F64.le_iff (x y : F64) :
    F64.le x y = true ↔ ∃ a b, x.key = some a ∧ y.key = some b ∧ a ≤ b := by
  unfold F64.le
  cases x.key <;> cases y.key <;> simp

theorem F64.lt_iff (x y : F64) :
    F64.lt x y = true ↔ ∃ a b, x.key = some a ∧ y.key = some b ∧ a < b := by
  unfold F64.lt
  cases x.key <;> cases y.key <;> simp

theorem F64.lt_irrefl (x : F64) : F64.lt x x = false := by
  cases h : F64.lt x x with
  | false => rfl
  | true =>
    obtain ⟨a, b, ha, hb, hab⟩ := (F64.lt_iff x x).mp h
    rw [ha] at hb
    cases hb
    omega

theorem F64.lt_trans {x y z : F64} (h1 : F64.lt x y = true) (h2 : F64.lt y z = true) :
    F64.lt x z = true := by
  obtain ⟨a, b, ha, hb, hab⟩ := (F64.lt_iff x y).mp h1
  obtain ⟨b2, c, hb2, hc, hbc⟩ := (F64.lt_iff y z).mp h2
  rw [hb] at hb2
  cases hb2
  exact (F64.lt_iff x z).mpr ⟨a, c, ha, hc, by omega⟩

theorem F64.le_trans {x y z : F64} (h1 : F64.le x y = true) (h2 : F64.le y z = true) :
    F64.le x z = true := by
  obtain ⟨a, b, ha, hb, hab⟩ := (F64.le_iff x y).mp h1
  obtain ⟨b2, c, hb2, hc, hbc⟩ := (F64.le_iff y z).mp h2
  rw [hb] at hb2
  cases hb2
  exact (F64.le_iff x z).mpr ⟨a, c, ha, hc, by omega⟩

/-- A value that is `<=` something is not a NaN. -/
theorem F64.key_isSome_of_le {x r : F64} (h : F64.le x r = true) : ∃ a, x.key = some a := by
  obtain ⟨a, _, ha, _, _⟩ := (F64.le_iff x r).mp h
  exact ⟨a, ha⟩

/-- Between two values that are not NaN, `not (y < x)` is `x <= y`. -/
theorem F64.le_of_not_lt {x y : F64} {a b : Int} (hx : x.key = some a) (hy : y.key = some b)
    (h : F64.lt y x = false) : F64.le x y = true := by
  rw [F64.le_iff]
  refine ⟨a, b, hx, hy, ?_⟩
  by_contra hc
  have : F64.lt y x = true := (F64.lt_iff y x).mpr ⟨b, a, hy, hx, not_le.mp hc⟩
  rw [h] at this
  exact Bool.false_ne_true this

/-- `x < y` excludes `y <= x`. -/
theorem F64.not_le_of_lt {x y : F64} (h : F64.lt x y = true) : F64.le y x = false := by
  cases hle : F64.le y x with
  | false => rfl
  | true =>
    obtain ⟨a, b, ha, hb, hab⟩ := (F64.lt_iff x y).mp h
    obtain ⟨b2, a2, hb2, ha2, hba⟩ := (F64.le_iff y x).mp hle
    rw [ha] at ha2
    rw [hb] at hb2
    cases ha2
    cases hb2
    exact absurd hab (not_lt.mpr hba)

/-- On values that are not NaN, `<` is transitive in the negative as well. -/
theorem F64.lt_neg_trans {x y z : F64} {a b c : Int} (hx : x.key = some a)
    (hy : y.key = some b) (hz : z.key = some c) (h1 : F64.lt x y = false)
    (h2 : F64.lt y z = false) : F64.lt x z = false := by
  cases h : F64.lt x z with
  | false => rfl
  | true =>
    obtain ⟨a2, c2, ha2, hc2, hac⟩ := (F64.lt_iff x z).mp h
    rw [hx] at ha2
    rw [hz] at hc2
    cases ha2
    cases hc2
    have hba : b ≤ a := by
      by_contra hc
      have : F64.lt x y = true := (F64.lt_iff x y).mpr ⟨a, b, hx, hy, not_le.mp hc⟩
      rw [h1] at this
      exact Bool.false_ne_true this
    have hcb : c ≤ b := by
      by_contra hc
      have : F64.lt y z = true := (F64.lt_iff y z).mpr ⟨b, c, hy, hz, not_le.mp hc⟩
      rw [h2] at this
      exact Bool.false_ne_true this
    omega

/-! ## The insertion sort meets the contract of sort.Slice -/

theorem orderedInsert_perm (less : CityDistance → CityDistance → Bool) (x : CityDistance)
    (l : List CityDistance) : (orderedInsert less x l).Perm (x :: l) := by
  induction l with
  | nil => simp [orderedInsert]
  | cons y ys ih =>
    unfold orderedInsert
    by_cases h : less x y = true
    · simp [h]
    · simp only [h]
      exact (List.Perm.cons y ih).trans (List.Perm.swap x y ys)

theorem insertionSort_perm (less : CityDistance → CityDistance → Bool)
    (l : List CityDistance) : (insertionSort less l).Perm l := by
  induction l with
  | nil => simp [insertionSort]
  | cons x xs ih =>
    have : insertionSort less (x :: xs) = orderedInsert less x (insertionSort less xs) := rfl
    rw [this]
    exact (orderedInsert_perm less x _).trans (List.Perm.cons x ih)

theorem orderedInsert_pairwise (less : CityDistance → CityDistance → Bool)
    (u : List CityDistance) (hirr : ∀ a ∈ u, less a a = false)
    (htr : ∀ a ∈ u, ∀ b ∈ u, ∀ c ∈ u, less a b = true → less b c = true → less a c = true)
    (hneg : ∀ a ∈ u, ∀ b ∈ u, ∀ c ∈ u, less a b = false → less b c = false → less a c = false)
    (x : CityDistance) (hx : x ∈ u) :
    ∀ l : List CityDistance, (∀ a ∈ l, a ∈ u) → l.Pairwise (fun a b => less b a = false) →
      (orderedInsert less x l).Pairwise (fun a b => less b a = false) := by
  intro l
  induction l with
  | nil => intro _ _; simp [orderedInsert]
  | cons y ys ih =>
    intro hsub hp
    have hy : y ∈ u := hsub y (by simp)
    have hys : ∀ a ∈ ys, a ∈ u := fun a ha => hsub a (by simp [ha])
    rw [List.pairwise_cons] at hp
    unfold orderedInsert
    by_cases h : less x y = true
    · simp only [h, if_true]
      have hyx : less y x = false := by
        cases hyx : less y x with
        | false => rfl
        | true =>
          have := htr y hy x hx y hy hyx h
          rw [hirr y hy] at this
          exact Bool.noConfusion this
      refine List.pairwise_cons.mpr ⟨?_, List.pairwise_cons.mpr hp⟩
      intro b hb
      rcases List.mem_cons.mp hb with hb | hb
      · rw [hb]; exact hyx
      · exact hneg b (hys b hb) y hy x hx (hp.1 b hb) hyx
    · simp only [h]
      refine List.pairwise_cons.mpr ⟨?_, ih hys hp.2⟩
      intro b hb
      rcases List.mem_cons.mp ((orderedInsert_perm less x ys).mem_iff.mp hb) with hb | hb
      · rw [hb]; simpa using h
      · exact hp.1 b hb

theorem insertionSort_contract : SortSliceContract insertionSort where
  perm := insertionSort_perm
  sorted := by
    intro less l hirr htr hneg
    have main : ∀ l2 : List CityDistance, (∀ a ∈ l2, a ∈ l) →
        (insertionSort less l2).Pairwise (fun a b => less b a = false) := by
      intro l2
      induction l2 with
      | nil => intro _; simp [insertionSort]
      | cons x xs ih =>
        intro hsub
        have hrec : insertionSort less (x :: xs) =
            orderedInsert less x (insertionSort less xs) := rfl
        rw [hrec]
        apply orderedInsert_pairwise less l hirr htr hneg x (hsub x (by simp))
        · intro a ha
          exact hsub a (by simp [(insertionSort_perm less xs).mem_iff.mp ha])
        · exact ih (fun a ha => hsub a (by simp [ha]))
    exact main l (fun a ha => ha)

/-! ## FindNearestCities -/

theorem toList_foldl_append_map {α β : Type} (p : α → Prop) [DecidablePred p] (g : α → β)
    (l : List α) (init : Slice β) :
    (l.foldl (fun results c => if p c then results.append (g c) else results) init).toList =
      init.toList ++ (l.filter (fun c => decide (p c))).map g := by
  induction l generalizing init with
  | nil => simp
  | cons a l ih =>
    rw [List.foldl_cons, ih]
    by_cases h : p a
    · simp [h, Slice.toList_append]
    · simp [h]

theorem toList_foldl_append_all {α β : Type} (g : α → β) (l : List α) (init : Slice β) :
    (l.foldl (fun cities result => cities.append (g result)) init).toList =
      init.toList ++ l.map g := by
  induction l generalizing init with
  | nil => simp
  | cons a l ih => rw [List.foldl_cons, ih]; simp [Slice.toList_append]

/-- `FindNearestCities` in one line: the records within the radius, paired with their
distance, sorted, and stripped of the distance again. -/
theorem FindNearestCities_toList (m : Math)
    (sortSlice : (CityDistance → CityDistance → Bool) → List CityDistance → List CityDistance)
    (cityMapping : List CityData) (lat lng radiusKm : F64) :
    (FindNearestCities m sortSlice cityMapping lat lng radiusKm).toList =
      (sortSlice distanceLess
        ((cityMapping.filter
            (fun c => F64.le (haversineDistance m lat lng c.Lat c.Lng) radiusKm)).map
          (fun c => (⟨c, haversineDistance m lat lng c.Lat c.Lng⟩ : CityDistance)))).map
        (fun e => e.toCityData) := by
  unfold FindNearestCities
  simp only []
  rw [toList_foldl_append_all, toList_foldl_append_map]
  simp [Slice.toList]

/-- The result of `FindNearestCities` is a rearrangement of the records within the radius. -/
theorem FindNearestCities_perm (m : Math)
    (sortSlice : (CityDistance → CityDistance → Bool) → List CityDistance → List CityDistance)
    (hperm : ∀ less l, (sortSlice less l).Perm l)
    (cityMapping : List CityData) (lat lng radiusKm : F64) :
    (FindNearestCities m sortSlice cityMapping lat lng radiusKm).toList.Perm
      (cityMapping.filter
        (fun c => F64.le (haversineDistance m lat lng c.Lat c.Lng) radiusKm)) := by
  rw [FindNearestCities_toList]
  refine ((hperm _ _).map _).trans ?_
  rw [List.map_map]
  have : ((fun e : CityDistance => e.toCityData) ∘
      fun c => (⟨c, haversineDistance m lat lng c.Lat c.Lng⟩ : CityDistance)) = id := rfl
  rw [this, List.map_id]

/-- Any two results of `FindNearestCities` are in the order of their distances. -/
theorem FindNearestCities_pairwise (m : Math)
    (sortSlice : (CityDistance → CityDistance → Bool) → List CityDistance → List CityDistance)
    (hsort : SortSliceContract sortSlice)
    (cityMapping : List CityData) (lat lng radiusKm : F64) :
    (FindNearestCities m sortSlice cityMapping lat lng radiusKm).toList.Pairwise
      (fun a b => F64.le (haversineDistance m lat lng a.Lat a.Lng)
        (haversineDistance m lat lng b.Lat b.Lng) = true) := by
  rw [FindNearestCities_toList, List.pairwise_map]
  have hc : ∀ e ∈ (cityMapping.filter
        (fun c => F64.le (haversineDistance m lat lng c.Lat c.Lng) radiusKm)).map
          (fun c => (⟨c, haversineDistance m lat lng c.Lat c.Lng⟩ : CityDistance)),
      e.Distance = haversineDistance m lat lng e.Lat e.Lng ∧
        ∃ k, e.Distance.key = some k := by
    intro e he
    obtain ⟨c, hcm, rfl⟩ := List.mem_map.mp he
    exact ⟨rfl, F64.key_isSome_of_le (List.mem_filter.mp hcm).2⟩
  have hs := hsort.sorted distanceLess _
    (fun a _ => F64.lt_irrefl a.Distance)
    (fun a _ b _ c _ h1 h2 => F64.lt_trans h1 h2)
    (fun a ha b hb c hc2 h1 h2 => by
      obtain ⟨ka, hka⟩ := (hc a ha).2
      obtain ⟨kb, hkb⟩ := (hc b hb).2
      obtain ⟨kc, hkc⟩ := (hc c hc2).2
      exact F64.lt_neg_trans hka hkb hkc h1 h2)
  refine List.Pairwise.imp_of_mem ?_ hs
  intro a b ha hb hab
  have ha2 := hc a ((hsort.perm _ _).mem_iff.mp ha)
  have hb2 := hc b ((hsort.perm _ _).mem_iff.mp hb)
  obtain ⟨ka, hka⟩ := ha2.2
  obtain ⟨kb, hkb⟩ := hb2.2
  rw [← ha2.1, ← hb2.1]
  exact F64.le_of_not_lt hka hkb hab

/-- C6: given that `sort.Slice` rearranges its slice, the result of `FindNearestCities` is a
rearrangement of the table records whose distance from `(lat, lng)` is `<= radiusKm` (each
as often as the table holds it), and no returned record lies farther away. -/
theorem C6_FindNearestCities_within_radius (m : Math)
    (sortSlice : (CityDistance → CityDistance → Bool) → List CityDistance → List CityDistance)
    (hperm : ∀ less l, (sortSlice less l).Perm l)
    (cityMapping : List CityData) (lat lng radiusKm : F64) :
    (FindNearestCities m sortSlice cityMapping lat lng radiusKm).toList.Perm
      (cityMapping.filter
        (fun c => F64.le (haversineDistance m lat lng c.Lat c.Lng) radiusKm)) ∧
    ∀ c ∈ (FindNearestCities m sortSlice cityMapping lat lng radiusKm).toList,
      F64.le (haversineDistance m lat lng c.Lat c.Lng) radiusKm = true := by
  have h := FindNearestCities_perm m sortSlice hperm cityMapping lat lng radiusKm
  refine ⟨h, ?_⟩
  intro c hc
  exact (List.mem_filter.mp (h.mem_iff.mp hc)).2

/-- C6, at the example table, the insertion sort and the radius with bit pattern 7. -/
theorem C6_FindNearestCities_within_radius_witness :
    (FindNearestCities exampleMath insertionSort exampleCities ⟨0⟩ ⟨0⟩ ⟨7⟩).toList.Perm
      (exampleCities.filter
        (fun c => F64.le (haversineDistance exampleMath ⟨0⟩ ⟨0⟩ c.Lat c.Lng) ⟨7⟩)) ∧
    ∀ c ∈ (FindNearestCities exampleMath insertionSort exampleCities ⟨0⟩ ⟨0⟩ ⟨7⟩).toList,
      F64.le (haversineDistance exampleMath ⟨0⟩ ⟨0⟩ c.Lat c.Lng) ⟨7⟩ = true :=
  C6_FindNearestCities_within_radius exampleMath insertionSort insertionSort_perm
    exampleCities ⟨0⟩ ⟨0⟩ ⟨7⟩

/-- C7: given that `sort.Slice` keeps its contract, the records returned by
`FindNearestCities` are in non-decreasing order of distance from `(lat, lng)`: the earlier
of two adjacent results, and indeed of any two results, is at most as far as the later. -/
theorem C7_FindNearestCities_sorted (m : Math)
    (sortSlice : (CityDistance → CityDistance → Bool) → List CityDistance → List CityDistance)
    (hsort : SortSliceContract sortSlice)
    (cityMapping : List CityData) (lat lng radiusKm : F64) :
    (FindNearestCities m sortSlice cityMapping lat lng radiusKm).toList.Chain'
      (fun a b => F64.le (haversineDistance m lat lng a.Lat a.Lng)
        (haversineDistance m lat lng b.Lat b.Lng) = true) ∧
    (FindNearestCities m sortSlice cityMapping lat lng radiusKm).toList.Pairwise
      (fun a b => F64.le (haversineDistance m lat lng a.Lat a.Lng)
        (haversineDistance m lat lng b.Lat b.Lng) = true) :=
  ⟨(FindNearestCities_pairwise m sortSlice hsort cityMapping lat lng radiusKm).chain',
    FindNearestCities_pairwise m sortSlice hsort cityMapping lat lng radiusKm⟩

/-- C7, at the example table, the insertion sort and the radius with bit pattern 7. -/
theorem C7_FindNearestCities_sorted_witness :
    (FindNearestCities exampleMath insertionSort exampleCities ⟨0⟩ ⟨0⟩ ⟨7⟩).toList.Chain'
      (fun a b => F64.le (haversineDistance exampleMath ⟨0⟩ ⟨0⟩ a.Lat a.Lng)
        (haversineDistance exampleMath ⟨0⟩ ⟨0⟩ b.Lat b.Lng) = true) ∧
    (FindNearestCities exampleMath insertionSort exampleCities ⟨0⟩ ⟨0⟩ ⟨7⟩).toList.Pairwise
      (fun a b => F64.le (haversineDistance exampleMath ⟨0⟩ ⟨0⟩ a.Lat a.Lng)
        (haversineDistance exampleMath ⟨0⟩ ⟨0⟩ b.Lat b.Lng) = true) :=
  C7_FindNearestCities_sorted exampleMath insertionSort insertionSort_contract
    exampleCities ⟨0⟩ ⟨0⟩ ⟨7⟩

/-! ## The order of records at the same distance -/

theorem F64.not_lt_of_lt {a b : F64} (h : F64.lt a b = true) : F64.lt b a = false := by
  cases hba : F64.lt b a with
  | false => rfl
  | true =>
    have := F64.lt_trans h hba
    rw [F64.lt_irrefl] at this
    cases this

theorem F64.le_of_lt_le {a b c : F64} (h1 : F64.lt a b = true) (h2 : F64.le b c = true) :
    F64.le a c = true := by
  rw [F64.lt_iff] at h1
  rw [F64.le_iff] at h2 ⊢
  obtain ⟨x, y, hx, hy, hxy⟩ := h1
  obtain ⟨y2, z, hy2, hz, hyz⟩ := h2
  rw [hy] at hy2
  cases hy2
  exact ⟨x, z, hx, hz, by omega⟩

/-- The sort of `sort.Slice` on thirteen positions, when the element that started at
position 11 is greater than every other and the others are equal: the pivot, from position
6, changes places with the element at the front. -/
theorem pdqsort_func_thirteen :
    pdqsort_func (fun a b : Nat => decide (a < 13 ∧ a ≠ 11 ∧ b = 11)) (List.range 13) =
      some [6, 1, 2, 3, 4, 5, 0, 7, 8, 9, 10, 12, 11] := by
  decide

/-- What `less` says about the elements at two positions of a list of thirteen elements, of
which the one at position 11 has the distance `dQ` and the others the smaller distance
`dP`. -/
theorem lessAt_thirteen (dP dQ : F64) (hlt : F64.lt dP dQ = true) (c : Nat → CityData) :
    (fun a b : Nat => lessAt distanceLess
      [⟨c 0, dP⟩, ⟨c 1, dP⟩, ⟨c 2, dP⟩, ⟨c 3, dP⟩, ⟨c 4, dP⟩, ⟨c 5, dP⟩, ⟨c 6, dP⟩, ⟨c 7, dP⟩,
        ⟨c 8, dP⟩, ⟨c 9, dP⟩, ⟨c 10, dP⟩, ⟨c 11, dQ⟩, ⟨c 12, dP⟩] a b) =
      fun a b : Nat => decide (a < 13 ∧ a ≠ 11 ∧ b = 11) := by
  have hgt := F64.not_lt_of_lt hlt
  have hP := F64.lt_irrefl dP
  have hQ := F64.lt_irrefl dQ
  have hdist : ∀ a : Nat,
      ([⟨c 0, dP⟩, ⟨c 1, dP⟩, ⟨c 2, dP⟩, ⟨c 3, dP⟩, ⟨c 4, dP⟩, ⟨c 5, dP⟩, ⟨c 6, dP⟩,
        ⟨c 7, dP⟩, ⟨c 8, dP⟩, ⟨c 9, dP⟩, ⟨c 10, dP⟩, ⟨c 11, dQ⟩,
        ⟨c 12, dP⟩] : List CityDistance)[a]?.map (fun e => e.Distance) =
        if a < 13 then (if a = 11 then some dQ else some dP) else none := by
    intro a
    rcases a with _ | _ | _ | _ | _ | _ | _ | _ | _ | _ | _ | _ | _ | a <;> simp
    rw [if_neg (by omega)]
  funext a b
  have ha := hdist a
  have hb := hdist b
  unfold lessAt
  cases hxa : ([⟨c 0, dP⟩, ⟨c 1, dP⟩, ⟨c 2, dP⟩, ⟨c 3, dP⟩, ⟨c 4, dP⟩, ⟨c 5, dP⟩, ⟨c 6, dP⟩,
      ⟨c 7, dP⟩, ⟨c 8, dP⟩, ⟨c 9, dP⟩, ⟨c 10, dP⟩, ⟨c 11, dQ⟩,
      ⟨c 12, dP⟩] : List CityDistance)[a]? with
  | none =>
    rw [hxa] at ha
    have : ¬ a < 13 := by
      intro h
      simp [h] at ha
      split at ha <;> cases ha
    simp [this]
  | some x =>
    rw [hxa] at ha
    cases hxb : ([⟨c 0, dP⟩, ⟨c 1, dP⟩, ⟨c 2, dP⟩, ⟨c 3, dP⟩, ⟨c 4, dP⟩, ⟨c 5, dP⟩,
        ⟨c 6, dP⟩, ⟨c 7, dP⟩, ⟨c 8, dP⟩, ⟨c 9, dP⟩, ⟨c 10, dP⟩, ⟨c 11, dQ⟩,
        ⟨c 12, dP⟩] : List CityDistance)[b]? with
    | none =>
      rw [hxb] at hb
      have : b ≠ 11 := by
        intro h
        subst h
        simp at hb
      simp [this]
    | some y =>
      rw [hxb] at hb
      simp only [Option.map_some'] at ha hb
      have ha13 : a < 13 := by
        by_contra h
        simp [h] at ha
      have hb13 : b < 13 := by
        by_contra h
        simp [h] at hb
      simp only [ha13, hb13, if_true] at ha hb
      simp only [distanceLess]
      by_cases ha11 : a = 11 <;> by_cases hb11 : b = 11 <;>
        simp [ha11, hb11] at ha hb <;> simp [← ha, ← hb, ha11, hb11, ha13] <;>
        simp_all

/-- The result of `FindNearestCities` on the thirteen records, with `sort.Slice` as the Go
library implements it, whenever the record `l` is farther from the point than the twelve
others and within the radius. -/
theorem FindNearestCities_thirteenCities (m : Math) (lat lng radiusKm : F64)
    (hlt : F64.lt (haversineDistance m lat lng ⟨0x3FF0000000000000⟩ ⟨0⟩)
      (haversineDistance m lat lng ⟨0x4000000000000000⟩ ⟨0⟩) = true)
    (hle : F64.le (haversineDistance m lat lng ⟨0x4000000000000000⟩ ⟨0⟩) radiusKm = true) :
    (FindNearestCities m goSortSlice thirteenCities lat lng radiusKm).toList =
      [cityAt "g".toList ⟨0x3FF0000000000000⟩ ⟨0⟩, cityAt "b".toList ⟨0x3FF0000000000000⟩ ⟨0⟩,
       cityAt "c".toList ⟨0x3FF0000000000000⟩ ⟨0⟩, cityAt "d".toList ⟨0x3FF0000000000000⟩ ⟨0⟩,
       cityAt "e".toList ⟨0x3FF0000000000000⟩ ⟨0⟩, cityAt "f".toList ⟨0x3FF0000000000000⟩ ⟨0⟩,
       cityAt "a".toList ⟨0x3FF0000000000000⟩ ⟨0⟩, cityAt "h".toList ⟨0x3FF0000000000000⟩ ⟨0⟩,
       cityAt "i".toList ⟨0x3FF0000000000000⟩ ⟨0⟩, cityAt "j".toList ⟨0x3FF0000000000000⟩ ⟨0⟩,
       cityAt "k".toList ⟨0x3FF0000000000000⟩ ⟨0⟩, cityAt "m".toList ⟨0x3FF0000000000000⟩ ⟨0⟩,
       cityAt "l".toList ⟨0x4000000000000000⟩ ⟨0⟩] := by
  have hleP := F64.le_of_lt_le hlt hle
  rw [FindNearestCities_toList]
  have hfilter : thirteenCities.filter
      (fun c => F64.le (haversineDistance m lat lng c.Lat c.Lng) radiusKm) =
      thirteenCities := by
    simp [thirteenCities, cityAt, hleP, hle]
  rw [hfilter]
  generalize hP : haversineDistance m lat lng ⟨0x3FF0000000000000⟩ ⟨0⟩ = dP at hlt
  generalize hQ : haversineDistance m lat lng ⟨0x4000000000000000⟩ ⟨0⟩ = dQ at hlt
  have hmap : thirteenCities.map
      (fun c => (⟨c, haversineDistance m lat lng c.Lat c.Lng⟩ : CityDistance)) =
      [⟨thirteenCities.getD 0 CityData.zero, dP⟩, ⟨thirteenCities.getD 1 CityData.zero, dP⟩,
        ⟨thirteenCities.getD 2 CityData.zero, dP⟩, ⟨thirteenCities.getD 3 CityData.zero, dP⟩,
        ⟨thirteenCities.getD 4 CityData.zero, dP⟩, ⟨thirteenCities.getD 5 CityData.zero, dP⟩,
        ⟨thirteenCities.getD 6 CityData.zero, dP⟩, ⟨thirteenCities.getD 7 CityData.zero, dP⟩,
        ⟨thirteenCities.getD 8 CityData.zero, dP⟩, ⟨thirteenCities.getD 9 CityData.zero, dP⟩,
        ⟨thirteenCities.getD 10 CityData.zero, dP⟩,
        ⟨thirteenCities.getD 11 CityData.zero, dQ⟩,
        ⟨thirteenCities.getD 12 CityData.zero, dP⟩] := by
    simp [thirteenCities, cityAt, hP, hQ]
  rw [hmap]
  unfold goSortSlice
  rw [lessAt_thirteen dP dQ hlt (fun i => thirteenCities.getD i CityData.zero)]
  simp only [List.length_cons, List.length_nil]
  rw [pdqsort_func_thirteen]
  simp [thirteenCities, cityAt]

set_option exponentiation.threshold 5000 in
set_option maxRecDepth 4000 in
/-- C8 (as stated, refuted): with `sort.Slice` as the Go library implements it, thirteen
records of which twelve lie at the same place.  On the positions alone: twelve equal
elements and a greater one at position 11 come out with the element from position 6 in
front of those from the positions 1 to 5 and 0.  On the table `thirteenCities`, queried
from latitude `0.0`, longitude `0.0` with the radius `500.0`, in IEEE-754 arithmetic: the
twelve records at `(1.0, 0.0)` are at the distance `111.19492664455873`, the record `l` at
`(2.0, 0.0)` is at the distance `222.38985328911747`, and the record `g` is returned before
the records `b` to `f` and `a`, which stand before it in the table at the same distance.
The same result comes out under every arithmetic that puts the point `(1.0, 0.0)` nearer
than the point `(2.0, 0.0)` and the latter within the radius. -/
theorem C8_counterexample :
    goSortSlice (fun a b : Nat × Nat => decide (a.1 < b.1))
        [(0, 0), (0, 1), (0, 2), (0, 3), (0, 4), (0, 5), (0, 6), (0, 7), (0, 8), (0, 9),
          (0, 10), (1, 11), (0, 12)] =
      [(0, 6), (0, 1), (0, 2), (0, 3), (0, 4), (0, 5), (0, 0), (0, 7), (0, 8), (0, 9),
        (0, 10), (0, 12), (1, 11)] ∧
    haversineDistance goMath ⟨0⟩ ⟨0⟩ ⟨0x3FF0000000000000⟩ ⟨0⟩ = ⟨0x405BCC79AD9ADFEC⟩ ∧
    haversineDistance goMath ⟨0⟩ ⟨0⟩ ⟨0x4000000000000000⟩ ⟨0⟩ = ⟨0x406BCC79AD9ADFEC⟩ ∧
    (FindNearestCities goMath goSortSlice thirteenCities ⟨0⟩ ⟨0⟩
        ⟨0x407F400000000000⟩).toList =
      [cityAt "g".toList ⟨0x3FF0000000000000⟩ ⟨0⟩,
       cityAt "b".toList ⟨0x3FF0000000000000⟩ ⟨0⟩,
       cityAt "c".toList ⟨0x3FF0000000000000⟩ ⟨0⟩,
       cityAt "d".toList ⟨0x3FF0000000000000⟩ ⟨0⟩,
       cityAt "e".toList ⟨0x3FF0000000000000⟩ ⟨0⟩,
       cityAt "f".toList ⟨0x3FF0000000000000⟩ ⟨0⟩,
       cityAt "a".toList ⟨0x3FF0000000000000⟩ ⟨0⟩,
       cityAt "h".toList ⟨0x3FF0000000000000⟩ ⟨0⟩,
       cityAt "i".toList ⟨0x3FF0000000000000⟩ ⟨0⟩,
       cityAt "j".toList ⟨0x3FF0000000000000⟩ ⟨0⟩,
       cityAt "k".toList ⟨0x3FF0000000000000⟩ ⟨0⟩,
       cityAt "m".toList ⟨0x3FF0000000000000⟩ ⟨0⟩,
       cityAt "l".toList ⟨0x4000000000000000⟩ ⟨0⟩] ∧
    ∀ m : Math,
      F64.lt (haversineDistance m ⟨0⟩ ⟨0⟩ ⟨0x3FF0000000000000⟩ ⟨0⟩)
        (haversineDistance m ⟨0⟩ ⟨0⟩ ⟨0x4000000000000000⟩ ⟨0⟩) = true →
      F64.le (haversineDistance m ⟨0⟩ ⟨0⟩ ⟨0x4000000000000000⟩ ⟨0⟩)
        ⟨0x407F400000000000⟩ = true →
      (FindNearestCities m goSortSlice thirteenCities ⟨0⟩ ⟨0⟩ ⟨0x407F400000000000⟩).toList =
        [cityAt "g".toList ⟨0x3FF0000000000000⟩ ⟨0⟩,
         cityAt "b".toList ⟨0x3FF0000000000000⟩ ⟨0⟩,
         cityAt "c".toList ⟨0x3FF0000000000000⟩ ⟨0⟩,
         cityAt "d".toList ⟨0x3FF0000000000000⟩ ⟨0⟩,
         cityAt "e".toList ⟨0x3FF0000000000000⟩ ⟨0⟩,
         cityAt "f".toList ⟨0x3FF0000000000000⟩ ⟨0⟩,
         cityAt "a".toList ⟨0x3FF0000000000000⟩ ⟨0⟩,
         cityAt "h".toList ⟨0x3FF0000000000000⟩ ⟨0⟩,
         cityAt "i".toList ⟨0x3FF0000000000000⟩ ⟨0⟩,
         cityAt "j".toList ⟨0x3FF0000000000000⟩ ⟨0⟩,
         cityAt "k".toList ⟨0x3FF0000000000000⟩ ⟨0⟩,
         cityAt "m".toList ⟨0x3FF0000000000000⟩ ⟨0⟩,
         cityAt "l".toList ⟨0x4000000000000000⟩ ⟨0⟩] :=
  ⟨by decide, by decide, by decide,
    FindNearestCities_thirteenCities goMath ⟨0⟩ ⟨0⟩ _ (by decide) (by decide),
    fun m hlt hle => FindNearestCities_thirteenCities m ⟨0⟩ ⟨0⟩ _ hlt hle⟩

/-- C8 (amended): given that `sort.Slice` keeps its contract, whenever one returned record is
strictly nearer to `(lat, lng)` than another, it stands before it in the result.  Nothing is
said about the order of records at equal distance. -/
theorem C8_FindNearestCities_nearer_first (m : Math)
    (sortSlice : (CityDistance → CityDistance → Bool) → List CityDistance → List CityDistance)
    (hsort : SortSliceContract sortSlice)
    (cityMapping : List CityData) (lat lng radiusKm : F64) (i j : Nat)
    (hi : i < (FindNearestCities m sortSlice cityMapping lat lng radiusKm).toList.length)
    (hj : j < (FindNearestCities m sortSlice cityMapping lat lng radiusKm).toList.length)
    (hlt : F64.lt
      (haversineDistance m lat lng
        (FindNearestCities m sortSlice cityMapping lat lng radiusKm).toList[i].Lat
        (FindNearestCities m sortSlice cityMapping lat lng radiusKm).toList[i].Lng)
      (haversineDistance m lat lng
        (FindNearestCities m sortSlice cityMapping lat lng radiusKm).toList[j].Lat
        (FindNearestCities m sortSlice cityMapping lat lng radiusKm).toList[j].Lng) = true) :
    i < j := by
  have hp := List.pairwise_iff_getElem.mp
    (FindNearestCities_pairwise m sortSlice hsort cityMapping lat lng radiusKm)
  by_contra hij
  rcases Nat.lt_or_eq_of_le (Nat.le_of_not_lt hij) with h | h
  · have := hp j i hj hi h
    rw [F64.not_le_of_lt hlt] at this
    exact Bool.false_ne_true this
  · subst h
    rw [F64.lt_irrefl] at hlt
    exact Bool.false_ne_true hlt

/-- C8 (amended), at the example table: the nearer record `b` stands before `a`. -/
theorem C8_FindNearestCities_nearer_first_witness :
    (FindNearestCities exampleMath insertionSort exampleCities ⟨0⟩ ⟨0⟩ ⟨7⟩).toList =
      [cityAt "b".toList ⟨3⟩ ⟨0⟩, cityAt "c".toList ⟨5⟩ ⟨1⟩, cityAt "a".toList ⟨5⟩ ⟨0⟩] ∧
    F64.lt
      (haversineDistance exampleMath ⟨0⟩ ⟨0⟩ (cityAt "b".toList ⟨3⟩ ⟨0⟩).Lat
        (cityAt "b".toList ⟨3⟩ ⟨0⟩).Lng)
      (haversineDistance exampleMath ⟨0⟩ ⟨0⟩ (cityAt "a".toList ⟨5⟩ ⟨0⟩).Lat
        (cityAt "a".toList ⟨5⟩ ⟨0⟩).Lng) = true ∧
    0 < 2 :=
  ⟨by decide, by decide,
    C8_FindNearestCities_nearer_first exampleMath insertionSort insertionSort_contract
      exampleCities ⟨0⟩ ⟨0⟩ ⟨7⟩ 0 2 (by decide) (by decide) (by decide)⟩

/-- C9: given that `sort.Slice` rearranges its slice, for radii `r1 <= r2` every record
returned for `r1` is returned for `r2`, and the result for `r1` is not the longer one. -/
theorem C9_FindNearestCities_radius_monotone (m : Math)
    (sortSlice : (CityDistance → CityDistance → Bool) → List CityDistance → List CityDistance)
    (hperm : ∀ less l, (sortSlice less l).Perm l)
    (cityMapping : List CityData) (lat lng r1 r2 : F64) (hr : F64.le r1 r2 = true) :
    (∀ c ∈ (FindNearestCities m sortSlice cityMapping lat lng r1).toList,
      c ∈ (FindNearestCities m sortSlice cityMapping lat lng r2).toList) ∧
    (FindNearestCities m sortSlice cityMapping lat lng r1).len ≤
      (FindNearestCities m sortSlice cityMapping lat lng r2).len := by
  have h1 := FindNearestCities_perm m sortSlice hperm cityMapping lat lng r1
  have h2 := FindNearestCities_perm m sortSlice hperm cityMapping lat lng r2
  have hsub : (cityMapping.filter
        (fun c => F64.le (haversineDistance m lat lng c.Lat c.Lng) r1)).Sublist
      (cityMapping.filter
        (fun c => F64.le (haversineDistance m lat lng c.Lat c.Lng) r2)) := by
    apply List.monotone_filter_right
    intro c hc
    exact F64.le_trans hc hr
  constructor
  · intro c hc
    exact h2.mem_iff.mpr (hsub.subset (h1.mem_iff.mp hc))
  · unfold Slice.len
    rw [h1.length_eq, h2.length_eq]
    exact hsub.length_le

/-- C9, at the example table and the radii with bit patterns 4 and 7. -/
theorem C9_FindNearestCities_radius_monotone_witness :
    F64.le ⟨4⟩ ⟨7⟩ = true ∧
    (∀ c ∈ (FindNearestCities exampleMath insertionSort exampleCities ⟨0⟩ ⟨0⟩ ⟨4⟩).toList,
      c ∈ (FindNearestCities exampleMath insertionSort exampleCities ⟨0⟩ ⟨0⟩ ⟨7⟩).toList) ∧
    (FindNearestCities exampleMath insertionSort exampleCities ⟨0⟩ ⟨0⟩ ⟨4⟩).len ≤
      (FindNearestCities exampleMath insertionSort exampleCities ⟨0⟩ ⟨0⟩ ⟨7⟩).len :=
  ⟨by decide, C9_FindNearestCities_radius_monotone exampleMath insertionSort
    insertionSort_perm exampleCities ⟨0⟩ ⟨0⟩ ⟨4⟩ ⟨7⟩ (by decide)⟩

/-! ## parseCoordinates and FindFromCoordinates -/

theorem splitComma_ne_nil (s : GoString) : splitComma s ≠ [] := by
  cases s with
  | nil => simp [splitComma]
  | cons c cs =>
    unfold splitComma
    by_cases h : c = ','
    · simp [h]
    · simp only [h, if_false]
      cases splitComma cs <;> simp

/-- A string without a comma is split into itself. -/
theorem splitComma_of_not_mem (s : GoString) (h : ',' ∉ s) : splitComma s = [s] := by
  induction s with
  | nil => rfl
  | cons c cs ih =>
    have hc : c ≠ ',' := fun hc => h (by simp [hc])
    have hcs : ',' ∉ cs := fun hm => h (by simp [hm])
    unfold splitComma
    simp [hc, ih hcs]

/-- The first piece ends at the first comma. -/
theorem splitComma_append (a b : GoString) (h : ',' ∉ a) :
    splitComma (a ++ ',' :: b) = a :: splitComma b := by
  induction a with
  | nil => simp [splitComma]
  | cons c cs ih =>
    have hc : c ≠ ',' := fun hc => h (by simp [hc])
    have hcs : ',' ∉ cs := fun hm => h (by simp [hm])
    rw [List.cons_append, splitComma]
    simp [hc, ih hcs]

/-- A string is split into one piece only when it has no comma. -/
theorem splitComma_eq_single {s b : GoString} (h : splitComma s = [b]) :
    s = b ∧ ',' ∉ b := by
  induction s generalizing b with
  | nil =>
    simp only [splitComma, List.cons.injEq, and_true] at h
    subst h
    simp
  | cons c cs ih =>
    unfold splitComma at h
    by_cases hc : c = ','
    · simp only [hc, if_true, List.cons.injEq] at h
      exact absurd h.2 (splitComma_ne_nil cs)
    · simp only [hc, if_false] at h
      cases hs : splitComma cs with
      | nil => exact absurd hs (splitComma_ne_nil cs)
      | cons p ps =>
        rw [hs] at h
        simp only [List.cons.injEq] at h
        obtain ⟨hb, hps⟩ := h
        subst hps
        obtain ⟨h1, h2⟩ := ih hs
        subst hb
        subst h1
        refine ⟨rfl, ?_⟩
        intro hm
        rcases List.mem_cons.mp hm with hm | hm
        · exact hc hm.symm
        · exact h2 hm

/-- A string is split into two pieces only when it has exactly one comma. -/
theorem splitComma_eq_pair {s a b : GoString} (h : splitComma s = [a, b]) :
    s = a ++ ',' :: b ∧ ',' ∉ a ∧ ',' ∉ b := by
  induction s generalizing a with
  | nil => simp [splitComma] at h
  | cons c cs ih =>
    unfold splitComma at h
    by_cases hc : c = ','
    · simp only [hc, if_true, List.cons.injEq] at h
      obtain ⟨ha, hb⟩ := h
      obtain ⟨h1, h2⟩ := splitComma_eq_single hb
      subst ha
      subst h1
      subst hc
      exact ⟨rfl, by simp, h2⟩
    · simp only [hc, if_false] at h
      cases hs : splitComma cs with
      | nil => exact absurd hs (splitComma_ne_nil cs)
      | cons p ps =>
        rw [hs] at h
        simp only [List.cons.injEq] at h
        obtain ⟨ha, hps⟩ := h
        subst hps
        obtain ⟨h1, h2, h3⟩ := ih hs
        subst ha
        subst h1
        refine ⟨rfl, ?_, h3⟩
        intro hm
        rcases List.mem_cons.mp hm with hm | hm
        · exact hc hm.symm
        · exact h2 hm

/-- The inputs that `parseCoordinates` accepts are exactly those that denote a pair. -/
theorem parseCoordinates_eq_some_iff (parseFloat : GoString → Option F64) (coords : Coords)
    (lat lng : F64) :
    parseCoordinates parseFloat coords = some (lat, lng) ↔
      denotesPair parseFloat coords lat lng := by
  unfold denotesPair
  constructor
  · intro h
    cases coords with
    | string v =>
      left
      unfold parseCoordinates at h
      simp only [] at h
      split at h
      · rename_i part0 part1 hparts
        obtain ⟨h1, h2, h3⟩ := splitComma_eq_pair hparts
        cases h0 : parseFloat (TrimSpace part0) with
        | none => simp [h0] at h
        | some x =>
          cases h1p : parseFloat (TrimSpace part1) with
          | none => simp [h0, h1p] at h
          | some y =>
            simp only [h0, h1p, Option.some.injEq, Prod.mk.injEq] at h
            refine ⟨part0, part1, ?_, h2, h3, ?_, ?_⟩
            · rw [h1]; simp
            · rw [← h.1]; exact h0
            · rw [← h.2]; exact h1p
      · exact absurd h (by simp)
    | array2 v0 v1 =>
      right; left
      simp only [parseCoordinates, Option.some.injEq, Prod.mk.injEq] at h
      rw [h.1, h.2]
    | slice v =>
      right; right
      unfold parseCoordinates at h
      simp only [] at h
      split at h
      · simp only [Option.some.injEq, Prod.mk.injEq] at h
        rw [h.1, h.2]
      · exact absurd h (by simp)
    | other => simp [parseCoordinates] at h
  · rintro (⟨a, b, rfl, ha, hb, hlat, hlng⟩ | rfl | rfl)
    · have heq : a ++ ",".toList ++ b = a ++ ',' :: b := by simp
      have hsplit : splitComma (a ++ ',' :: b) = [a, b] := by
        rw [splitComma_append a b ha, splitComma_of_not_mem b hb]
      rw [heq]
      simp [parseCoordinates, hsplit, hlat, hlng]
    · rfl
    · rfl

/-- C10: when the coordinate input denotes the pair `(lat, lng)` - as a string with exactly
one comma whose trimmed components parse as floats, as a `[2]float64`, or as a `[]float64`
of length 2 - `FindFromCoordinates` returns exactly `FindNearestCities lat lng 50.0`; hence
two inputs of any of these shapes that denote the same pair give identical results. -/
theorem C10_FindFromCoordinates_delegates (m : Math)
    (sortSlice : (CityDistance → CityDistance → Bool) → List CityDistance → List CityDistance)
    (parseFloat : GoString → Option F64) (cityMapping : List CityData)
    (coords coords2 : Coords) (lat lng : F64)
    (h : denotesPair parseFloat coords lat lng)
    (h2 : denotesPair parseFloat coords2 lat lng) :
    FindFromCoordinates m sortSlice parseFloat cityMapping coords =
      FindNearestCities m sortSlice cityMapping lat lng F64.fifty ∧
    FindFromCoordinates m sortSlice parseFloat cityMapping coords =
      FindFromCoordinates m sortSlice parseFloat cityMapping coords2 := by
  have key : ∀ c, denotesPair parseFloat c lat lng →
      FindFromCoordinates m sortSlice parseFloat cityMapping c =
        FindNearestCities m sortSlice cityMapping lat lng F64.fifty := by
    intro c hc
    unfold FindFromCoordinates
    rw [(parseCoordinates_eq_some_iff parseFloat c lat lng).mpr hc]
  exact ⟨key coords h, (key coords h).trans (key coords2 h2).symm⟩

/-- C10, at the string ` 2, 1 ` and the slice of the same two numbers. -/
theorem C10_FindFromCoordinates_delegates_witness :
    denotesPair exampleParseFloat (Coords.string " 2, 1 ".toList) ⟨2⟩ ⟨1⟩ ∧
    denotesPair exampleParseFloat (Coords.slice [⟨2⟩, ⟨1⟩]) ⟨2⟩ ⟨1⟩ ∧
    FindFromCoordinates exampleMath insertionSort exampleParseFloat exampleCities
        (Coords.string " 2, 1 ".toList) =
      FindNearestCities exampleMath insertionSort exampleCities ⟨2⟩ ⟨1⟩ F64.fifty ∧
    FindFromCoordinates exampleMath insertionSort exampleParseFloat exampleCities
        (Coords.string " 2, 1 ".toList) =
      FindFromCoordinates exampleMath insertionSort exampleParseFloat exampleCities
        (Coords.slice [⟨2⟩, ⟨1⟩]) :=
  have h1 : denotesPair exampleParseFloat (Coords.string " 2, 1 ".toList) ⟨2⟩ ⟨1⟩ :=
    Or.inl ⟨" 2".toList, " 1 ".toList, by decide, by decide, by decide, by decide, by decide⟩
  have h2 : denotesPair exampleParseFloat (Coords.slice [⟨2⟩, ⟨1⟩]) ⟨2⟩ ⟨1⟩ :=
    Or.inr (Or.inr rfl)
  ⟨h1, h2, C10_FindFromCoordinates_delegates exampleMath insertionSort exampleParseFloat
    exampleCities _ _ ⟨2⟩ ⟨1⟩ h1 h2⟩

/-- C11: `FindFromCoordinates` fails soft.  It returns the empty (non-nil) slice for every
string that `strings.Split` does not cut into exactly two parts, for every string with two
parts of which one, trimmed, is refused by `strconv.ParseFloat` (an empty part among them as
soon as `ParseFloat` refuses the empty string, as it does), for every `[]float64` whose
length is not 2, and for every input of another type.  Being a total function, it raises
nothing. -/
theorem C11_FindFromCoordinates_fails_soft (m : Math)
    (sortSlice : (CityDistance → CityDistance → Bool) → List CityDistance → List CityDistance)
    (parseFloat : GoString → Option F64) (cityMapping : List CityData) :
    (∀ v : GoString, (splitComma v).length ≠ 2 →
      FindFromCoordinates m sortSlice parseFloat cityMapping (Coords.string v) = Slice.mk []) ∧
    (∀ v part0 part1 : GoString, splitComma v = [part0, part1] →
      parseFloat (TrimSpace part0) = none ∨ parseFloat (TrimSpace part1) = none →
      FindFromCoordinates m sortSlice parseFloat cityMapping (Coords.string v) = Slice.mk []) ∧
    (parseFloat [] = none → ∀ v part0 part1 : GoString, splitComma v = [part0, part1] →
      TrimSpace part0 = [] ∨ TrimSpace part1 = [] →
      FindFromCoordinates m sortSlice parseFloat cityMapping (Coords.string v) = Slice.mk []) ∧
    (∀ v : List F64, v.length ≠ 2 →
      FindFromCoordinates m sortSlice parseFloat cityMapping (Coords.slice v) = Slice.mk []) ∧
    FindFromCoordinates m sortSlice parseFloat cityMapping Coords.other = Slice.mk [] := by
  have hparts : ∀ v part0 part1 : GoString, splitComma v = [part0, part1] →
      parseFloat (TrimSpace part0) = none ∨ parseFloat (TrimSpace part1) = none →
      FindFromCoordinates m sortSlice parseFloat cityMapping (Coords.string v) =
        Slice.mk [] := by
    intro v part0 part1 hv hfail
    unfold FindFromCoordinates parseCoordinates
    simp only [hv]
    rcases hfail with h | h
    · simp [h]
    · cases h0 : parseFloat (TrimSpace part0) <;> simp [h]
  refine ⟨?_, hparts, ?_, ?_, rfl⟩
  · intro v hv
    unfold FindFromCoordinates parseCoordinates
    simp only []
    split
    · rfl
    · rename_i lat lng heq
      split at heq
      · rename_i part0 part1 hparts2
        rw [hparts2] at hv
        exact absurd rfl hv
      · exact absurd heq (by simp)
  · intro hempty v part0 part1 hv hblank
    apply hparts v part0 part1 hv
    rcases hblank with h | h
    · left; rw [h]; exact hempty
    · right; rw [h]; exact hempty
  · intro v hv
    unfold FindFromCoordinates parseCoordinates
    simp only []
    split
    · rfl
    · rename_i lat lng heq
      split at heq
      · simp at hv
      · exact absurd heq (by simp)

/-- C11 on the malformed strings of the test suite and on slices of the wrong length, with
the stand-in parser. -/
theorem C11_FindFromCoordinates_fails_soft_witness :
    FindFromCoordinates exampleMath insertionSort exampleParseFloat exampleCities
        (Coords.string "123;67".toList) = Slice.mk [] ∧
    FindFromCoordinates exampleMath insertionSort exampleParseFloat exampleCities
        (Coords.string "123,67,0".toList) = Slice.mk [] ∧
    FindFromCoordinates exampleMath insertionSort exampleParseFloat exampleCities
        (Coords.string "abc,def".toList) = Slice.mk [] ∧
    FindFromCoordinates exampleMath insertionSort exampleParseFloat exampleCities
        (Coords.string "   ,   ".toList) = Slice.mk [] ∧
    FindFromCoordinates exampleMath insertionSort exampleParseFloat exampleCities
        (Coords.slice [⟨1⟩, ⟨2⟩, ⟨3⟩]) = Slice.mk [] :=
  have h := C11_FindFromCoordinates_fails_soft exampleMath insertionSort exampleParseFloat
    exampleCities
  ⟨h.1 _ (by decide), h.1 _ (by decide),
    h.2.1 _ "abc".toList "def".toList (by decide) (Or.inl (by decide)),
    h.2.2.1 (by decide) _ "   ".toList "   ".toList (by decide) (Or.inl (by decide)),
    h.2.2.2.1 _ (by decide)⟩

/-! ## Rounding to the nearest float64 -/

/-- Cutting `s` bits at a time leaves fewer than `52 + s` bits, and at least 53 bits when
anything was cut. -/
theorem shiftLoop_spec (s : Nat) (fuel q : Nat) (hq : q < 2 ^ (52 + s * (fuel + 1))) :
    q / 2 ^ shiftLoop s fuel q < 2 ^ (52 + s) ∧
      (shiftLoop s fuel q = 0 ∨ 2 ^ 52 ≤ q / 2 ^ shiftLoop s fuel q) := by
  induction fuel generalizing q with
  | zero =>
    simp only [shiftLoop, pow_zero, Nat.div_one, true_or, and_true]
    simpa using hq
  | succ fuel ih =>
    unfold shiftLoop
    by_cases h : q < 2 ^ (52 + s)
    · simp [h]
    · simp only [h, if_false]
      have hq2 : q / 2 ^ s < 2 ^ (52 + s * (fuel + 1)) := by
        apply Nat.div_lt_of_lt_mul
        calc q < 2 ^ (52 + s * (fuel + 1 + 1)) := hq
          _ = 2 ^ s * 2 ^ (52 + s * (fuel + 1)) := by rw [← pow_add]; congr 1; ring
      obtain ⟨h1, h2⟩ := ih (q / 2 ^ s) hq2
      have hdiv : q / 2 ^ (shiftLoop s fuel (q / 2 ^ s) + s) =
          q / 2 ^ s / 2 ^ shiftLoop s fuel (q / 2 ^ s) := by
        rw [Nat.div_div_eq_div_mul, ← pow_add, Nat.add_comm]
      rw [hdiv]
      refine ⟨h1, Or.inr ?_⟩
      rcases h2 with h2 | h2
      · rw [h2, pow_zero, Nat.div_one]
        rw [Nat.le_div_iff_mul_le (by positivity), ← pow_add]
        exact Nat.le_of_not_lt h
      · exact h2

set_option exponentiation.threshold 5000 in
/-- The shift leaves fewer than 54 bits, and exactly 53 bits unless nothing was cut. -/
theorem shiftFor_spec (q : Nat) (hq : q < 2 ^ 3300) :
    q / 2 ^ shiftFor q < 2 ^ 53 ∧ (shiftFor q = 0 ∨ 2 ^ 52 ≤ q / 2 ^ shiftFor q) := by
  unfold shiftFor
  simp only
  obtain ⟨a1, a2⟩ := shiftLoop_spec 64 50 q
    (lt_of_lt_of_le hq (Nat.pow_le_pow_right (by norm_num) (by norm_num)))
  obtain ⟨b1, b2⟩ := shiftLoop_spec 8 8 (q / 2 ^ shiftLoop 64 50 q)
    (lt_of_lt_of_le a1 (Nat.pow_le_pow_right (by norm_num) (by norm_num)))
  obtain ⟨c1, c2⟩ := shiftLoop_spec 1 8
    (q / 2 ^ shiftLoop 64 50 q / 2 ^ shiftLoop 8 8 (q / 2 ^ shiftLoop 64 50 q))
    (lt_of_lt_of_le b1 (Nat.pow_le_pow_right (by norm_num) (by norm_num)))
  generalize shiftLoop 64 50 q = a at *
  generalize shiftLoop 8 8 (q / 2 ^ a) = b at *
  generalize shiftLoop 1 8 (q / 2 ^ a / 2 ^ b) = c at *
  have hdiv : q / 2 ^ (a + b + c) = q / 2 ^ a / 2 ^ b / 2 ^ c := by
    rw [Nat.div_div_eq_div_mul, Nat.div_div_eq_div_mul, ← pow_add, ← pow_add, Nat.add_assoc]
  rw [hdiv]
  refine ⟨c1, ?_⟩
  rcases c2 with c2 | c2
  · subst c2
    rcases b2 with b2 | b2
    · subst b2
      rcases a2 with a2 | a2
      · subst a2
        exact Or.inl rfl
      · right
        simpa using a2
    · right
      simpa using b2
  · exact Or.inr c2

/-- There is one shift that leaves exactly 53 bits. -/
theorem shiftFor_unique (q e : Nat) (hq : q < 2 ^ 3300) (h1 : q / 2 ^ e < 2 ^ 53)
    (h2 : e = 0 ∨ 2 ^ 52 ≤ q / 2 ^ e) : shiftFor q = e := by
  obtain ⟨s1, s2⟩ := shiftFor_spec q hq
  generalize shiftFor q = f at *
  have key : ∀ a b : Nat, a < b → q / 2 ^ a < 2 ^ 53 → 2 ^ 52 ≤ q / 2 ^ b → False := by
    intro a b hab ha hb
    obtain ⟨k, rfl⟩ : ∃ k, b = a + (k + 1) := ⟨b - a - 1, by omega⟩
    rw [pow_add, ← Nat.div_div_eq_div_mul] at hb
    have : q / 2 ^ a / 2 ^ (k + 1) ≤ q / 2 ^ a / 2 := by
      rw [pow_succ, Nat.mul_comm, ← Nat.div_div_eq_div_mul]
      exact Nat.div_le_self _ _
    omega
  rcases Nat.lt_trichotomy f e with h | h | h
  · rcases h2 with h2 | h2
    · omega
    · exact (key f e h s1 h2).elim
  · exact h
  · rcases s2 with s2 | s2
    · omega
    · exact (key e f h h1 s2).elim

/-- The rounding of `n / d` is fixed by any way of writing `n` as `q` steps of `d * 2^e`
units and a rest, with `q` of at most 53 bits, and of exactly 53 bits unless `e = 0`. -/
theorem roundMag_eq_of (n d e q r : Nat) (hd : 0 < d) (hn : n / d < 2 ^ 3300)
    (hnq : n = q * (d * 2 ^ e) + r) (hr : r < d * 2 ^ e) (hq : q < 2 ^ 53)
    (he : e = 0 ∨ 2 ^ 52 ≤ q) :
    roundMag n d =
      min (e * 2 ^ 52 + (if d * 2 ^ e < 2 * r ∨ (2 * r = d * 2 ^ e ∧ q % 2 = 1) then q + 1 else q))
        0x7FF0000000000000 := by
  have hD : 0 < d * 2 ^ e := by positivity
  have hdiv : n / (d * 2 ^ e) = q := by
    rw [hnq, Nat.add_comm, Nat.add_mul_div_right _ _ hD, Nat.div_eq_of_lt hr, Nat.zero_add]
  have hmod : n % (d * 2 ^ e) = r := by
    rw [hnq, Nat.add_comm, Nat.add_mul_mod_self_right, Nat.mod_eq_of_lt hr]
  have hs : shiftFor (n / d) = e := by
    apply shiftFor_unique _ _ hn
    · rw [Nat.div_div_eq_div_mul, hdiv]; exact hq
    · rw [Nat.div_div_eq_div_mul, hdiv]; exact he
  unfold roundMag
  simp only [hs, hdiv, hmod]

/-- The rounding of a ratio does not change when both terms are multiplied by `k`. -/
theorem roundMag_mul_right (n d k : Nat) (hd : 0 < d) (hk : 0 < k) (hn : n / d < 2 ^ 3300) :
    roundMag (n * k) (d * k) = roundMag n d := by
  obtain ⟨s1, s2⟩ := shiftFor_spec (n / d) hn
  have hD : 0 < d * 2 ^ shiftFor (n / d) := by positivity
  have hq : n / (d * 2 ^ shiftFor (n / d)) < 2 ^ 53 := by
    rw [← Nat.div_div_eq_div_mul]; exact s1
  have he : shiftFor (n / d) = 0 ∨ 2 ^ 52 ≤ n / (d * 2 ^ shiftFor (n / d)) := by
    rw [← Nat.div_div_eq_div_mul]; exact s2
  rw [roundMag_eq_of n d (shiftFor (n / d)) (n / (d * 2 ^ shiftFor (n / d)))
      (n % (d * 2 ^ shiftFor (n / d))) hd hn (Nat.div_add_mod' _ _).symm
      (Nat.mod_lt _ hD) hq he]
  rw [roundMag_eq_of (n * k) (d * k) (shiftFor (n / d)) (n / (d * 2 ^ shiftFor (n / d)))
      (n % (d * 2 ^ shiftFor (n / d)) * k) (by positivity)
      (by rw [Nat.mul_div_mul_right _ _ hk]; exact hn)
      (by
        have h := (Nat.div_add_mod' n (d * 2 ^ shiftFor (n / d))).symm
        calc n * k = (n / (d * 2 ^ shiftFor (n / d)) * (d * 2 ^ shiftFor (n / d)) +
              n % (d * 2 ^ shiftFor (n / d))) * k := by rw [← h]
          _ = _ := by ring)
      (by
        have h := Nat.mod_lt n hD
        calc n % (d * 2 ^ shiftFor (n / d)) * k < d * 2 ^ shiftFor (n / d) * k :=
              Nat.mul_lt_mul_of_pos_right h hk
          _ = d * k * 2 ^ shiftFor (n / d) := by ring)
      hq he]
  generalize n % (d * 2 ^ shiftFor (n / d)) = r
  generalize n / (d * 2 ^ shiftFor (n / d)) = q
  generalize shiftFor (n / d) = e
  have e1 : d * k * 2 ^ e = d * 2 ^ e * k := by ring
  have e2 : 2 * (r * k) = 2 * r * k := by ring
  have h1 : d * k * 2 ^ e < 2 * (r * k) ↔ d * 2 ^ e < 2 * r := by
    rw [e1, e2]; exact Nat.mul_lt_mul_right hk
  have h2 : 2 * (r * k) = d * k * 2 ^ e ↔ 2 * r = d * 2 ^ e := by
    rw [e1, e2]; exact Nat.mul_left_inj (Nat.pos_iff_ne_zero.mp hk)
  simp only [h1, h2]

/-- The magnitude that the fields `e * 2^52 + q` stand for. -/
theorem mag_ofSignMag (s : Bool) (e q : Nat) (hq : q ≤ 2 ^ 53) (he : e = 0 ∨ 2 ^ 52 ≤ q)
    (hb : e * 2 ^ 52 + q < 0x7FF0000000000000) :
    (F64.ofSignMag s (e * 2 ^ 52 + q)).mag = q * 2 ^ e := by
  have hbits : ((F64.ofSignMag s (e * 2 ^ 52 + q)).bits % 2 ^ 64) % 2 ^ 63 =
      e * 2 ^ 52 + q := by
    cases s <;> simp only [F64.ofSignMag, if_true, if_false, Bool.false_eq_true] <;> omega
  unfold F64.mag
  simp only [hbits]
  by_cases h52 : q < 2 ^ 52
  · have he0 : e = 0 := by omega
    subst he0
    simp only [Nat.zero_mul, Nat.zero_add, h52, if_true, pow_zero, Nat.mul_one]
  · have hlt : ¬ (e * 2 ^ 52 + q < 2 ^ 52) := by omega
    simp only [hlt, if_false]
    by_cases h53 : q = 2 ^ 53
    · subst h53
      have h1 : (e * 2 ^ 52 + 2 ^ 53) / 2 ^ 52 = e + 2 := by omega
      have h2 : (e * 2 ^ 52 + 2 ^ 53) % 2 ^ 52 = 0 := by omega
      rw [h1, h2, show e + 2 - 1 = e + 1 by omega, Nat.add_zero, pow_succ 2 e,
        show (2 : Nat) ^ 53 = 2 ^ 52 * 2 by norm_num]
      ring
    · have h1 : (e * 2 ^ 52 + q) / 2 ^ 52 = e + 1 := by omega
      have h2 : (e * 2 ^ 52 + q) % 2 ^ 52 = q - 2 ^ 52 := by omega
      have h3 : 2 ^ 52 + (q - 2 ^ 52) = q := by omega
      rw [h1, h2, h3, Nat.add_sub_cancel]

set_option exponentiation.threshold 5000 in
/-- Halving the `float64` nearest to `2 * c` gives the `float64` nearest to `c`. -/
theorem roundMag_half_double (s : Bool) (c : Nat) (hc : c < 2 ^ 3000)
    (hfin : roundMag (2 * c) 1 < 0x7FF0000000000000) :
    roundMag ((F64.ofSignMag s (roundMag (2 * c) 1)).mag * 2 ^ 1074) (2 ^ 1075) =
      roundMag c 1 := by
  have h2c : 2 * c < 2 ^ 3300 := by
    calc 2 * c < 2 * 2 ^ 3000 := by omega
      _ = 2 ^ 3001 := by rw [← pow_succ']
      _ ≤ 2 ^ 3300 := Nat.pow_le_pow_right (by norm_num) (by norm_num)
  have h2c1 : 2 * c / 1 < 2 ^ 3300 := by rw [Nat.div_one]; exact h2c
  have hc1 : c / 1 < 2 ^ 3300 := by
    rw [Nat.div_one]; omega
  obtain ⟨s1, s2⟩ := shiftFor_spec (2 * c) h2c
  have hP : 0 < 2 ^ shiftFor (2 * c) := by positivity
  have hR := roundMag_eq_of (2 * c) 1 (shiftFor (2 * c)) (2 * c / 2 ^ shiftFor (2 * c))
    (2 * c % 2 ^ shiftFor (2 * c)) Nat.one_pos h2c1
    (by rw [Nat.one_mul]; exact (Nat.div_add_mod' _ _).symm)
    (by rw [Nat.one_mul]; exact Nat.mod_lt _ hP) s1 s2
  have hdm := Nat.div_add_mod' (2 * c) (2 ^ shiftFor (2 * c))
  have hrlt := Nat.mod_lt (2 * c) hP
  generalize shiftFor (2 * c) = e1 at *
  generalize 2 * c / 2 ^ e1 = q1 at *
  generalize 2 * c % 2 ^ e1 = r1 at *
  rw [Nat.one_mul] at hR
  generalize hq2 : (if 2 ^ e1 < 2 * r1 ∨ (2 * r1 = 2 ^ e1 ∧ q1 % 2 = 1) then q1 + 1 else q1) = q2
    at hR
  have hq2le : q2 ≤ 2 ^ 53 := by
    rw [← hq2]; split_ifs <;> omega
  have hq2ge : q1 ≤ q2 := by
    rw [← hq2]; split_ifs <;> omega
  have hfin2 : e1 * 2 ^ 52 + q2 < 0x7FF0000000000000 := by
    rw [hR] at hfin
    exact (min_lt_iff.mp hfin).resolve_right (lt_irrefl _)
  have hRe : roundMag (2 * c) 1 = e1 * 2 ^ 52 + q2 := by
    rw [hR]; exact min_eq_left hfin2.le
  have hmag := mag_ofSignMag s e1 q2 hq2le (s2.imp id (fun h => le_trans h hq2ge)) hfin2
  rw [hRe, hmag]
  rcases Nat.eq_zero_or_pos e1 with h0 | hpos
  · subst h0
    have hr0 : r1 = 0 := by simpa using hrlt
    have hq1c : q1 = 2 * c := by simpa [hr0] using hdm
    have hq2c : q2 = 2 * c := by
      rw [← hq2, hr0, hq1c]; simp
    rw [hq2c, pow_zero, Nat.mul_one]
    have h := roundMag_mul_right c 1 (2 ^ 1075) Nat.one_pos (by positivity) hc1
    rw [Nat.one_mul] at h
    have hpow : (2 : Nat) ^ 1075 = 2 ^ 1074 * 2 := pow_succ 2 1074
    have hn : 2 * c * 2 ^ 1074 = c * 2 ^ 1075 := by
      rw [hpow]
      generalize (2 : Nat) ^ 1074 = P
      ring
    rw [hn, h]
  · obtain ⟨e, rfl⟩ : ∃ e, e1 = e + 1 := ⟨e1 - 1, by omega⟩
    have hq1ge : 2 ^ 52 ≤ q1 := by
      rcases s2 with h | h
      · omega
      · exact h
    have hpow : (2 : Nat) ^ (e + 1) = 2 * 2 ^ e := pow_succ' 2 e
    have hPe : 0 < 2 ^ e := by positivity
    rw [hpow] at hdm hrlt hq2
    have hM : q1 * (2 * 2 ^ e) = 2 * (q1 * 2 ^ e) := by ring
    rw [hM] at hdm
    have hr1 : r1 = 2 * (r1 / 2) := by omega
    have hcq : c = q1 * (1 * 2 ^ e) + r1 / 2 := by rw [Nat.one_mul]; omega
    have hr2 : r1 / 2 < 1 * 2 ^ e := by rw [Nat.one_mul]; omega
    have hPc : 2 ^ e ≤ c := by
      have : 1 * 2 ^ e ≤ q1 * 2 ^ e := Nat.mul_le_mul_right _ (by omega)
      omega
    have hRc := roundMag_eq_of c 1 e q1 (r1 / 2) Nat.one_pos hc1 hcq hr2 s1 (Or.inr hq1ge)
    have hcond : (1 * 2 ^ e < 2 * (r1 / 2) ∨ (2 * (r1 / 2) = 1 * 2 ^ e ∧ q1 % 2 = 1)) ↔
        (2 * 2 ^ e < 2 * r1 ∨ (2 * r1 = 2 * 2 ^ e ∧ q1 % 2 = 1)) := by
      rw [Nat.one_mul]
      constructor
      · rintro (h | ⟨h, h'⟩)
        · left; omega
        · right; exact ⟨by omega, h'⟩
      · rintro (h | ⟨h, h'⟩)
        · left; omega
        · right; exact ⟨by omega, h'⟩
    simp only [hcond, hq2] at hRc
    rw [hRc]
    have hn : q2 * (2 * 2 ^ e) * 2 ^ 1074 = q2 * 2 ^ e * 2 ^ 1075 := by
      have hp : (2 : Nat) ^ 1075 = 2 ^ 1074 * 2 := pow_succ 2 1074
      rw [hp]
      generalize (2 : Nat) ^ 1074 = P
      ring
    have hbound : q2 * 2 ^ e / 1 < 2 ^ 3300 := by
      rw [Nat.div_one]
      calc q2 * 2 ^ e ≤ 2 ^ 53 * 2 ^ e := Nat.mul_le_mul_right _ hq2le
        _ ≤ 2 ^ 53 * c := Nat.mul_le_mul_left _ hPc
        _ < 2 ^ 53 * 2 ^ 3000 := Nat.mul_lt_mul_of_pos_left hc (by positivity)
        _ = 2 ^ 3053 := by rw [← pow_add]
        _ ≤ 2 ^ 3300 := Nat.pow_le_pow_right (by norm_num) (by norm_num)
    have h := roundMag_mul_right (q2 * 2 ^ e) 1 (2 ^ 1075) Nat.one_pos (by positivity) hbound
    rw [Nat.one_mul] at h
    rw [hpow, hn, h]
    by_cases h53 : q2 = 2 ^ 53
    · have hR2 := roundMag_eq_of (q2 * 2 ^ e) 1 (e + 1) (2 ^ 52) 0 Nat.one_pos hbound
        (by rw [h53, hpow, show (2 : Nat) ^ 53 = 2 ^ 52 * 2 by norm_num]; ring)
        (by positivity) (by norm_num) (Or.inr le_rfl)
      rw [hR2, hpow, h53]
      have hc1 : ¬ (1 * (2 * 2 ^ e) < 2 * 0 ∨ (2 * 0 = 1 * (2 * 2 ^ e) ∧ 2 ^ 52 % 2 = 1)) := by
        omega
      rw [if_neg hc1, show (e + 1) * 2 ^ 52 + 2 ^ 52 = e * 2 ^ 52 + 2 ^ 53 by omega]
    · have hR2 := roundMag_eq_of (q2 * 2 ^ e) 1 e q2 0 Nat.one_pos hbound
        (by ring) (by positivity) (by omega) (Or.inr (le_trans hq1ge hq2ge))
      rw [hR2]
      have hc1 : ¬ (1 * 2 ^ e < 2 * 0 ∨ (2 * 0 = 1 * 2 ^ e ∧ q2 % 2 = 1)) := by
        omega
      rw [if_neg hc1]

/-- A finite `float64` is not a NaN. -/
theorem F64.isNaN_of_isFinite {x : F64} (h : x.isFinite = true) : x.isNaN = false := by
  simp only [F64.isFinite, decide_eq_true_eq] at h
  simp only [F64.isNaN, decide_eq_false_iff_not]
  omega

/-- A finite `float64` is not an infinity. -/
theorem F64.isInf_of_isFinite {x : F64} (h : x.isFinite = true) : x.isInf = false := by
  simp only [F64.isFinite, decide_eq_true_eq] at h
  simp only [F64.isInf, decide_eq_false_iff_not]
  omega

/-- The sign bit of a `float64` built from its sign and its fields. -/
theorem F64.signBit_ofSignMag (s : Bool) (b : Nat) (hb : b < 2 ^ 63) :
    (F64.ofSignMag s b).signBit = s := by
  cases s
  · simp only [F64.signBit, F64.ofSignMag, Bool.false_eq_true, if_false, decide_eq_false_iff_not]
    omega
  · simp only [F64.signBit, F64.ofSignMag, if_true, decide_eq_true_eq]
    omega

/-- The fields of a finite `float64` are below those of the infinity. -/
theorem F64.isFinite_ofSignMag (s : Bool) (b : Nat) (hb : b < 2 ^ 63)
    (h : (F64.ofSignMag s b).isFinite = true) : b < 0x7FF0000000000000 := by
  cases s <;>
    simp only [F64.isFinite, F64.ofSignMag, Bool.false_eq_true, if_false, if_true,
      decide_eq_true_eq] at h <;> omega

/-- The fields of a rounded magnitude are at most those of the infinity. -/
theorem roundMag_le (n d : Nat) : roundMag n d ≤ 0x7FF0000000000000 := by
  unfold roundMag
  exact min_le_right _ _

set_option exponentiation.threshold 5000 in
/-- The magnitude of a `float64` is below `2^2099` units. -/
theorem F64.mag_lt (x : F64) : x.mag < 2 ^ 2099 := by
  have hb : x.bits % 2 ^ 64 % 2 ^ 63 < 2 ^ 63 := Nat.mod_lt _ (by positivity)
  unfold F64.mag
  simp only
  generalize x.bits % 2 ^ 64 % 2 ^ 63 = b at hb
  split_ifs with h
  · calc b < 2 ^ 52 := h
      _ ≤ 2 ^ 2099 := Nat.pow_le_pow_right (by norm_num) (by norm_num)
  · have h1 : 2 ^ 52 + b % 2 ^ 52 < 2 ^ 53 := by omega
    have h2 : b / 2 ^ 52 - 1 ≤ 2046 := by omega
    calc (2 ^ 52 + b % 2 ^ 52) * 2 ^ (b / 2 ^ 52 - 1)
        < 2 ^ 53 * 2 ^ (b / 2 ^ 52 - 1) := Nat.mul_lt_mul_of_pos_right h1 (by positivity)
      _ ≤ 2 ^ 53 * 2 ^ 2046 :=
        Nat.mul_le_mul_left _ (Nat.pow_le_pow_right (by norm_num) h2)
      _ = 2 ^ 2099 := by rw [← pow_add]

/-- The absolute value of a `float64` in units is its magnitude. -/
theorem F64.natAbs_toScaled (x : F64) : x.toScaled.natAbs = x.mag := by
  unfold F64.toScaled
  split_ifs <;> simp

/-- A `float64` of positive value has a clear sign bit. -/
theorem F64.signBit_of_toScaled_pos {x : F64} (h : 0 < x.toScaled) : x.signBit = false := by
  unfold F64.toScaled at h
  by_contra hs
  rw [Bool.not_eq_false] at hs
  rw [if_pos hs] at h
  omega

set_option exponentiation.threshold 5000 in
/-- The constant `2` is `2^1075` units. -/
theorem F64.two_facts :
    F64.two.isNaN = false ∧ F64.two.isInf = false ∧ F64.two.signBit = false ∧
      F64.two.mag = 2 ^ 1075 ∧ F64.two.isFinite = true := by
  decide

set_option exponentiation.threshold 5000 in
/-- Half of `+0` is `+0`. -/
theorem F64.div_zero_two : F64.div (F64.ofSignMag false 0) F64.two = F64.ofSignMag false 0 := by
  decide

/-- Halving a finite `float64` that is the sum of two numbers. -/
theorem F64.div_two_of_finite (t : F64) (ht : t.isFinite = true) :
    F64.div t F64.two =
      F64.ofSignMag t.signBit (roundMag (t.mag * 2 ^ 1074) (2 ^ 1075)) := by
  obtain ⟨h1, h2, h3, h4, -⟩ := F64.two_facts
  have h5 : (2 : Nat) ^ 1075 ≠ 0 := by positivity
  unfold F64.div
  simp only [F64.isNaN_of_isFinite ht, F64.isInf_of_isFinite ht, h1, h2, h3, h4,
    Bool.or_self, Bool.false_eq_true, if_false, h5, Bool.bne_false]

/-- A half that is finite comes from a number that is not a NaN. -/
theorem F64.isNaN_of_div_two_isFinite (x : F64) (h : (F64.div x F64.two).isFinite = true) :
    x.isNaN = false := by
  by_contra hx
  rw [Bool.not_eq_false] at hx
  unfold F64.div at h
  simp only [hx, Bool.true_or, if_true] at h
  exact absurd h (by decide)

set_option exponentiation.threshold 5000 in
/-- The centre of a side computed as `lo + (hi - lo)/2` is the centre computed as
`(lo + hi)/2`, down to the last bit, when the half-width is computed without rounding. -/
theorem F64.add_half_sub (lo hi : F64) (h : exactSide lo hi) :
    F64.add lo (F64.div (F64.sub hi lo) F64.two) = F64.div (F64.add lo hi) F64.two := by
  obtain ⟨hlo, hhi, hlt, hfin, hhalf, hsum⟩ := h
  generalize F64.div (F64.sub hi lo) F64.two = w at *
  have hwpos : 0 < w.toScaled := by omega
  have hws : w.signBit = false := F64.signBit_of_toScaled_pos hwpos
  have hadd1 : F64.add lo w =
      if lo.toScaled + w.toScaled = 0 then F64.ofSignMag false 0
      else F64.ofSignMag (decide (lo.toScaled + w.toScaled < 0))
        (roundMag (lo.toScaled + w.toScaled).natAbs 1) := by
    unfold F64.add
    simp only [F64.isNaN_of_isFinite hlo, F64.isNaN_of_isFinite hfin,
      F64.isInf_of_isFinite hlo, F64.isInf_of_isFinite hfin, Bool.or_self,
      Bool.false_eq_true, if_false, hws, Bool.and_false]
  have hadd2 : F64.add lo hi =
      if lo.toScaled + hi.toScaled = 0 then F64.ofSignMag (lo.signBit && hi.signBit) 0
      else F64.ofSignMag (decide (lo.toScaled + hi.toScaled < 0))
        (roundMag (lo.toScaled + hi.toScaled).natAbs 1) := by
    unfold F64.add
    simp only [F64.isNaN_of_isFinite hlo, F64.isNaN_of_isFinite hhi,
      F64.isInf_of_isFinite hlo, F64.isInf_of_isFinite hhi, Bool.or_self,
      Bool.false_eq_true, if_false]
  have hH : hi.toScaled = lo.toScaled + 2 * w.toScaled := by omega
  rw [hadd1]
  by_cases hz : lo.toScaled + w.toScaled = 0
  · have hz2 : lo.toScaled + hi.toScaled = 0 := by omega
    have hhs : hi.signBit = false := F64.signBit_of_toScaled_pos (by omega)
    rw [hadd2, if_pos hz, if_pos hz2, hhs, Bool.and_false, F64.div_zero_two]
  · have hz2 : ¬ (lo.toScaled + hi.toScaled = 0) := by omega
    rw [hadd2, if_neg hz2] at hsum
    rw [hadd2, if_neg hz, if_neg hz2]
    have hnat : (lo.toScaled + hi.toScaled).natAbs = 2 * (lo.toScaled + w.toScaled).natAbs := by
      omega
    have hdec : decide (lo.toScaled + hi.toScaled < 0) = decide (lo.toScaled + w.toScaled < 0) := by
      apply decide_eq_decide.mpr
      omega
    rw [hnat, hdec] at hsum ⊢
    have h63 : roundMag (2 * (lo.toScaled + w.toScaled).natAbs) 1 < 2 ^ 63 :=
      lt_of_le_of_lt (roundMag_le _ _) (by norm_num)
    have hfin2 := F64.isFinite_ofSignMag _ _ h63 hsum
    have hc : (lo.toScaled + w.toScaled).natAbs < 2 ^ 3000 := by
      have h1 := F64.mag_lt lo
      have h2 := F64.mag_lt w
      have h3 := F64.natAbs_toScaled lo
      have h4 := F64.natAbs_toScaled w
      have h5 : (lo.toScaled + w.toScaled).natAbs ≤ lo.toScaled.natAbs + w.toScaled.natAbs :=
        Int.natAbs_add_le _ _
      have h6 : (2 : Nat) ^ 2099 + 2 ^ 2099 ≤ 2 ^ 3000 := by
        calc (2 : Nat) ^ 2099 + 2 ^ 2099 = 2 ^ 2100 := by rw [pow_succ 2 2099]; omega
          _ ≤ 2 ^ 3000 := Nat.pow_le_pow_right (by norm_num) (by norm_num)
      omega
    rw [F64.div_two_of_finite _ hsum, F64.signBit_ofSignMag _ _ h63,
      roundMag_half_double _ _ hc hfin2]

set_option exponentiation.threshold 5000 in
/-- A side whose bounds are not binary fractions: the `float64` nearest to `41.714875` and
to `41.715`, the latitudes of the cell of the code `86HJP27M+XF` of the test suite.  The
half-width is computed without rounding, the sum `lo + hi` is rounded, and both ways of
computing the centre give `41.714937500000005`. -/
theorem exactSide_example :
    exactSide ⟨0x4044DB810624DD2F⟩ ⟨0x4044DB851EB851EC⟩ ∧
    (F64.add ⟨0x4044DB810624DD2F⟩ ⟨0x4044DB851EB851EC⟩).toScaled ≠
      F64.toScaled ⟨0x4044DB810624DD2F⟩ + F64.toScaled ⟨0x4044DB851EB851EC⟩ ∧
    F64.add ⟨0x4044DB810624DD2F⟩
        (F64.div (F64.sub ⟨0x4044DB851EB851EC⟩ ⟨0x4044DB810624DD2F⟩) F64.two) =
      ⟨0x4044DB83126E978E⟩ ∧
    F64.div (F64.add ⟨0x4044DB810624DD2F⟩ ⟨0x4044DB851EB851EC⟩) F64.two =
      ⟨0x4044DB83126E978E⟩ :=
  ⟨⟨by decide, by decide, by decide, by decide, by decide, by decide⟩, by decide, by decide,
    by decide⟩

/-- The bit-by-bit search keeps the root between `r` and `r + 2^i`. -/
theorem isqrtLoop_spec (n i r : Nat) (h1 : r * r ≤ n) (h2 : n < (r + 2 ^ i) * (r + 2 ^ i)) :
    isqrtLoop n i r * isqrtLoop n i r ≤ n ∧
      n < (isqrtLoop n i r + 1) * (isqrtLoop n i r + 1) := by
  induction i generalizing r with
  | zero => simpa [isqrtLoop] using And.intro h1 h2
  | succ i ih =>
    unfold isqrtLoop
    by_cases h : (r + 2 ^ i) * (r + 2 ^ i) ≤ n
    · rw [if_pos h]
      apply ih _ h
      have e : r + 2 ^ i + 2 ^ i = r + 2 ^ (i + 1) := by rw [pow_succ]; omega
      rw [e]; exact h2
    · rw [if_neg h]
      exact ih _ h1 (Nat.lt_of_not_le h)

set_option exponentiation.threshold 5000 in
/-- The integer square root of the model is the integer square root, whatever the starting
point of Newton's iteration. -/
theorem isqrt_spec (n x0 : Nat) (hn : n < 2 ^ 3200) :
    isqrt n x0 * isqrt n x0 ≤ n ∧ n < (isqrt n x0 + 1) * (isqrt n x0 + 1) := by
  unfold isqrt
  simp only
  split_ifs with h
  · exact h
  · apply isqrtLoop_spec n 1600 0 (Nat.zero_le _)
    rw [Nat.zero_add, ← pow_add]
    exact hn

/-! ## FindFromPlusCode -/

/-- The `float64` code is the formula over `F` read with the operations of `m`. -/
theorem haversineDistance_eq_haversineOver (m : Math) (lat1 lon1 lat2 lon2 : F64) :
    haversineDistance m lat1 lon1 lat2 lon2 = haversineOver m.arith lat1 lon1 lat2 lon2 :=
  rfl

theorem FindFromPlusCode_of_decoded (m : Math)
    (sortSlice : (CityDistance → CityDistance → Bool) → List CityDistance → List CityDistance)
    (olcDecode : GoString → Option CodeArea) (cityMapping : List CityData)
    (plusCode : GoString) (area : CodeArea) (hne : TrimSpace plusCode ≠ [])
    (hdec : olcDecode (TrimSpace plusCode) = some area) :
    FindFromPlusCode m sortSlice olcDecode cityMapping plusCode =
      FindNearestCities m sortSlice cityMapping
        (centerOver m.arith area.LatLo area.LatHi) (centerOver m.arith area.LngLo area.LngHi)
        F64.fifty := by
  unfold FindFromPlusCode
  simp only [hne, if_false, hdec]
  rfl

/-- In exact arithmetic the centre `lo + (hi - lo)/2` is `(lo + hi)/2`. -/
theorem centerOver_real (lo hi : ℝ) : centerOver realArith lo hi = (lo + hi) / 2 := by
  simp only [centerOver, realArith]
  ring

/-- The centre that `FindFromPlusCode` computes for a side, `lo + (hi - lo)/2`, is the
`float64` `(lo + hi)/2` in IEEE-754 arithmetic when the half-width is computed without
rounding. -/
theorem centerOver_eq_midpoint (m : Math) (hm : IEEEArith m) (lo hi : F64)
    (h : exactSide lo hi) :
    centerOver m.arith lo hi = m.div (m.add lo hi) F64.two := by
  have h2 := h
  obtain ⟨hlo, hhi, -, hfin, -, hsum⟩ := h2
  obtain ⟨-, -, -, hmag, htwo⟩ := F64.two_facts
  have hmag0 : F64.two.mag ≠ 0 := by
    rw [hmag]; positivity
  have e1 : m.sub hi lo = F64.sub hi lo := hm.sub_eq hi lo hhi hlo
  have e2 : m.div (F64.sub hi lo) F64.two = F64.div (F64.sub hi lo) F64.two :=
    hm.div_eq _ _ (F64.isNaN_of_div_two_isFinite _ hfin) htwo hmag0
  have e3 : m.add lo (F64.div (F64.sub hi lo) F64.two) =
      F64.add lo (F64.div (F64.sub hi lo) F64.two) := hm.add_eq _ _ hlo hfin
  have e4 : m.add lo hi = F64.add lo hi := hm.add_eq _ _ hlo hhi
  have e5 : m.div (F64.add lo hi) F64.two = F64.div (F64.add lo hi) F64.two :=
    hm.div_eq _ _ (F64.isNaN_of_isFinite hsum) htwo hmag0
  show m.add lo (m.div (m.sub hi lo) F64.two) = m.div (m.add lo hi) F64.two
  rw [e1, e2, e3, e4, e5]
  exact F64.add_half_sub lo hi h

/-- The arithmetic of the examples is that of IEEE-754. -/
theorem IEEEArith_ieeeMath (Sin Cos : F64 → F64) (Atan2 : F64 → F64 → F64) :
    IEEEArith (ieeeMath Sin Cos Atan2) :=
  ⟨fun _ _ _ _ => rfl, fun _ _ _ _ => rfl, fun _ _ _ _ _ => rfl⟩

/-- C12: `FindFromPlusCode` returns the empty slice when the trimmed code is empty or the
decoder rejects it.  Otherwise, for the decoded rectangle, it returns exactly
`FindNearestCities((latLo+latHi)/2, (lngLo+lngHi)/2, 50.0)`.  The code computes each
coordinate of the centre as `lo + (hi - lo)/2`; in IEEE-754 arithmetic this is the same
`float64` as `(lo + hi)/2` for a side whose half-width is computed without rounding, as it
is for the sides of the cells that `olc.Decode` returns. -/
theorem C12_FindFromPlusCode_center (m : Math)
    (sortSlice : (CityDistance → CityDistance → Bool) → List CityDistance → List CityDistance)
    (olcDecode : GoString → Option CodeArea) (cityMapping : List CityData)
    (plusCode : GoString) :
    (TrimSpace plusCode = [] →
      FindFromPlusCode m sortSlice olcDecode cityMapping plusCode = Slice.mk []) ∧
    (olcDecode (TrimSpace plusCode) = none →
      FindFromPlusCode m sortSlice olcDecode cityMapping plusCode = Slice.mk []) ∧
    (∀ area : CodeArea, TrimSpace plusCode ≠ [] →
      olcDecode (TrimSpace plusCode) = some area →
      IEEEArith m → exactSide area.LatLo area.LatHi → exactSide area.LngLo area.LngHi →
      FindFromPlusCode m sortSlice olcDecode cityMapping plusCode =
        FindNearestCities m sortSlice cityMapping
          (m.div (m.add area.LatLo area.LatHi) F64.two)
          (m.div (m.add area.LngLo area.LngHi) F64.two) F64.fifty) := by
  refine ⟨?_, ?_, ?_⟩
  · intro h
    simp [FindFromPlusCode, h]
  · intro h
    unfold FindFromPlusCode
    by_cases hne : TrimSpace plusCode = []
    · simp [hne]
    · simp [hne, h]
  · intro area hne hdec hm hlat hlng
    rw [FindFromPlusCode_of_decoded m sortSlice olcDecode cityMapping plusCode area hne hdec,
      centerOver_eq_midpoint m hm _ _ hlat, centerOver_eq_midpoint m hm _ _ hlng]

set_option exponentiation.threshold 5000 in
/-- C12 at the arithmetic of IEEE-754: a blank code, the code `invalid` of the test suite,
and the padded code `86HJ0000+`, the cell of latitudes `41..42` and longitudes `-88..-87`,
for which the search is made from `(41.5, -87.5)`. -/
theorem C12_FindFromPlusCode_center_witness :
    FindFromPlusCode goMath goSortSlice gridDecode exampleCities " ".toList = Slice.mk [] ∧
    FindFromPlusCode goMath goSortSlice gridDecode exampleCities "invalid".toList =
      Slice.mk [] ∧
    FindFromPlusCode goMath goSortSlice gridDecode exampleCities " 86HJ0000+ ".toList =
      FindNearestCities goMath goSortSlice exampleCities
        (goMath.div (goMath.add ⟨0x4044800000000000⟩ ⟨0x4045000000000000⟩) F64.two)
        (goMath.div (goMath.add ⟨0xC056000000000000⟩ ⟨0xC055C00000000000⟩) F64.two)
        F64.fifty ∧
    goMath.div (goMath.add ⟨0x4044800000000000⟩ ⟨0x4045000000000000⟩) F64.two =
      ⟨0x4044C00000000000⟩ ∧
    goMath.div (goMath.add ⟨0xC056000000000000⟩ ⟨0xC055C00000000000⟩) F64.two =
      ⟨0xC055E00000000000⟩ :=
  have h := C12_FindFromPlusCode_center goMath goSortSlice gridDecode exampleCities
  ⟨(h " ".toList).1 (by decide), (h "invalid".toList).2.1 (by decide),
    (h " 86HJ0000+ ".toList).2.2
      ⟨⟨0x4044800000000000⟩, ⟨0xC056000000000000⟩, ⟨0x4045000000000000⟩,
        ⟨0xC055C00000000000⟩, 4⟩
      (by decide) (by decide) (IEEEArith_ieeeMath goSin goCos goAtan2)
      ⟨by decide, by decide, by decide, by decide, by decide, by decide⟩
      ⟨by decide, by decide, by decide, by decide, by decide, by decide⟩,
    by decide, by decide⟩

/-! ## Blank and padded inputs -/

/-- A string of white space only is trimmed to nothing. -/
theorem TrimSpace_eq_nil_of_forall_isSpace {s : GoString} (hs : ∀ c ∈ s, isSpace c = true) :
    TrimSpace s = [] := by
  have h : s.dropWhile isSpace = [] := List.dropWhile_eq_nil_iff.mpr hs
  simp [TrimSpace, h]

/-- Leading white space in front of a string is dropped with it. -/
theorem dropWhile_isSpace_append_left {w : GoString} (hw : ∀ c ∈ w, isSpace c = true)
    (t : GoString) : (w ++ t).dropWhile isSpace = t.dropWhile isSpace := by
  induction w with
  | nil => rfl
  | cons c cs ih =>
    have hc : isSpace c = true := hw c (by simp)
    rw [List.cons_append, List.dropWhile_cons_of_pos hc]
    exact ih (fun d hd => hw d (by simp [hd]))

theorem dropWhile_isSpace_append_right (s w : GoString) :
    (s ++ w).dropWhile isSpace =
      if s.dropWhile isSpace = [] then w.dropWhile isSpace else s.dropWhile isSpace ++ w := by
  induction s with
  | nil => simp
  | cons c cs ih =>
    by_cases hc : isSpace c = true
    · rw [List.cons_append, List.dropWhile_cons_of_pos hc, List.dropWhile_cons_of_pos hc]
      exact ih
    · rw [List.cons_append, List.dropWhile_cons_of_neg hc, List.dropWhile_cons_of_neg hc]
      simp

/-- White space around a string does not change its trimmed form. -/
theorem TrimSpace_pad {w1 w2 : GoString} (h1 : ∀ c ∈ w1, isSpace c = true)
    (h2 : ∀ c ∈ w2, isSpace c = true) (s : GoString) :
    TrimSpace (w1 ++ s ++ w2) = TrimSpace s := by
  unfold TrimSpace
  rw [List.append_assoc, dropWhile_isSpace_append_left h1, dropWhile_isSpace_append_right]
  by_cases h : s.dropWhile isSpace = []
  · rw [if_pos h, h, List.dropWhile_eq_nil_iff.mpr h2]
  · rw [if_neg h, List.reverse_append,
      dropWhile_isSpace_append_left (fun c hc => h2 c (List.mem_reverse.mp hc))]

/-- `findPartialMatch` reads its query through `strings.TrimSpace` only. -/
theorem findPartialMatch_congr (lowerTable : Char → Char) (searchFields : List GoString)
    {s u : GoString} (h : TrimSpace s = TrimSpace u) :
    findPartialMatch lowerTable searchFields s = findPartialMatch lowerTable searchFields u := by
  unfold findPartialMatch
  rw [h]

/-- A blank query matches no record. -/
theorem findPartialMatch_of_blank (lowerTable : Char → Char) (searchFields : List GoString)
    {s : GoString} (h : TrimSpace s = []) :
    findPartialMatch lowerTable searchFields s = false := by
  simp [findPartialMatch, h]

/-- C13: on an input that is empty or consists of white space only, each of
`LookupViaCity`, `FindFromCityStateProvince`, `FindFromIsoCode` and `FindFromPlusCode`
returns a result of length zero. -/
theorem C13_blank_input_empty_result (lowerTable : Char → Char) (m : Math)
    (sortSlice : (CityDistance → CityDistance → Bool) → List CityDistance → List CityDistance)
    (olcDecode : GoString → Option CodeArea) (cityMapping : List CityData)
    (s : GoString) (hs : ∀ c ∈ s, isSpace c = true) :
    (LookupViaCity lowerTable cityMapping s).len = 0 ∧
    (FindFromCityStateProvince lowerTable cityMapping s).len = 0 ∧
    (FindFromIsoCode lowerTable cityMapping s).len = 0 ∧
    (FindFromPlusCode m sortSlice olcDecode cityMapping s).len = 0 := by
  have ht : TrimSpace s = [] := TrimSpace_eq_nil_of_forall_isSpace hs
  refine ⟨?_, ?_, ?_, ?_⟩
  · unfold Slice.len
    rw [LookupViaCity_toList, if_pos ht]
    rfl
  · unfold Slice.len
    rw [FindFromCityStateProvince_toList]
    simp [findPartialMatch_of_blank lowerTable _ ht]
  · unfold Slice.len
    rw [FindFromIsoCode_toList, if_pos ht]
    rfl
  · simp [FindFromPlusCode, ht, Slice.len, Slice.toList]

/-- C13 at the inputs of the test suite: the empty string, spaces, and a tab with a
newline. -/
theorem C13_blank_input_empty_result_witness :
    (∀ c ∈ " \t\n".toList, isSpace c = true) ∧
    ((LookupViaCity asciiCaseTable exampleCities " \t\n".toList).len = 0 ∧
      (FindFromCityStateProvince asciiCaseTable exampleCities " \t\n".toList).len = 0 ∧
      (FindFromIsoCode asciiCaseTable exampleCities " \t\n".toList).len = 0 ∧
      (FindFromPlusCode exampleMath insertionSort exampleDecode exampleCities
        " \t\n".toList).len = 0) ∧
    ((LookupViaCity asciiCaseTable exampleCities []).len = 0 ∧
      (FindFromCityStateProvince asciiCaseTable exampleCities []).len = 0 ∧
      (FindFromIsoCode asciiCaseTable exampleCities []).len = 0 ∧
      (FindFromPlusCode exampleMath insertionSort exampleDecode exampleCities []).len = 0) :=
  ⟨by decide,
    C13_blank_input_empty_result asciiCaseTable exampleMath insertionSort exampleDecode
      exampleCities " \t\n".toList (by decide),
    C13_blank_input_empty_result asciiCaseTable exampleMath insertionSort exampleDecode
      exampleCities [] (by decide)⟩

/-- C16: white space around the input changes nothing: for white-space-only `w1` and `w2`,
each of `LookupViaCity`, `FindFromCityStateProvince` and `FindFromIsoCode` returns for
`w1 + s + w2` the same records in the same order as for `s`. -/
theorem C16_surrounding_whitespace_ignored (lowerTable : Char → Char)
    (cityMapping : List CityData) (s w1 w2 : GoString)
    (h1 : ∀ c ∈ w1, isSpace c = true) (h2 : ∀ c ∈ w2, isSpace c = true) :
    (LookupViaCity lowerTable cityMapping (w1 ++ s ++ w2)).toList =
      (LookupViaCity lowerTable cityMapping s).toList ∧
    (FindFromCityStateProvince lowerTable cityMapping (w1 ++ s ++ w2)).toList =
      (FindFromCityStateProvince lowerTable cityMapping s).toList ∧
    (FindFromIsoCode lowerTable cityMapping (w1 ++ s ++ w2)).toList =
      (FindFromIsoCode lowerTable cityMapping s).toList := by
  have ht : TrimSpace (w1 ++ s ++ w2) = TrimSpace s := TrimSpace_pad h1 h2 s
  refine ⟨?_, ?_, ?_⟩
  · rw [LookupViaCity_toList, LookupViaCity_toList, ht]
  · rw [FindFromCityStateProvince_toList, FindFromCityStateProvince_toList]
    apply List.filter_congr
    intro c _
    exact findPartialMatch_congr lowerTable _ ht
  · rw [FindFromIsoCode_toList, FindFromIsoCode_toList, ht]

/-- C16 at the padded inputs of the test suite. -/
theorem C16_surrounding_whitespace_ignored_witness :
    (LookupViaCity asciiCaseTable [cityNamed "Chicago".toList, cityNamed "Paris".toList]
        ("\n ".toList ++ "Chicago".toList ++ "\t".toList)).toList =
      (LookupViaCity asciiCaseTable [cityNamed "Chicago".toList, cityNamed "Paris".toList]
        "Chicago".toList).toList ∧
    (FindFromCityStateProvince asciiCaseTable
        [cityNamed "Chicago".toList, cityNamed "Paris".toList]
        ("\n ".toList ++ "Chicago".toList ++ "\t".toList)).toList =
      (FindFromCityStateProvince asciiCaseTable
        [cityNamed "Chicago".toList, cityNamed "Paris".toList] "Chicago".toList).toList ∧
    (FindFromIsoCode asciiCaseTable [cityNamed "Chicago".toList, cityNamed "Paris".toList]
        ("\n ".toList ++ "Chicago".toList ++ "\t".toList)).toList =
      (FindFromIsoCode asciiCaseTable [cityNamed "Chicago".toList, cityNamed "Paris".toList]
        "Chicago".toList).toList :=
  C16_surrounding_whitespace_ignored asciiCaseTable
    [cityNamed "Chicago".toList, cityNamed "Paris".toList] "Chicago".toList "\n ".toList
    "\t".toList (by decide) (by decide)

/-! ## Nil and empty results -/

/-- The slice that a filtering loop leaves: the initial slice itself when nothing is
appended, a non-nil slice otherwise. -/
theorem foldl_append_eq {α : Type} (p : α → Prop) [DecidablePred p] (l : List α)
    (init : Slice α) :
    l.foldl (fun results c => if p c then results.append c else results) init =
      if (l.filter (fun c => decide (p c))).isEmpty = true then init
      else Slice.mk (init.toList ++ l.filter (fun c => decide (p c))) := by
  induction l generalizing init with
  | nil => simp
  | cons a l ih =>
    rw [List.foldl_cons, ih]
    by_cases h : p a
    · simp only [h, if_true, decide_True, List.filter_cons_of_pos, Slice.toList_append]
      by_cases hl : l.filter (fun c => decide (p c)) = []
      · simp [hl, Slice.append]
      · simp [hl]
    · simp [h]

theorem FindNearestCities_ne_nil (m : Math)
    (sortSlice : (CityDistance → CityDistance → Bool) → List CityDistance → List CityDistance)
    (cityMapping : List CityData) (lat lng radiusKm : F64) :
    FindNearestCities m sortSlice cityMapping lat lng radiusKm ≠ Slice.nil := by
  unfold FindNearestCities
  simp only []
  generalize sortSlice distanceLess _ = sorted
  have hgen : ∀ (l : List CityDistance) (init : List CityData),
      l.foldl (fun cities result => cities.append result.toCityData) (Slice.mk init) ≠
        Slice.nil := by
    intro l
    induction l with
    | nil => intro init; simp
    | cons a l ih => intro init; rw [List.foldl_cons]; exact ih _
  exact hgen sorted []

theorem FindFromCoordinates_ne_nil (m : Math)
    (sortSlice : (CityDistance → CityDistance → Bool) → List CityDistance → List CityDistance)
    (parseFloat : GoString → Option F64) (cityMapping : List CityData) (coords : Coords) :
    FindFromCoordinates m sortSlice parseFloat cityMapping coords ≠ Slice.nil := by
  unfold FindFromCoordinates
  split
  · simp
  · exact FindNearestCities_ne_nil m sortSlice cityMapping _ _ _

theorem FindFromPlusCode_ne_nil (m : Math)
    (sortSlice : (CityDistance → CityDistance → Bool) → List CityDistance → List CityDistance)
    (olcDecode : GoString → Option CodeArea) (cityMapping : List CityData)
    (plusCode : GoString) :
    FindFromPlusCode m sortSlice olcDecode cityMapping plusCode ≠ Slice.nil := by
  unfold FindFromPlusCode
  simp only []
  split
  · simp
  · split
    · simp
    · exact FindNearestCities_ne_nil m sortSlice cityMapping _ _ _

/-- `LookupViaCity` returns the nil slice exactly when it returns no record. -/
theorem LookupViaCity_eq_nil_iff (lowerTable : Char → Char) (cityMapping : List CityData)
    (city : GoString) :
    LookupViaCity lowerTable cityMapping city = Slice.nil ↔
      (LookupViaCity lowerTable cityMapping city).toList = [] := by
  unfold LookupViaCity
  simp only []
  by_cases h : TrimSpace city = []
  · simp [h, Slice.toList]
  · simp only [h, if_false]
    rw [foldl_append_eq (fun c : CityData =>
      ToLower lowerTable c.City = ToLower lowerTable (TrimSpace city))]
    split
    · simp [Slice.toList]
    · rename_i hne
      simpa [Slice.toList, List.isEmpty_iff] using hne

/-- `FindFromCityStateProvince` returns the nil slice exactly when the query is not the
empty string and no record is returned. -/
theorem FindFromCityStateProvince_eq_nil_iff (lowerTable : Char → Char)
    (cityMapping : List CityData) (searchString : GoString) :
    FindFromCityStateProvince lowerTable cityMapping searchString = Slice.nil ↔
      searchString ≠ [] ∧
        (FindFromCityStateProvince lowerTable cityMapping searchString).toList = [] := by
  unfold FindFromCityStateProvince
  by_cases h : searchString = []
  · simp [h]
  · simp only [h, if_false]
    rw [foldl_append_eq (fun c : CityData =>
      findPartialMatch lowerTable (searchFieldsOf c) searchString = true)]
    split
    · simp [Slice.toList, h]
    · rename_i hne
      simpa [Slice.toList, List.isEmpty_iff, h] using hne

/-- `FindFromIsoCode` returns the nil slice exactly when the trimmed code is not empty and
no record is returned. -/
theorem FindFromIsoCode_eq_nil_iff (lowerTable : Char → Char) (cityMapping : List CityData)
    (isoCode : GoString) :
    FindFromIsoCode lowerTable cityMapping isoCode = Slice.nil ↔
      TrimSpace isoCode ≠ [] ∧
        (FindFromIsoCode lowerTable cityMapping isoCode).toList = [] := by
  unfold FindFromIsoCode
  simp only []
  by_cases h : TrimSpace isoCode = []
  · simp [h]
  · simp only [h, if_false]
    rw [foldl_append_eq]
    split
    · simp [Slice.toList, h]
    · rename_i hne
      simpa [Slice.toList, List.isEmpty_iff, h] using hne

/-- C14 (as stated, refuted): `LookupViaCity` returns the nil slice for the empty name and
for a name that matches nothing, and so do `FindFromCityStateProvince` and
`FindFromIsoCode` for an input that matches nothing. -/
theorem C14_counterexample :
    LookupViaCity asciiCaseTable [cityNamed "Chicago".toList] [] = Slice.nil ∧
    LookupViaCity asciiCaseTable [cityNamed "Chicago".toList] "Foobar".toList = Slice.nil ∧
    FindFromCityStateProvince asciiCaseTable [cityNamed "Chicago".toList] "Foobar".toList =
      Slice.nil ∧
    FindFromIsoCode asciiCaseTable [cityNamed "Chicago".toList] "Foobar".toList =
      Slice.nil := by
  decide

/-- C14 (amended): `FindNearestCities`, `FindFromCoordinates` and `FindFromPlusCode` never
return the nil slice.  `LookupViaCity` returns nil exactly when it returns no record,
`FindFromCityStateProvince` exactly when the query is not the empty string and no record is
returned, `FindFromIsoCode` exactly when the trimmed code is not empty and no record is
returned; a nil result has length zero. -/
theorem C14_nil_results (lowerTable : Char → Char) (m : Math)
    (sortSlice : (CityDistance → CityDistance → Bool) → List CityDistance → List CityDistance)
    (parseFloat : GoString → Option F64) (olcDecode : GoString → Option CodeArea)
    (cityMapping : List CityData) :
    (∀ lat lng radiusKm : F64,
      FindNearestCities m sortSlice cityMapping lat lng radiusKm ≠ Slice.nil) ∧
    (∀ coords : Coords,
      FindFromCoordinates m sortSlice parseFloat cityMapping coords ≠ Slice.nil) ∧
    (∀ plusCode : GoString,
      FindFromPlusCode m sortSlice olcDecode cityMapping plusCode ≠ Slice.nil) ∧
    (∀ city : GoString, LookupViaCity lowerTable cityMapping city = Slice.nil ↔
      (LookupViaCity lowerTable cityMapping city).toList = []) ∧
    (∀ searchString : GoString,
      FindFromCityStateProvince lowerTable cityMapping searchString = Slice.nil ↔
        searchString ≠ [] ∧
          (FindFromCityStateProvince lowerTable cityMapping searchString).toList = []) ∧
    (∀ isoCode : GoString, FindFromIsoCode lowerTable cityMapping isoCode = Slice.nil ↔
      TrimSpace isoCode ≠ [] ∧
        (FindFromIsoCode lowerTable cityMapping isoCode).toList = []) ∧
    (Slice.nil : Slice CityData).len = 0 :=
  ⟨FindNearestCities_ne_nil m sortSlice cityMapping,
    FindFromCoordinates_ne_nil m sortSlice parseFloat cityMapping,
    FindFromPlusCode_ne_nil m sortSlice olcDecode cityMapping,
    LookupViaCity_eq_nil_iff lowerTable cityMapping,
    FindFromCityStateProvince_eq_nil_iff lowerTable cityMapping,
    FindFromIsoCode_eq_nil_iff lowerTable cityMapping, rfl⟩

/-! ## Letter case of the input -/

/-- On an ASCII rune `unicode.ToLower` does not consult the case table. -/
theorem unicodeToLower_of_ascii (lowerTable : Char → Char) {c : Char} (h : c.toNat ≤ 0x7F) :
    unicodeToLower lowerTable c = unicodeToLower asciiCaseTable c := by
  simp [unicodeToLower, h]

/-- On an ASCII rune `unicode.ToUpper` does not consult the case table. -/
theorem unicodeToUpper_of_ascii (upperTable : Char → Char) {c : Char} (h : c.toNat ≤ 0x7F) :
    unicodeToUpper upperTable c = unicodeToUpper asciiCaseTable c := by
  simp [unicodeToUpper, h]

/-- The case mapping of the 128 ASCII runes, checked one by one. -/
theorem ascii_case_facts : ∀ n, n < 128 →
    (unicodeToLower asciiCaseTable (Char.ofNat n)).toNat ≤ 0x7F ∧
    (unicodeToUpper asciiCaseTable (Char.ofNat n)).toNat ≤ 0x7F ∧
    caseStable asciiCaseTable asciiCaseTable (Char.ofNat n) := by
  unfold caseStable
  decide

/-- Every ASCII rune is case-stable, whatever the case tables are beyond ASCII. -/
theorem caseStable_of_ascii (lowerTable upperTable : Char → Char) {c : Char}
    (h : c.toNat ≤ 0x7F) : caseStable lowerTable upperTable c := by
  have hf := ascii_case_facts c.toNat (by omega)
  rw [Char.ofNat_toNat] at hf
  obtain ⟨hl, hu, h1, h2, h3, h4⟩ := hf
  unfold caseStable
  rw [unicodeToLower_of_ascii lowerTable h, unicodeToUpper_of_ascii upperTable h,
    unicodeToLower_of_ascii lowerTable hl, unicodeToLower_of_ascii lowerTable hu]
  exact ⟨h1, h2, h3, h4⟩

/-- Dropping leading white space commutes with a rune map that keeps white space apart. -/
theorem dropWhile_isSpace_map (f : Char → Char) (s : GoString)
    (h : ∀ c ∈ s, isSpace (f c) = isSpace c) :
    (s.map f).dropWhile isSpace = (s.dropWhile isSpace).map f := by
  induction s with
  | nil => rfl
  | cons c cs ih =>
    have hc : isSpace (f c) = isSpace c := h c (by simp)
    by_cases hsp : isSpace c = true
    · rw [List.map_cons, List.dropWhile_cons_of_pos (by rw [hc]; exact hsp),
        List.dropWhile_cons_of_pos hsp]
      exact ih (fun d hd => h d (by simp [hd]))
    · rw [List.map_cons, List.dropWhile_cons_of_neg (by rw [hc]; exact hsp),
        List.dropWhile_cons_of_neg hsp, List.map_cons]

/-- Trimming commutes with a rune map that keeps white space apart. -/
theorem TrimSpace_map (f : Char → Char) (s : GoString)
    (h : ∀ c ∈ s, isSpace (f c) = isSpace c) :
    TrimSpace (s.map f) = (TrimSpace s).map f := by
  unfold TrimSpace
  rw [dropWhile_isSpace_map f s h, ← List.map_reverse, dropWhile_isSpace_map,
    List.map_reverse]
  intro c hc
  exact h c ((List.dropWhile_suffix isSpace).subset (List.mem_reverse.mp hc))

/-- What `LookupViaCity` and `FindFromIsoCode` read of their input is the same for the
input, its lower-case form and its upper-case form, when its runes are case-stable. -/
theorem TrimSpace_case_facts (lowerTable upperTable : Char → Char) (s : GoString)
    (h : ∀ c ∈ s, caseStable lowerTable upperTable c) :
    (TrimSpace (ToLower lowerTable s) = [] ↔ TrimSpace s = []) ∧
    (TrimSpace (ToUpper upperTable s) = [] ↔ TrimSpace s = []) ∧
    ToLower lowerTable (TrimSpace (ToLower lowerTable s)) =
      ToLower lowerTable (TrimSpace s) ∧
    ToLower lowerTable (TrimSpace (ToUpper upperTable s)) =
      ToLower lowerTable (TrimSpace s) := by
  have hl : TrimSpace (ToLower lowerTable s) = (TrimSpace s).map (unicodeToLower lowerTable) :=
    TrimSpace_map _ s (fun c hc => (h c hc).2.2.1)
  have hu : TrimSpace (ToUpper upperTable s) = (TrimSpace s).map (unicodeToUpper upperTable) :=
    TrimSpace_map _ s (fun c hc => (h c hc).2.2.2)
  have hmem : ∀ c ∈ TrimSpace s, c ∈ s := fun c hc => (TrimSpace_infix_self s).subset hc
  refine ⟨?_, ?_, ?_, ?_⟩
  · rw [hl]; simp
  · rw [hu]; simp
  · rw [hl]
    unfold ToLower
    rw [List.map_map]
    apply List.map_congr_left
    intro c hc
    exact (h c (hmem c hc)).1
  · rw [hu]
    unfold ToLower
    rw [List.map_map]
    apply List.map_congr_left
    intro c hc
    exact (h c (hmem c hc)).2.1

/-- `LookupViaCity` reads its input through the emptiness and the lower-case form of its
trimmed form only. -/
theorem LookupViaCity_congr (lowerTable : Char → Char) (cityMapping : List CityData)
    {s u : GoString} (h1 : TrimSpace s = [] ↔ TrimSpace u = [])
    (h2 : ToLower lowerTable (TrimSpace s) = ToLower lowerTable (TrimSpace u)) :
    LookupViaCity lowerTable cityMapping s = LookupViaCity lowerTable cityMapping u := by
  unfold LookupViaCity
  simp only []
  by_cases h : TrimSpace u = []
  · rw [if_pos h, if_pos (h1.mpr h)]
  · rw [if_neg h, if_neg (fun hs => h (h1.mp hs)), h2]

/-- `FindFromIsoCode` reads its input through the emptiness and the lower-case form of its
trimmed form only. -/
theorem FindFromIsoCode_congr (lowerTable : Char → Char) (cityMapping : List CityData)
    {s u : GoString} (h1 : TrimSpace s = [] ↔ TrimSpace u = [])
    (h2 : ToLower lowerTable (TrimSpace s) = ToLower lowerTable (TrimSpace u)) :
    FindFromIsoCode lowerTable cityMapping s = FindFromIsoCode lowerTable cityMapping u := by
  unfold FindFromIsoCode
  simp only []
  by_cases h : TrimSpace u = []
  · rw [if_pos h, if_pos (h1.mpr h)]
  · rw [if_neg h, if_neg (fun hs => h (h1.mp hs)), h2]

/-- C15 (as stated, refuted): the table holds the city named by the dotless i (U+0131).
Its name finds it, but the upper-case form of the name, `I`, is lower-cased to `i` and finds
nothing; the same happens to an ISO code spelled with that letter. -/
theorem C15_counterexample :
    ToUpper dotlessUpperTable [Char.ofNat 0x131] = "I".toList ∧
    (LookupViaCity asciiCaseTable [cityNamed [Char.ofNat 0x131]] [Char.ofNat 0x131]).toList =
      [cityNamed [Char.ofNat 0x131]] ∧
    (LookupViaCity asciiCaseTable [cityNamed [Char.ofNat 0x131]]
      (ToUpper dotlessUpperTable [Char.ofNat 0x131])).toList = [] ∧
    (FindFromIsoCode asciiCaseTable
      [mkCity "x".toList Any.nil [] [] (Any.str [Char.ofNat 0x131]) Any.nil]
      [Char.ofNat 0x131]).toList =
      [mkCity "x".toList Any.nil [] [] (Any.str [Char.ofNat 0x131]) Any.nil] ∧
    (FindFromIsoCode asciiCaseTable
      [mkCity "x".toList Any.nil [] [] (Any.str [Char.ofNat 0x131]) Any.nil]
      (ToUpper dotlessUpperTable [Char.ofNat 0x131])).toList = [] := by
  decide

/-- C15 (amended): for every string `s` whose runes are case-stable - as every ASCII rune
is (`caseStable_of_ascii`) - `LookupViaCity` and `FindFromIsoCode` return for `s`, for
`strings.ToLower(s)` and for `strings.ToUpper(s)` the same result. -/
theorem C15_case_insensitive (lowerTable upperTable : Char → Char)
    (cityMapping : List CityData) (s : GoString)
    (h : ∀ c ∈ s, caseStable lowerTable upperTable c) :
    LookupViaCity lowerTable cityMapping (ToLower lowerTable s) =
      LookupViaCity lowerTable cityMapping s ∧
    LookupViaCity lowerTable cityMapping (ToUpper upperTable s) =
      LookupViaCity lowerTable cityMapping s ∧
    FindFromIsoCode lowerTable cityMapping (ToLower lowerTable s) =
      FindFromIsoCode lowerTable cityMapping s ∧
    FindFromIsoCode lowerTable cityMapping (ToUpper upperTable s) =
      FindFromIsoCode lowerTable cityMapping s := by
  obtain ⟨h1, h2, h3, h4⟩ := TrimSpace_case_facts lowerTable upperTable s h
  exact ⟨LookupViaCity_congr lowerTable cityMapping h1 h3,
    LookupViaCity_congr lowerTable cityMapping h2 h4,
    FindFromIsoCode_congr lowerTable cityMapping h1 h3,
    FindFromIsoCode_congr lowerTable cityMapping h2 h4⟩

/-- C15 (amended) at the names `Chicago` and `dE` of the test suite, under the case tables
of the counterexample. -/
theorem C15_case_insensitive_witness :
    (LookupViaCity asciiCaseTable [cityNamed "Chicago".toList]
        (ToLower asciiCaseTable "Chicago".toList) =
      LookupViaCity asciiCaseTable [cityNamed "Chicago".toList] "Chicago".toList ∧
    LookupViaCity asciiCaseTable [cityNamed "Chicago".toList]
        (ToUpper dotlessUpperTable "Chicago".toList) =
      LookupViaCity asciiCaseTable [cityNamed "Chicago".toList] "Chicago".toList ∧
    FindFromIsoCode asciiCaseTable [cityNamed "Chicago".toList]
        (ToLower asciiCaseTable "Chicago".toList) =
      FindFromIsoCode asciiCaseTable [cityNamed "Chicago".toList] "Chicago".toList ∧
    FindFromIsoCode asciiCaseTable [cityNamed "Chicago".toList]
        (ToUpper dotlessUpperTable "Chicago".toList) =
      FindFromIsoCode asciiCaseTable [cityNamed "Chicago".toList] "Chicago".toList) ∧
    ToUpper dotlessUpperTable "Chicago".toList = "CHICAGO".toList ∧
    (LookupViaCity asciiCaseTable [cityNamed "Chicago".toList] "CHICAGO".toList).toList =
      [cityNamed "Chicago".toList] :=
  ⟨C15_case_insensitive asciiCaseTable dotlessUpperTable [cityNamed "Chicago".toList]
      "Chicago".toList
      (fun c hc => caseStable_of_ascii asciiCaseTable dotlessUpperTable
        (by revert c; decide)),
    by decide, by decide⟩

/-! ## haversineDistance -/

/-- The value `a` in exact arithmetic, through the inner product of the two unit vectors. -/
theorem real_haversine_a_eq (p q d : ℝ) :
    Real.sin ((q - p) / 2) * Real.sin ((q - p) / 2) +
        Real.cos p * Real.cos q * Real.sin (d / 2) * Real.sin (d / 2) =
      (1 - (Real.sin p * Real.sin q + Real.cos p * Real.cos q * Real.cos d)) / 2 := by
  have h1 : Real.cos (q - p) =
      1 - 2 * (Real.sin ((q - p) / 2) * Real.sin ((q - p) / 2)) := by
    have h := Real.cos_two_mul ((q - p) / 2)
    have h2 := Real.sin_sq_add_cos_sq ((q - p) / 2)
    rw [show 2 * ((q - p) / 2) = q - p by ring] at h
    nlinarith
  have h2 : Real.cos d = 1 - 2 * (Real.sin (d / 2) * Real.sin (d / 2)) := by
    have h := Real.cos_two_mul (d / 2)
    have h2 := Real.sin_sq_add_cos_sq (d / 2)
    rw [show 2 * (d / 2) = d by ring] at h
    nlinarith
  have h3 := Real.cos_sub q p
  rw [h2]
  linear_combination (1 / 2 : ℝ) * h1 - (1 / 2 : ℝ) * h3

/-- The inner product of two unit vectors given by latitude and longitude lies in
`[-1, 1]`. -/
theorem unit_dot_sq_le_one (sp cp sq cq k : ℝ) (hA : sp ^ 2 + cp ^ 2 = 1)
    (hB : sq ^ 2 + cq ^ 2 = 1) (hk : k ^ 2 ≤ 1) : (sp * sq + cp * cq * k) ^ 2 ≤ 1 := by
  have key : 1 - (sp * sq + cp * cq * k) ^ 2 =
      (sp * cq * k - cp * sq) ^ 2 + cq ^ 2 * (1 - k ^ 2) := by
    linear_combination (-(1 : ℝ)) * hB - (sq ^ 2 + cq ^ 2 * k ^ 2) * hA
  have h1 : 0 ≤ (sp * cq * k - cp * sq) ^ 2 := sq_nonneg _
  have h2 : 0 ≤ cq ^ 2 * (1 - k ^ 2) := mul_nonneg (sq_nonneg _) (by linarith)
  linarith

theorem real_haversine_a_bounds (p q d : ℝ) :
    0 ≤ Real.sin ((q - p) / 2) * Real.sin ((q - p) / 2) +
        Real.cos p * Real.cos q * Real.sin (d / 2) * Real.sin (d / 2) ∧
    Real.sin ((q - p) / 2) * Real.sin ((q - p) / 2) +
        Real.cos p * Real.cos q * Real.sin (d / 2) * Real.sin (d / 2) ≤ 1 := by
  rw [real_haversine_a_eq]
  have hu := unit_dot_sq_le_one (Real.sin p) (Real.cos p) (Real.sin q) (Real.cos q)
    (Real.cos d) (Real.sin_sq_add_cos_sq p) (Real.sin_sq_add_cos_sq q)
    (by nlinarith [Real.sin_sq_add_cos_sq d, sq_nonneg (Real.sin d)])
  have hab := abs_le_one_iff_mul_self_le_one.mpr
    (by nlinarith :
      (Real.sin p * Real.sin q + Real.cos p * Real.cos q * Real.cos d) *
        (Real.sin p * Real.sin q + Real.cos p * Real.cos q * Real.cos d) ≤ 1)
  rw [abs_le] at hab
  constructor <;> linarith [hab.1, hab.2]

/-- In exact arithmetic the value `a` lies in `[0, 1]` for all arguments. -/
theorem haversineA_real_bounds (lat1 lon1 lat2 lon2 : ℝ) :
    0 ≤ haversineA realArith lat1 lon1 lat2 lon2 ∧
    haversineA realArith lat1 lon1 lat2 lon2 ≤ 1 := by
  have h := real_haversine_a_bounds (lat1 * Real.pi / 180) (lat2 * Real.pi / 180)
    (lon2 * Real.pi / 180 - lon1 * Real.pi / 180)
  simpa [haversineA, realArith] using h

/-- In exact arithmetic, for all arguments (valid coordinates or not), the value `a` of
`haversineDistance` lies in `[0, 1]`, so that neither square root is taken of a negative
number, and the distance lies in `[0, pi * 6371]`. -/
theorem haversineOver_real_range (lat1 lon1 lat2 lon2 : ℝ) :
    0 ≤ haversineA realArith lat1 lon1 lat2 lon2 ∧
    haversineA realArith lat1 lon1 lat2 lon2 ≤ 1 ∧
    0 ≤ 1 - haversineA realArith lat1 lon1 lat2 lon2 ∧
    0 ≤ haversineOver realArith lat1 lon1 lat2 lon2 ∧
    haversineOver realArith lat1 lon1 lat2 lon2 ≤ Real.pi * 6371 := by
  obtain ⟨h0, h1⟩ := haversineA_real_bounds lat1 lon1 lat2 lon2
  refine ⟨h0, h1, by linarith, ?_, ?_⟩
  · have harg : 0 ≤ Complex.arg
        ⟨Real.sqrt (1 - haversineA realArith lat1 lon1 lat2 lon2),
          Real.sqrt (haversineA realArith lat1 lon1 lat2 lon2)⟩ :=
      Complex.arg_nonneg_iff.mpr (Real.sqrt_nonneg _)
    show 0 ≤ 6371 * (2 * Complex.arg
        ⟨Real.sqrt (1 - haversineA realArith lat1 lon1 lat2 lon2),
          Real.sqrt (haversineA realArith lat1 lon1 lat2 lon2)⟩)
    positivity
  · have harg : Complex.arg
        ⟨Real.sqrt (1 - haversineA realArith lat1 lon1 lat2 lon2),
          Real.sqrt (haversineA realArith lat1 lon1 lat2 lon2)⟩ ≤ Real.pi / 2 :=
      Complex.arg_le_pi_div_two_iff.mpr (Or.inl (Real.sqrt_nonneg _))
    show 6371 * (2 * Complex.arg
        ⟨Real.sqrt (1 - haversineA realArith lat1 lon1 lat2 lon2),
          Real.sqrt (haversineA realArith lat1 lon1 lat2 lon2)⟩) ≤ Real.pi * 6371
    linarith

/-- A NaN is neither below nor above any `float64`, nor equal to one. -/
theorem F64.le_of_isNaN {x : F64} (h : x.isNaN = true) (y : F64) :
    F64.le x y = false ∧ F64.le y x = false := by
  have hk : x.key = none := by
    simp only [F64.isNaN, decide_eq_true_eq] at h
    simp only [F64.key, h, if_true]
  constructor
  · simp only [F64.le, hk]
  · simp only [F64.le, hk]
    cases y.key <;> rfl

/-- The square root of the model is NaN for a negative number. -/
theorem F64.sqrt_isNaN_of_neg (x : F64) (h : F64.lt x F64.zero = true) :
    (F64.sqrt x).isNaN = true := by
  have hz : F64.zero.key = some 0 := by decide
  unfold F64.lt at h
  rw [hz] at h
  unfold F64.key at h
  simp only at h
  split_ifs at h with h1 h2
  · simp only [decide_eq_true_eq] at h
    omega
  · simp only [decide_eq_true_eq] at h
    have hnan : x.isNaN = false := by
      simp only [F64.isNaN, decide_eq_false_iff_not]
      exact h1
    have hsign : x.signBit = true := by
      simp only [F64.signBit, decide_eq_true_eq]
      omega
    have hmag : x.mag ≠ 0 := by
      unfold F64.mag
      simp only
      split_ifs with h3
      · omega
      · positivity
    unfold F64.sqrt
    simp only [hnan, Bool.false_eq_true, if_false, hmag, hsign, if_true]
    decide

/-- The arithmetic of IEEE-754 has the special cases of `NaNFacts`, for every `math.Atan2`
that keeps its documented special case. -/
theorem NaNFacts_ieeeMath (Sin Cos : F64 → F64) (Atan2 : F64 → F64 → F64)
    (hA : ∀ y x : F64, x.isNaN = true → (Atan2 y x).isNaN = true) :
    NaNFacts (ieeeMath Sin Cos Atan2) := by
  refine ⟨F64.sqrt_isNaN_of_neg, hA, ?_⟩
  intro x y hy
  show (F64.mul x y).isNaN = true
  unfold F64.mul
  simp only [hy, Bool.or_true, if_true]
  decide

/-- Whenever the computed `a` exceeds `1` far enough for `1 - a` to be negative, the distance
that `haversineDistance` returns is NaN: it is not within any radius, and it is neither
`>= 0` nor `<= pi * 6371`. -/
theorem haversineDistance_isNaN (m : Math) (hm : NaNFacts m) (lat1 lon1 lat2 lon2 : F64)
    (h : F64.lt (m.sub F64.one (haversineA m.arith lat1 lon1 lat2 lon2)) F64.zero = true) :
    (haversineDistance m lat1 lon1 lat2 lon2).isNaN = true ∧
    ∀ y : F64, F64.le (haversineDistance m lat1 lon1 lat2 lon2) y = false ∧
      F64.le y (haversineDistance m lat1 lon1 lat2 lon2) = false := by
  have hn : (haversineDistance m lat1 lon1 lat2 lon2).isNaN = true :=
    hm.mul_nan _ _ (hm.mul_nan _ _ (hm.atan2_nan _ _ (hm.sqrt_neg _ h)))
  exact ⟨hn, F64.le_of_isNaN hn⟩

set_option exponentiation.threshold 5000 in
set_option maxRecDepth 4000 in
/-- C18: over the reals the value `a` lies in `[0, 1]` and the distance in `[0, pi * 6371]`
for all arguments, as the claim has it.  The `float64` code does not keep these bounds.  In
the call `haversineDistance(2.5, 0, -2.5, 180)`, whose points are valid and lie opposite each
other on the globe, the value `a` is `1.0000000000000002`, so that `1 - a` is negative,
`math.Sqrt(1 - a)` is NaN, and the distance returned is NaN, which is neither `>= 0` nor
`<= pi * 6371 = 20015.086796020572`.  The call
`haversineDistance(29.6208, -101.2114, -29.6208, 78.7886)` goes the same way. -/
theorem C18_haversineDistance_antipode :
    (∀ lat1 lon1 lat2 lon2 : ℝ,
      0 ≤ haversineA realArith lat1 lon1 lat2 lon2 ∧
      haversineA realArith lat1 lon1 lat2 lon2 ≤ 1 ∧
      0 ≤ 1 - haversineA realArith lat1 lon1 lat2 lon2 ∧
      0 ≤ haversineOver realArith lat1 lon1 lat2 lon2 ∧
      haversineOver realArith lat1 lon1 lat2 lon2 ≤ Real.pi * 6371) ∧
    (F64.le F64.neg90 ⟨0x4004000000000000⟩ = true ∧
      F64.le ⟨0x4004000000000000⟩ F64.c90 = true ∧
      F64.le F64.neg180 ⟨0⟩ = true ∧ F64.le ⟨0⟩ F64.c180 = true ∧
      F64.le F64.neg90 ⟨0xC004000000000000⟩ = true ∧
      F64.le ⟨0xC004000000000000⟩ F64.c90 = true ∧
      F64.le F64.neg180 ⟨0x4066800000000000⟩ = true ∧
      F64.le ⟨0x4066800000000000⟩ F64.c180 = true) ∧
    haversineA goMath.arith ⟨0x4004000000000000⟩ ⟨0⟩ ⟨0xC004000000000000⟩
        ⟨0x4066800000000000⟩ = ⟨0x3FF0000000000001⟩ ∧
    F64.lt F64.one ⟨0x3FF0000000000001⟩ = true ∧
    goMath.sub F64.one ⟨0x3FF0000000000001⟩ = ⟨0xBCB0000000000000⟩ ∧
    F64.lt ⟨0xBCB0000000000000⟩ F64.zero = true ∧
    (goMath.Sqrt ⟨0xBCB0000000000000⟩).isNaN = true ∧
    (haversineDistance goMath ⟨0x4004000000000000⟩ ⟨0⟩ ⟨0xC004000000000000⟩
        ⟨0x4066800000000000⟩).isNaN = true ∧
    F64.le F64.zero (haversineDistance goMath ⟨0x4004000000000000⟩ ⟨0⟩ ⟨0xC004000000000000⟩
        ⟨0x4066800000000000⟩) = false ∧
    F64.le (haversineDistance goMath ⟨0x4004000000000000⟩ ⟨0⟩ ⟨0xC004000000000000⟩
        ⟨0x4066800000000000⟩) ⟨0x40D38BC58E10E572⟩ = false ∧
    (F64.le F64.neg90 ⟨0x403D9EECBFB15B57⟩ = true ∧
      F64.le ⟨0x403D9EECBFB15B57⟩ F64.c90 = true ∧
      F64.le F64.neg180 ⟨0xC0594D8793DD97F6⟩ = true ∧
      F64.le ⟨0xC0594D8793DD97F6⟩ F64.c180 = true ∧
      F64.le F64.neg90 ⟨0xC03D9EECBFB15B57⟩ = true ∧
      F64.le ⟨0xC03D9EECBFB15B57⟩ F64.c90 = true ∧
      F64.le F64.neg180 ⟨0x4053B2786C22680A⟩ = true ∧
      F64.le ⟨0x4053B2786C22680A⟩ F64.c180 = true) ∧
    haversineA goMath.arith ⟨0x403D9EECBFB15B57⟩ ⟨0xC0594D8793DD97F6⟩
        ⟨0xC03D9EECBFB15B57⟩ ⟨0x4053B2786C22680A⟩ = ⟨0x3FF0000000000001⟩ ∧
    (haversineDistance goMath ⟨0x403D9EECBFB15B57⟩ ⟨0xC0594D8793DD97F6⟩
        ⟨0xC03D9EECBFB15B57⟩ ⟨0x4053B2786C22680A⟩).isNaN = true :=
  ⟨haversineOver_real_range, by decide, by decide, by decide, by decide, by decide, by decide,
    by decide, by decide, by decide, by decide, by decide, by decide⟩

/-- In exact arithmetic the distance of a point to itself is zero. -/
theorem haversineOver_real_self (lat lng : ℝ) : haversineOver realArith lat lng lat lng = 0 := by
  have ha : haversineA realArith lat lng lat lng = 0 := by
    simp [haversineA, realArith]
  have hz : (⟨Real.sqrt (1 - 0), Real.sqrt 0⟩ : ℂ) = 1 := by
    apply Complex.ext <;> simp
  show 6371 * (2 * Complex.arg
      ⟨Real.sqrt (1 - haversineA realArith lat lng lat lng),
        Real.sqrt (haversineA realArith lat lng lat lng)⟩) = 0
  rw [ha, hz, Complex.arg_one]
  ring

/-- In `float64`, under the facts of `FloatFacts`, the distance of a point with coordinates
within `[-180, 180]` to itself is `+0`. -/
theorem haversineDistance_self (m : Math) (hm : FloatFacts m) (lat lng : F64)
    (hlat1 : F64.le F64.neg180 lat = true) (hlat2 : F64.le lat F64.c180 = true)
    (hlng1 : F64.le F64.neg180 lng = true) (hlng2 : F64.le lng F64.c180 = true) :
    haversineDistance m lat lng lat lng = F64.zero := by
  have h1 := hm.sub_self _ (hm.radians_finite lat hlat1 hlat2)
  have h2 := hm.sub_self _ (hm.radians_finite lng hlng1 hlng2)
  have h3 := hm.cos_cos_mul_zero _ (hm.radians_finite lat hlat1 hlat2)
  unfold haversineDistance
  simp only [h1, h2, hm.zero_div_two, hm.sin_zero, hm.zero_mul_zero, h3, hm.zero_add_zero,
    hm.sqrt_zero, hm.one_sub_zero, hm.sqrt_one, hm.atan2_zero_one, hm.two_mul_zero,
    hm.earthRadius_mul_zero]

/-- The stand-in arithmetic has the properties listed in `FloatFacts`. -/
theorem exampleMath_floatFacts : FloatFacts exampleMath where
  sub_self := by intro x _; simp [exampleMath, F64.zero]
  radians_finite := by
    intro x _ _
    simp only [exampleMath, F64.isFinite, F64.pi, decide_eq_true_eq]
    omega
  zero_div_two := rfl
  sin_zero := rfl
  zero_mul_zero := rfl
  cos_cos_mul_zero := by intro x _; rfl
  zero_add_zero := rfl
  sqrt_zero := rfl
  one_sub_zero := rfl
  sqrt_one := rfl
  atan2_zero_one := rfl
  two_mul_zero := rfl
  earthRadius_mul_zero := rfl

/-- C17: the distance of a point to itself is zero.  In exact arithmetic this holds for all
real coordinates.  In `float64` it holds for every valid latitude (within `[-90, 90]`) and
longitude (within `[-180, 180]`), the result being `+0`, for every arithmetic that has the
properties listed in `FloatFacts`. -/
theorem C17_haversine_self_zero :
    (∀ lat lng : ℝ, haversineOver realArith lat lng lat lng = 0) ∧
    (∀ (m : Math), FloatFacts m → ∀ lat lng : F64,
      F64.le F64.neg90 lat = true → F64.le lat F64.c90 = true →
      F64.le F64.neg180 lng = true → F64.le lng F64.c180 = true →
      haversineDistance m lat lng lat lng = F64.zero ∧
      (haversineDistance m lat lng lat lng).key = some 0) := by
  refine ⟨haversineOver_real_self, ?_⟩
  intro m hm lat lng h1 h2 h3 h4
  have h := haversineDistance_self m hm lat lng
    (F64.le_trans (by decide) h1) (F64.le_trans h2 (by decide)) h3 h4
  rw [h]
  exact ⟨rfl, by decide⟩

/-- C17 at the stand-in arithmetic, for the point with latitude `41.0` and longitude
`-87.0` (as `float64` bit patterns). -/
theorem C17_haversine_self_zero_witness :
    FloatFacts exampleMath ∧
    F64.le F64.neg90 ⟨0x4044800000000000⟩ = true ∧
    F64.le ⟨0x4044800000000000⟩ F64.c90 = true ∧
    F64.le F64.neg180 ⟨0xC055C00000000000⟩ = true ∧
    F64.le ⟨0xC055C00000000000⟩ F64.c180 = true ∧
    haversineDistance exampleMath ⟨0x4044800000000000⟩ ⟨0xC055C00000000000⟩
      ⟨0x4044800000000000⟩ ⟨0xC055C00000000000⟩ = F64.zero :=
  ⟨exampleMath_floatFacts, by decide, by decide, by decide, by decide,
    (C17_haversine_self_zero.2 exampleMath exampleMath_floatFacts ⟨0x4044800000000000⟩
      ⟨0xC055C00000000000⟩ (by decide) (by decide) (by decide) (by decide)).1⟩

/-! ## loadCityData -/

/-- Loading the embedded data fails exactly when the gzip reader cannot be created, the
stream cannot be decompressed, or the JSON does not parse. -/
theorem loadEmbeddedCityData_error_iff (env : LoadEnv) :
    (∃ e, loadEmbeddedCityData env = Except.error e) ↔
      env.gzipNewReader env.embeddedCityData = none ∨
      (∃ gzReader, env.gzipNewReader env.embeddedCityData = some gzReader ∧
        (env.readAll gzReader = none ∨
          ∃ decompressed, env.readAll gzReader = some decompressed ∧
            ∃ left, env.jsonUnmarshal decompressed [] = Except.error left)) := by
  unfold loadEmbeddedCityData
  cases h1 : env.gzipNewReader env.embeddedCityData with
  | none => simp
  | some gzReader =>
    cases h2 : env.readAll gzReader with
    | none => simp [h2]
    | some decompressed =>
      cases h3 : env.jsonUnmarshal decompressed [] with
      | error left => simp [h2, h3]
      | ok cities => simp [h2, h3]

/-- C20: `loadCityData` returns an error exactly when loading the embedded data fails and
the fallback file `data/cityMap.json` cannot be read or does not parse.  When the embedded
data loads, no error is returned, the table is the embedded records, and no file is
read. -/
theorem C20_loadCityData (env : LoadEnv) (st : PkgState) :
    ((loadCityData env st).1 ≠ none ↔
      (∃ e, loadEmbeddedCityData env = Except.error e) ∧
        (env.readFile "data/cityMap.json".toList = none ∨
          ∃ data, env.readFile "data/cityMap.json".toList = some data ∧
            ∃ left, env.jsonUnmarshal data st.cityMapping = Except.error left)) ∧
    (∀ cities, loadEmbeddedCityData env = Except.ok cities →
      (loadCityData env st).1 = none ∧
      (loadCityData env st).2.cityMapping = cities ∧
      (loadCityData env st).2.filesRead = st.filesRead) := by
  unfold loadCityData
  cases h1 : loadEmbeddedCityData env with
  | ok cities => simp
  | error e =>
    cases h2 : env.readFile "data/cityMap.json".toList with
    | none => simp
    | some data =>
      cases h3 : env.jsonUnmarshal data st.cityMapping with
      | error left => simp [h3]
      | ok cities => simp [h3]

/-- C20 on the stand-in environment: good embedded data; bad embedded data with a missing,
and with an unparsable, fallback file. -/
theorem C20_loadCityData_witness :
    loadCityData (exampleLoadEnv [1] true) ⟨[], []⟩ = (none, ⟨exampleCities, []⟩) ∧
    loadCityData (exampleLoadEnv [7] false) ⟨[], []⟩ =
      (some LoadError.readExternal, ⟨[], ["data/cityMap.json".toList]⟩) ∧
    loadCityData (exampleLoadEnv [7] true) ⟨[], []⟩ =
      (some LoadError.parseExternal, ⟨[], ["data/cityMap.json".toList]⟩) ∧
    ((loadCityData (exampleLoadEnv [1] true) ⟨[], []⟩).1 = none ∧
      (loadCityData (exampleLoadEnv [1] true) ⟨[], []⟩).2.cityMapping = exampleCities ∧
      (loadCityData (exampleLoadEnv [1] true) ⟨[], []⟩).2.filesRead = []) :=
  ⟨by decide, by decide, by decide,
    (C20_loadCityData (exampleLoadEnv [1] true) ⟨[], []⟩).2 exampleCities rfl⟩

/-! ## The table in memory is not written -/

theorem heap_getD_set_ne {α : Type} (h : Heap α) {a t : Nat} (x : List α) (hne : a ≠ t) :
    (h.set a x).getD t [] = h.getD t [] := by
  simp [List.getD_eq_getElem?_getD, List.getElem?_set_ne hne]

theorem heap_getD_append {α : Type} (h : Heap α) (x : List α) {t : Nat} (ht : t < h.length) :
    (h ++ [x]).getD t [] = h.getD t [] := by
  simp [List.getD_eq_getElem?_getD, List.getElem?_append_left ht]

/-- `append` to a slice that is apart from the array at `t` leaves that array as it is, and
the slice it returns is apart from it too. -/
theorem sliceAppend_frame {α : Type} (zero : α) (spare : Nat → Nat) (h : Heap α)
    (dst : SliceHeader) (x : α) {t : Nat} (ht : t < h.length) (hsep : separateFrom t h dst) :
    (sliceAppend zero spare h dst x).2.getD t [] = h.getD t [] ∧
    t < (sliceAppend zero spare h dst x).2.length ∧
    separateFrom t (sliceAppend zero spare h dst x).2 (sliceAppend zero spare h dst x).1 := by
  have halloc : ∀ (hdr : SliceHeader) (arr : List α), hdr.arr = some h.length →
      (h ++ [arr]).getD t [] = h.getD t [] ∧ t < (h ++ [arr]).length ∧
        separateFrom t (h ++ [arr]) hdr := by
    intro hdr arr harr
    refine ⟨heap_getD_append h arr ht, by simp; omega, ?_⟩
    intro a ha
    rw [harr] at ha
    cases ha
    exact ⟨by omega, by simp⟩
  unfold sliceAppend
  cases harr : dst.arr with
  | none => exact halloc _ _ rfl
  | some a =>
    obtain ⟨hne, hlt⟩ := hsep a harr
    by_cases hcap : dst.len < dst.cap
    · simp only [hcap, if_true]
      refine ⟨heap_getD_set_ne h _ hne, by simp; exact ht, ?_⟩
      intro b hb
      cases hb
      exact ⟨hne, by simp; exact hlt⟩
    · simp only [hcap, if_false]
      exact halloc _ _ rfl

/-- A loop that appends to a slice apart from the array at `t` leaves that array as it
is. -/
theorem rangeAppend_frame {α β : Type} (zero : β) (spare : Nat → Nat) (f : α → Option β)
    (srcHeap : Heap β → Heap α) (src : SliceHeader) {t : Nat} (n : Nat) :
    ∀ (i : Nat) (h : Heap β) (dst : SliceHeader), t < h.length → separateFrom t h dst →
      (rangeAppend zero spare f srcHeap src n i (h, dst)).1.getD t [] = h.getD t [] ∧
      t < (rangeAppend zero spare f srcHeap src n i (h, dst)).1.length := by
  induction n with
  | zero => intro i h dst ht _; exact ⟨rfl, ht⟩
  | succ n ih =>
    intro i h dst ht hsep
    unfold rangeAppend
    cases hidx : sliceIndex (srcHeap h) src i with
    | none => exact ⟨rfl, ht⟩
    | some c =>
      cases hf : f c with
      | none => simpa [hf] using ih (i + 1) h dst ht hsep
      | some y =>
        obtain ⟨h1, h2, h3⟩ := sliceAppend_frame zero spare h dst y ht hsep
        obtain ⟨h4, h5⟩ := ih (i + 1) _ _ h2 h3
        simp only [hf]
        exact ⟨h4.trans h1, h5⟩

/-- The table read through `GetCityMapping()` is the same in two memories that agree on the
package variable and on the backing array it points to. -/
theorem tableOf_eq_of_frame (mem mem2 : Memory) (hhdr : mem2.cityMapping = mem.cityMapping)
    (hframe : ∀ t, mem.cityMapping.arr = some t → mem2.cities.getD t [] = mem.cities.getD t []) :
    tableOf mem2 = tableOf mem := by
  unfold tableOf GetCityMappingMem sliceElems
  simp only [hhdr]
  cases harr : mem.cityMapping.arr with
  | none => rfl
  | some t => simp only [hframe t harr]

theorem nil_separateFrom {α : Type} (t : Nat) (h : Heap α) :
    separateFrom t h ⟨none, 0, 0⟩ := by
  intro a ha
  cases ha

theorem sliceMake_frame {α : Type} (zero : α) (h : Heap α) (n : Nat) {t : Nat}
    (ht : t < h.length) :
    (sliceMake zero h n).2.getD t [] = h.getD t [] ∧ t < (sliceMake zero h n).2.length ∧
      separateFrom t (sliceMake zero h n).2 (sliceMake zero h n).1 := by
  refine ⟨heap_getD_append h _ ht, by simp [sliceMake]; omega, ?_⟩
  intro a ha
  simp only [sliceMake, Option.some.injEq] at ha
  subst ha
  exact ⟨by omega, by simp [sliceMake]⟩

theorem LookupViaCityMem_frame (spare : Nat → Nat) (lowerTable : Char → Char) (mem : Memory)
    (hvalid : ∀ t, mem.cityMapping.arr = some t → t < mem.cities.length) (city : GoString) :
    tableOf (LookupViaCityMem spare lowerTable mem city).2 = tableOf mem := by
  unfold LookupViaCityMem
  simp only []
  by_cases h : TrimSpace city = []
  · rw [if_pos h]
  · rw [if_neg h]
    dsimp only
    refine tableOf_eq_of_frame _ _ rfl ?_
    intro t ht
    exact (rangeAppend_frame _ _ _ _ _ _ _ _ _ (hvalid t ht) (nil_separateFrom t _)).1

theorem FindFromCityStateProvinceMem_frame (spare : Nat → Nat) (lowerTable : Char → Char)
    (mem : Memory) (hvalid : ∀ t, mem.cityMapping.arr = some t → t < mem.cities.length)
    (searchString : GoString) :
    tableOf (FindFromCityStateProvinceMem spare lowerTable mem searchString).2 =
      tableOf mem := by
  unfold FindFromCityStateProvinceMem
  by_cases h : searchString = []
  · rw [if_pos h]
    dsimp only
    refine tableOf_eq_of_frame _ _ rfl ?_
    intro t ht
    exact (sliceMake_frame _ _ _ (hvalid t ht)).1
  · rw [if_neg h]
    dsimp only
    refine tableOf_eq_of_frame _ _ rfl ?_
    intro t ht
    exact (rangeAppend_frame _ _ _ _ _ _ _ _ _ (hvalid t ht) (nil_separateFrom t _)).1

theorem FindFromIsoCodeMem_frame (spare : Nat → Nat) (lowerTable : Char → Char) (mem : Memory)
    (hvalid : ∀ t, mem.cityMapping.arr = some t → t < mem.cities.length)
    (isoCode : GoString) :
    tableOf (FindFromIsoCodeMem spare lowerTable mem isoCode).2 = tableOf mem := by
  unfold FindFromIsoCodeMem
  simp only []
  by_cases h : TrimSpace isoCode = []
  · rw [if_pos h]
    dsimp only
    refine tableOf_eq_of_frame _ _ rfl ?_
    intro t ht
    exact (sliceMake_frame _ _ _ (hvalid t ht)).1
  · rw [if_neg h]
    dsimp only
    refine tableOf_eq_of_frame _ _ rfl ?_
    intro t ht
    exact (rangeAppend_frame _ _ _ _ _ _ _ _ _ (hvalid t ht) (nil_separateFrom t _)).1

theorem FindNearestCitiesMem_frame (spare : Nat → Nat) (m : Math)
    (sortSlice : (CityDistance → CityDistance → Bool) → List CityDistance → List CityDistance)
    (mem : Memory) (hvalid : ∀ t, mem.cityMapping.arr = some t → t < mem.cities.length)
    (lat lng radiusKm : F64) :
    tableOf (FindNearestCitiesMem spare m sortSlice mem lat lng radiusKm).2 = tableOf mem := by
  unfold FindNearestCitiesMem
  simp only []
  refine tableOf_eq_of_frame _ _ rfl ?_
  intro t ht
  obtain ⟨h1, h2, h3⟩ := sliceMake_frame CityData.zero mem.cities
    (rangeAppend CityDistance.zero spare
      (fun city =>
        if F64.le (haversineDistance m lat lng city.Lat city.Lng) radiusKm = true then
          some (⟨city, haversineDistance m lat lng city.Lat city.Lng⟩ : CityDistance)
        else none)
      (fun _ => mem.cities) mem.cityMapping mem.cityMapping.len 0
      (mem.distances, ⟨none, 0, 0⟩)).2.len (hvalid t ht)
  exact ((rangeAppend_frame _ _ _ _ _ _ _ _ _ h2 h3).1).trans h1

theorem sliceMake_zero_frame (mem : Memory)
    (hvalid : ∀ t, mem.cityMapping.arr = some t → t < mem.cities.length) :
    tableOf ⟨(sliceMake CityData.zero mem.cities 0).2, mem.distances, mem.cityMapping⟩ =
      tableOf mem := by
  refine tableOf_eq_of_frame _ _ rfl ?_
  intro t ht
  exact (sliceMake_frame _ _ _ (hvalid t ht)).1

theorem FindFromCoordinatesMem_frame (spare : Nat → Nat) (m : Math)
    (sortSlice : (CityDistance → CityDistance → Bool) → List CityDistance → List CityDistance)
    (parseFloat : GoString → Option F64) (mem : Memory)
    (hvalid : ∀ t, mem.cityMapping.arr = some t → t < mem.cities.length) (coords : Coords) :
    tableOf (FindFromCoordinatesMem spare m sortSlice parseFloat mem coords).2 =
      tableOf mem := by
  unfold FindFromCoordinatesMem
  split
  · exact sliceMake_zero_frame mem hvalid
  · exact FindNearestCitiesMem_frame spare m sortSlice mem hvalid _ _ _

theorem FindFromPlusCodeMem_frame (spare : Nat → Nat) (m : Math)
    (sortSlice : (CityDistance → CityDistance → Bool) → List CityDistance → List CityDistance)
    (olcDecode : GoString → Option CodeArea) (mem : Memory)
    (hvalid : ∀ t, mem.cityMapping.arr = some t → t < mem.cities.length)
    (plusCode : GoString) :
    tableOf (FindFromPlusCodeMem spare m sortSlice olcDecode mem plusCode).2 =
      tableOf mem := by
  unfold FindFromPlusCodeMem
  simp only []
  split
  · exact sliceMake_zero_frame mem hvalid
  · split
    · exact sliceMake_zero_frame mem hvalid
    · exact FindNearestCitiesMem_frame spare m sortSlice mem hvalid _ _ _

/-! ## The queries on memory compute what the queries on lists compute -/

theorem take_succ_set {α : Type} (x : α) :
    ∀ (l : List α) (n : Nat), n < l.length → (l.set n x).take (n + 1) = l.take n ++ [x]
  | [], n, h => by simp at h
  | a :: l, 0, _ => by simp
  | a :: l, n + 1, h => by
    have := take_succ_set x l n (by simpa using h)
    simp [this]

theorem heap_getD_set_self {α : Type} (h : Heap α) {a : Nat} (x : List α)
    (ha : a < h.length) : (h.set a x).getD a [] = x := by
  simp [List.getD_eq_getElem?_getD, List.getElem?_set_self ha]

theorem heap_getD_append_length {α : Type} (h : Heap α) (x : List α) :
    (h ++ [x]).getD h.length [] = x := by
  simp [List.getD_eq_getElem?_getD]

theorem sliceElems_length {α : Type} (h : Heap α) (s : SliceHeader) (hv : headerValid h s) :
    (sliceElems h s).length = s.len := by
  obtain ⟨h1, h2, h3⟩ := hv
  unfold sliceElems
  cases harr : s.arr with
  | none => simp [h2 harr]
  | some a =>
    have := (h3 a harr).2
    simp only [List.length_take]
    omega

/-- `append` adds the element at the end, and returns a valid non-nil slice. -/
theorem sliceAppend_elems {α : Type} (zero : α) (spare : Nat → Nat) (h : Heap α)
    (dst : SliceHeader) (x : α) (hv : headerValid h dst) :
    sliceElems (sliceAppend zero spare h dst x).2 (sliceAppend zero spare h dst x).1 =
      sliceElems h dst ++ [x] ∧
    headerValid (sliceAppend zero spare h dst x).2 (sliceAppend zero spare h dst x).1 ∧
    (sliceAppend zero spare h dst x).1.arr ≠ none := by
  have hlen := sliceElems_length h dst hv
  have halloc : ∀ E : List α, E.length = dst.len →
      sliceElems (h ++ [E ++ [x] ++ List.replicate (spare dst.len) zero])
          ⟨some h.length, dst.len + 1, dst.len + 1 + spare dst.len⟩ = E ++ [x] ∧
      headerValid (h ++ [E ++ [x] ++ List.replicate (spare dst.len) zero])
        ⟨some h.length, dst.len + 1, dst.len + 1 + spare dst.len⟩ := by
    intro E hE
    constructor
    · simp only [sliceElems, heap_getD_append_length]
      exact List.take_left' (by simp [hE])
    · refine ⟨?_, ?_, ?_⟩
      · show dst.len + 1 ≤ dst.len + 1 + spare dst.len
        omega
      · intro hnone
        cases hnone
      · intro a ha
        simp only [Option.some.injEq] at ha
        subst ha
        rw [heap_getD_append_length]
        constructor
        · simp
        · show dst.len + 1 + spare dst.len ≤ _
          simp only [List.length_append, List.length_replicate, List.length_cons,
            List.length_nil, hE]
          omega
  unfold sliceAppend
  cases harr : dst.arr with
  | none => exact ⟨(halloc _ hlen).1, (halloc _ hlen).2, by simp⟩
  | some a =>
    obtain ⟨h1, h2, h3⟩ := hv
    obtain ⟨ha, hcapa⟩ := h3 a harr
    by_cases hcap : dst.len < dst.cap
    · simp only [hcap, if_true]
      refine ⟨?_, ?_, by simp⟩
      · simp only [sliceElems, harr, heap_getD_set_self h _ ha]
        exact take_succ_set x _ _ (by omega)
      · refine ⟨?_, ?_, ?_⟩
        · show dst.len + 1 ≤ dst.cap
          omega
        · intro hnone
          cases hnone
        · intro b hb
          simp only [Option.some.injEq] at hb
          subst hb
          rw [heap_getD_set_self h _ ha]
          constructor
          · simpa using ha
          · simpa using hcapa
    · simp only [hcap, if_false]
      exact ⟨(halloc _ hlen).1, (halloc _ hlen).2, by simp⟩

/-- The element read at a valid index is the element of that index. -/
theorem sliceIndex_eq {α : Type} (h : Heap α) (s : SliceHeader) (i : Nat) (hi : i < s.len) :
    sliceIndex h s i = (sliceElems h s)[i]? := by
  unfold sliceIndex sliceElems
  cases s.arr with
  | none => simp
  | some a => simp [hi, List.getElem?_take]

/-- What a loop appends: the images under `f` of the elements that it ranges over, in
order.  `Inv` is whatever has to stay true of the memory for the elements read to be the
elements `elems`. -/
theorem rangeAppend_elems {α β : Type} (zero : β) (spare : Nat → Nat) (f : α → Option β)
    (srcHeap : Heap β → Heap α) (src : SliceHeader) (elems : List α)
    (helems : elems.length = src.len) (Inv : Heap β → SliceHeader → Prop)
    (hstep : ∀ h dst y, Inv h dst →
      Inv (sliceAppend zero spare h dst y).2 (sliceAppend zero spare h dst y).1)
    (hread : ∀ h dst j, Inv h dst → j < src.len →
      sliceIndex (srcHeap h) src j = elems[j]?)
    (n : Nat) :
    ∀ (i : Nat) (h : Heap β) (dst : SliceHeader), Inv h dst → headerValid h dst →
      i + n ≤ src.len →
      sliceElems (rangeAppend zero spare f srcHeap src n i (h, dst)).1
          (rangeAppend zero spare f srcHeap src n i (h, dst)).2 =
        sliceElems h dst ++ ((elems.drop i).take n).filterMap f ∧
      headerValid (rangeAppend zero spare f srcHeap src n i (h, dst)).1
        (rangeAppend zero spare f srcHeap src n i (h, dst)).2 ∧
      (((elems.drop i).take n).filterMap f = [] →
        rangeAppend zero spare f srcHeap src n i (h, dst) = (h, dst)) ∧
      (((elems.drop i).take n).filterMap f ≠ [] →
        (rangeAppend zero spare f srcHeap src n i (h, dst)).2.arr ≠ none) := by
  induction n with
  | zero =>
    intro i h dst _ hv _
    simp [rangeAppend, hv]
  | succ n ih =>
    intro i h dst hinv hv hle
    have hi : i < elems.length := by omega
    have hdrop : (elems.drop i).take (n + 1) = elems[i] :: (elems.drop (i + 1)).take n := by
      rw [List.drop_eq_getElem_cons hi, List.take_succ_cons]
    have hidx : sliceIndex (srcHeap h) src i = some elems[i] := by
      rw [hread h dst i hinv (by omega), List.getElem?_eq_getElem hi]
    unfold rangeAppend
    simp only [hidx, hdrop]
    cases hf : f elems[i] with
    | none =>
      simp only [List.filterMap_cons, hf]
      exact ih (i + 1) h dst hinv hv (by omega)
    | some y =>
      simp only [List.filterMap_cons, hf]
      obtain ⟨ha1, ha2, ha3⟩ := sliceAppend_elems zero spare h dst y hv
      obtain ⟨h1, h2, h3, h4⟩ := ih (i + 1) _ _ (hstep h dst y hinv) ha2 (by omega)
      refine ⟨?_, h2, ?_, ?_⟩
      · rw [h1, ha1]
        simp
      · intro hnil
        exact absurd hnil (by simp)
      · intro _
        by_cases hrest : ((elems.drop (i + 1)).take n).filterMap f = []
        · rw [h3 hrest]
          exact ha3
        · exact h4 hrest

theorem filterMap_ite_eq_filter {α : Type} (p : α → Prop) [DecidablePred p] (l : List α) :
    l.filterMap (fun c => if p c then some c else none) = l.filter (fun c => decide (p c)) := by
  induction l with
  | nil => rfl
  | cons a l ih =>
    by_cases h : p a
    · simp [List.filterMap_cons, h, ih]
    · simp [List.filterMap_cons, h, ih]

theorem filterMap_ite_eq_map_filter {α β : Type} (p : α → Prop) [DecidablePred p] (g : α → β)
    (l : List α) :
    l.filterMap (fun c => if p c then some (g c) else none) =
      (l.filter (fun c => decide (p c))).map g := by
  induction l with
  | nil => rfl
  | cons a l ih =>
    by_cases h : p a
    · simp [List.filterMap_cons, h, ih]
    · simp [List.filterMap_cons, h, ih]

/-- The slice that a filtering loop over the table builds from the nil slice, appending into
the heap that holds the table. -/
theorem rangeAppend_same_value {α : Type} (zero : α) (spare : Nat → Nat) (f : α → Option α)
    (h0 : Heap α) (src : SliceHeader) (hv : headerValid h0 src) :
    sliceValue (rangeAppend zero spare f (fun h => h) src src.len 0 (h0, ⟨none, 0, 0⟩)).1
        (rangeAppend zero spare f (fun h => h) src src.len 0 (h0, ⟨none, 0, 0⟩)).2 =
      if ((sliceElems h0 src).filterMap f).isEmpty = true then Slice.nil
      else Slice.mk ((sliceElems h0 src).filterMap f) := by
  have hlen := sliceElems_length h0 src hv
  have hnilvalid : headerValid h0 (⟨none, 0, 0⟩ : SliceHeader) :=
    ⟨Nat.le_refl 0, fun _ => rfl, fun a ha => by cases ha⟩
  have hall : ((sliceElems h0 src).drop 0).take src.len = sliceElems h0 src := by
    rw [List.drop_zero, List.take_of_length_le (by omega)]
  have main : ∀ (Inv : Heap α → SliceHeader → Prop),
      (∀ h dst y, Inv h dst →
        Inv (sliceAppend zero spare h dst y).2 (sliceAppend zero spare h dst y).1) →
      (∀ h dst j, Inv h dst → j < src.len → sliceIndex h src j = (sliceElems h0 src)[j]?) →
      Inv h0 ⟨none, 0, 0⟩ →
      sliceValue (rangeAppend zero spare f (fun h => h) src src.len 0 (h0, ⟨none, 0, 0⟩)).1
          (rangeAppend zero spare f (fun h => h) src src.len 0 (h0, ⟨none, 0, 0⟩)).2 =
        if ((sliceElems h0 src).filterMap f).isEmpty = true then Slice.nil
        else Slice.mk ((sliceElems h0 src).filterMap f) := by
    intro Inv hstep hread hinit
    obtain ⟨h1, _, h3, h4⟩ := rangeAppend_elems zero spare f (fun h => h) src
      (sliceElems h0 src) hlen Inv hstep hread src.len 0 h0 ⟨none, 0, 0⟩ hinit hnilvalid
      (by omega)
    rw [hall] at h1 h3 h4
    by_cases he : (sliceElems h0 src).filterMap f = []
    · rw [h3 he, he]
      rfl
    · have hne := h4 he
      have hemp : ((sliceElems h0 src).filterMap f).isEmpty = false := by
        cases hfm : (sliceElems h0 src).filterMap f with
        | nil => exact absurd hfm he
        | cons a l => rfl
      rw [hemp]
      simp only [Bool.false_eq_true, if_false]
      unfold sliceValue
      cases harr : (rangeAppend zero spare f (fun h => h) src src.len 0
          (h0, ⟨none, 0, 0⟩)).2.arr with
      | none => exact absurd harr hne
      | some a =>
        simp only []
        rw [h1]
        simp [sliceElems]
  cases harr : src.arr with
  | none =>
    apply main (fun _ _ => True) (fun _ _ _ _ => trivial) ?_ trivial
    intro h dst j _ hj
    have := hv.2.1 harr
    omega
  | some t =>
    obtain ⟨ht, _⟩ := hv.2.2 t harr
    apply main (fun h dst => h.getD t [] = h0.getD t [] ∧ t < h.length ∧ separateFrom t h dst)
    · intro h dst y hinv
      obtain ⟨h1, h2, h3⟩ := sliceAppend_frame zero spare h dst y hinv.2.1 hinv.2.2
      exact ⟨h1.trans hinv.1, h2, h3⟩
    · intro h dst j hinv hj
      rw [sliceIndex_eq h src j hj]
      simp only [sliceElems, harr, hinv.1]
    · exact ⟨rfl, ht, nil_separateFrom t h0⟩

/-- A filtering loop over the table in memory builds the slice that the same loop builds over
the list of the records of the table. -/
theorem filterLoop_refines (spare : Nat → Nat) (p : CityData → Prop) [DecidablePred p]
    (mem : Memory) (hv : headerValid mem.cities mem.cityMapping) :
    sliceValue
        (rangeAppend CityData.zero spare (fun c => if p c then some c else none)
          (fun h => h) mem.cityMapping mem.cityMapping.len 0 (mem.cities, ⟨none, 0, 0⟩)).1
        (rangeAppend CityData.zero spare (fun c => if p c then some c else none)
          (fun h => h) mem.cityMapping mem.cityMapping.len 0 (mem.cities, ⟨none, 0, 0⟩)).2 =
      (tableOf mem).foldl (fun results c => if p c then results.append c else results)
        Slice.nil := by
  rw [rangeAppend_same_value CityData.zero spare _ mem.cities mem.cityMapping hv,
    filterMap_ite_eq_filter, foldl_append_eq]
  rfl

theorem sliceValue_sliceMake_zero {α : Type} (zero : α) (h : Heap α) :
    sliceValue (sliceMake zero h 0).2 (sliceMake zero h 0).1 = Slice.mk [] := by
  simp [sliceValue, sliceMake, sliceElems]

/-- The slice that `LookupViaCity` returns in memory is the one of the list-level function
on the records of the table. -/
theorem LookupViaCityMem_refines (spare : Nat → Nat) (lowerTable : Char → Char) (mem : Memory)
    (hv : headerValid mem.cities mem.cityMapping) (city : GoString) :
    sliceValue (LookupViaCityMem spare lowerTable mem city).2.cities
        (LookupViaCityMem spare lowerTable mem city).1 =
      LookupViaCity lowerTable (tableOf mem) city := by
  unfold LookupViaCityMem LookupViaCity
  by_cases h : TrimSpace city = []
  · simp only [h, if_true]
    rfl
  · simp only [h, if_false]
    exact filterLoop_refines spare
      (fun c => ToLower lowerTable c.City = ToLower lowerTable (TrimSpace city)) mem hv

theorem FindFromCityStateProvinceMem_refines (spare : Nat → Nat) (lowerTable : Char → Char)
    (mem : Memory) (hv : headerValid mem.cities mem.cityMapping) (searchString : GoString) :
    sliceValue (FindFromCityStateProvinceMem spare lowerTable mem searchString).2.cities
        (FindFromCityStateProvinceMem spare lowerTable mem searchString).1 =
      FindFromCityStateProvince lowerTable (tableOf mem) searchString := by
  unfold FindFromCityStateProvinceMem FindFromCityStateProvince
  by_cases h : searchString = []
  · simp only [h, if_true]
    exact sliceValue_sliceMake_zero CityData.zero mem.cities
  · simp only [h, if_false]
    exact filterLoop_refines spare
      (fun c => findPartialMatch lowerTable (searchFieldsOf c) searchString = true) mem hv

theorem FindFromIsoCodeMem_refines (spare : Nat → Nat) (lowerTable : Char → Char)
    (mem : Memory) (hv : headerValid mem.cities mem.cityMapping) (isoCode : GoString) :
    sliceValue (FindFromIsoCodeMem spare lowerTable mem isoCode).2.cities
        (FindFromIsoCodeMem spare lowerTable mem isoCode).1 =
      FindFromIsoCode lowerTable (tableOf mem) isoCode := by
  unfold FindFromIsoCodeMem FindFromIsoCode
  by_cases h : TrimSpace isoCode = []
  · simp only [h, if_true]
    exact sliceValue_sliceMake_zero CityData.zero mem.cities
  · simp only [h, if_false]
    exact filterLoop_refines spare
      (fun c =>
        ((match c.ISO2 with
          | Any.str iso2Str =>
            decide (ToLower lowerTable iso2Str = ToLower lowerTable (TrimSpace isoCode))
          | _ => false) ||
         (match c.ISO3 with
          | Any.str iso3Str =>
            decide (ToLower lowerTable iso3Str = ToLower lowerTable (TrimSpace isoCode))
          | _ => false)) = true) mem hv

/-- A loop that reads its elements from one heap and appends into another. -/
theorem rangeAppend_cross_elems {α β : Type} (zero : β) (spare : Nat → Nat) (f : α → Option β)
    (hs : Heap α) (src : SliceHeader) (hvs : headerValid hs src) (h : Heap β)
    (dst : SliceHeader) (hvd : headerValid h dst) :
    sliceElems (rangeAppend zero spare f (fun _ => hs) src src.len 0 (h, dst)).1
        (rangeAppend zero spare f (fun _ => hs) src src.len 0 (h, dst)).2 =
      sliceElems h dst ++ (sliceElems hs src).filterMap f ∧
    headerValid (rangeAppend zero spare f (fun _ => hs) src src.len 0 (h, dst)).1
      (rangeAppend zero spare f (fun _ => hs) src src.len 0 (h, dst)).2 ∧
    (dst.arr ≠ none →
      (rangeAppend zero spare f (fun _ => hs) src src.len 0 (h, dst)).2.arr ≠ none) := by
  have hlen := sliceElems_length hs src hvs
  have hall : ((sliceElems hs src).drop 0).take src.len = sliceElems hs src := by
    rw [List.drop_zero, List.take_of_length_le (by omega)]
  obtain ⟨h1, h2, h3, h4⟩ := rangeAppend_elems zero spare f (fun _ => hs) src
    (sliceElems hs src) hlen (fun _ _ => True) (fun _ _ _ _ => trivial)
    (fun _ _ j _ hj => sliceIndex_eq hs src j hj) src.len 0 h dst trivial hvd (by omega)
  rw [hall] at h1 h3 h4
  refine ⟨h1, h2, fun hne => ?_⟩
  by_cases he : (sliceElems hs src).filterMap f = []
  · rw [h3 he]
    exact hne
  · exact h4 he

/-- Sorting in place leaves the sorted elements in the slice, when sorting keeps the number
of elements. -/
theorem sortInPlace_elems
    (sortSlice : (CityDistance → CityDistance → Bool) → List CityDistance → List CityDistance)
    (less : CityDistance → CityDistance → Bool)
    (hlen : ∀ l, (sortSlice less l).length = l.length)
    (h : Heap CityDistance) (s : SliceHeader) (hv : headerValid h s) :
    sliceElems (sortInPlace sortSlice less h s) s = sortSlice less (sliceElems h s) ∧
    headerValid (sortInPlace sortSlice less h s) s := by
  obtain ⟨h1, h2, h3⟩ := hv
  unfold sortInPlace sliceElems
  cases harr : s.arr with
  | none =>
    refine ⟨?_, h1, fun _ => h2 harr, fun a ha => (by rw [harr] at ha; cases ha)⟩
    have := hlen []
    simp only [List.length_nil, List.length_eq_zero] at this
    exact this.symm
  | some a =>
    obtain ⟨ha, hcap⟩ := h3 a harr
    have hsorted : (sortSlice less ((h.getD a []).take s.len)).length = s.len := by
      rw [hlen, List.length_take]
      omega
    simp only []
    rw [heap_getD_set_self h _ ha]
    refine ⟨?_, h1, fun hn => (by rw [harr] at hn; cases hn), fun b hb => ?_⟩
    · rw [List.take_append_of_le_length (by omega), List.take_of_length_le (by omega)]
    · rw [harr] at hb
      cases hb
      rw [heap_getD_set_self h _ ha]
      simp only [List.length_set, List.length_append, List.length_drop, hsorted]
      omega

theorem sliceMake_valid {α : Type} (zero : α) (h : Heap α) (n : Nat) :
    headerValid (sliceMake zero h n).2 (sliceMake zero h n).1 ∧
    sliceElems (sliceMake zero h n).2 (sliceMake zero h n).1 = [] ∧
    (sliceMake zero h n).1.arr ≠ none := by
  refine ⟨⟨Nat.zero_le n, fun hn => (by cases hn), fun a ha => ?_⟩, ?_, by simp [sliceMake]⟩
  · simp only [sliceMake, Option.some.injEq] at ha
    subst ha
    simp [sliceMake, heap_getD_append_length]
  · simp [sliceMake, sliceElems]

theorem Slice.eq_mk_toList {α : Type} (s : Slice α) (h : s ≠ Slice.nil) :
    s = Slice.mk s.toList := by
  cases s with
  | nil => exact absurd rfl h
  | mk l => rfl

/-- The slice that `FindNearestCities` returns in memory is the one of the list-level function
on the records of the table, when sorting keeps the number of elements. -/
theorem FindNearestCitiesMem_refines (spare : Nat → Nat) (m : Math)
    (sortSlice : (CityDistance → CityDistance → Bool) → List CityDistance → List CityDistance)
    (hlen : ∀ l, (sortSlice distanceLess l).length = l.length)
    (mem : Memory) (hv : headerValid mem.cities mem.cityMapping) (lat lng radiusKm : F64) :
    sliceValue (FindNearestCitiesMem spare m sortSlice mem lat lng radiusKm).2.cities
        (FindNearestCitiesMem spare m sortSlice mem lat lng radiusKm).1 =
      FindNearestCities m sortSlice (tableOf mem) lat lng radiusKm := by
  have hnilvalid : headerValid mem.distances (⟨none, 0, 0⟩ : SliceHeader) :=
    ⟨Nat.le_refl 0, fun _ => rfl, fun a ha => by cases ha⟩
  rw [Slice.eq_mk_toList _ (FindNearestCities_ne_nil m sortSlice (tableOf mem) lat lng radiusKm),
    FindNearestCities_toList]
  unfold FindNearestCitiesMem
  simp only []
  obtain ⟨e1, v1, _⟩ := rangeAppend_cross_elems CityDistance.zero spare
    (fun city =>
      if F64.le (haversineDistance m lat lng city.Lat city.Lng) radiusKm = true then
        some (⟨city, haversineDistance m lat lng city.Lat city.Lng⟩ : CityDistance)
      else none)
    mem.cities mem.cityMapping hv mem.distances ⟨none, 0, 0⟩ hnilvalid
  obtain ⟨es, vs⟩ := sortInPlace_elems sortSlice distanceLess hlen _ _ v1
  obtain ⟨vm, em, nm⟩ := sliceMake_valid CityData.zero mem.cities
    (rangeAppend CityDistance.zero spare
      (fun city =>
        if F64.le (haversineDistance m lat lng city.Lat city.Lng) radiusKm = true then
          some (⟨city, haversineDistance m lat lng city.Lat city.Lng⟩ : CityDistance)
        else none)
      (fun _ => mem.cities) mem.cityMapping mem.cityMapping.len 0
      (mem.distances, ⟨none, 0, 0⟩)).2.len
  obtain ⟨e2, _, n2⟩ := rangeAppend_cross_elems CityData.zero spare
    (fun result : CityDistance => some result.toCityData) _ _ vs _ _ vm
  have n2 := n2 nm
  unfold sliceValue
  split
  · rename_i harr
    exact absurd harr n2
  · have hmap : ∀ l : List CityDistance,
        l.filterMap (fun result : CityDistance => some result.toCityData) =
          l.map (fun e => e.toCityData) := by
      intro l
      induction l with
      | nil => rfl
      | cons a l ih => simp [List.filterMap_cons, ih]
    rw [e2, em, es, e1, filterMap_ite_eq_map_filter, hmap]
    simp [sliceElems, tableOf, GetCityMappingMem]

theorem FindFromCoordinatesMem_refines (spare : Nat → Nat) (m : Math)
    (sortSlice : (CityDistance → CityDistance → Bool) → List CityDistance → List CityDistance)
    (hlen : ∀ l, (sortSlice distanceLess l).length = l.length)
    (parseFloat : GoString → Option F64) (mem : Memory)
    (hv : headerValid mem.cities mem.cityMapping) (coords : Coords) :
    sliceValue (FindFromCoordinatesMem spare m sortSlice parseFloat mem coords).2.cities
        (FindFromCoordinatesMem spare m sortSlice parseFloat mem coords).1 =
      FindFromCoordinates m sortSlice parseFloat (tableOf mem) coords := by
  unfold FindFromCoordinatesMem FindFromCoordinates
  cases parseCoordinates parseFloat coords with
  | none => exact sliceValue_sliceMake_zero CityData.zero mem.cities
  | some p => exact FindNearestCitiesMem_refines spare m sortSlice hlen mem hv p.1 p.2 F64.fifty

theorem FindFromPlusCodeMem_refines (spare : Nat → Nat) (m : Math)
    (sortSlice : (CityDistance → CityDistance → Bool) → List CityDistance → List CityDistance)
    (hlen : ∀ l, (sortSlice distanceLess l).length = l.length)
    (olcDecode : GoString → Option CodeArea) (mem : Memory)
    (hv : headerValid mem.cities mem.cityMapping) (plusCode : GoString) :
    sliceValue (FindFromPlusCodeMem spare m sortSlice olcDecode mem plusCode).2.cities
        (FindFromPlusCodeMem spare m sortSlice olcDecode mem plusCode).1 =
      FindFromPlusCode m sortSlice olcDecode (tableOf mem) plusCode := by
  unfold FindFromPlusCodeMem FindFromPlusCode
  by_cases h : TrimSpace plusCode = []
  · simp only [h, if_true]
    exact sliceValue_sliceMake_zero CityData.zero mem.cities
  · simp only [h, if_false]
    cases olcDecode (TrimSpace plusCode) with
    | none => exact sliceValue_sliceMake_zero CityData.zero mem.cities
    | some area => exact FindNearestCitiesMem_refines spare m sortSlice hlen mem hv _ _ F64.fifty

theorem headerValid_arr_lt {α : Type} (h : Heap α) (s : SliceHeader) (hv : headerValid h s) :
    ∀ t, s.arr = some t → t < h.length :=
  fun t ht => (hv.2.2 t ht).1

theorem exampleMemory_valid : headerValid exampleMemory.cities exampleMemory.cityMapping := by
  refine ⟨by decide, fun h => (by cases h), fun a ha => ?_⟩
  have : a = 0 := by
    simp only [exampleMemory, Option.some.injEq] at ha
    exact ha.symm
  subst this
  exact ⟨by decide, by decide⟩

/-- C19: queries are read-only over the table.  In a memory whose package variable
`cityMapping` is a valid slice, after a call of `LookupViaCity`, `FindFromCityStateProvince`,
`FindFromIsoCode`, `FindNearestCities`, `FindFromCoordinates`, `FindFromPlusCode` or
`GetCityMapping`, with any input, the package variable is the same slice header and
`GetCityMapping()` returns the same records in the same order as before the call, however
the runtime sizes the arrays that `append` allocates and whatever `sort.Slice` does to the
slice it is given. -/
theorem C19_queries_leave_table (spare : Nat → Nat) (lowerTable : Char → Char) (m : Math)
    (sortSlice : (CityDistance → CityDistance → Bool) → List CityDistance → List CityDistance)
    (parseFloat : GoString → Option F64) (olcDecode : GoString → Option CodeArea)
    (mem : Memory) (hvalid : headerValid mem.cities mem.cityMapping) :
    (∀ city,
      (LookupViaCityMem spare lowerTable mem city).2.cityMapping = mem.cityMapping ∧
      tableOf (LookupViaCityMem spare lowerTable mem city).2 = tableOf mem) ∧
    (∀ searchString,
      (FindFromCityStateProvinceMem spare lowerTable mem searchString).2.cityMapping =
        mem.cityMapping ∧
      tableOf (FindFromCityStateProvinceMem spare lowerTable mem searchString).2 =
        tableOf mem) ∧
    (∀ isoCode,
      (FindFromIsoCodeMem spare lowerTable mem isoCode).2.cityMapping = mem.cityMapping ∧
      tableOf (FindFromIsoCodeMem spare lowerTable mem isoCode).2 = tableOf mem) ∧
    (∀ lat lng radiusKm,
      (FindNearestCitiesMem spare m sortSlice mem lat lng radiusKm).2.cityMapping =
        mem.cityMapping ∧
      tableOf (FindNearestCitiesMem spare m sortSlice mem lat lng radiusKm).2 = tableOf mem) ∧
    (∀ coords,
      (FindFromCoordinatesMem spare m sortSlice parseFloat mem coords).2.cityMapping =
        mem.cityMapping ∧
      tableOf (FindFromCoordinatesMem spare m sortSlice parseFloat mem coords).2 =
        tableOf mem) ∧
    (∀ plusCode,
      (FindFromPlusCodeMem spare m sortSlice olcDecode mem plusCode).2.cityMapping =
        mem.cityMapping ∧
      tableOf (FindFromPlusCodeMem spare m sortSlice olcDecode mem plusCode).2 =
        tableOf mem) ∧
    (GetCityMappingMem mem).2 = mem := by
  have hlt := headerValid_arr_lt mem.cities mem.cityMapping hvalid
  refine ⟨fun city => ⟨?_, LookupViaCityMem_frame spare lowerTable mem hlt city⟩,
    fun q => ⟨?_, FindFromCityStateProvinceMem_frame spare lowerTable mem hlt q⟩,
    fun iso => ⟨?_, FindFromIsoCodeMem_frame spare lowerTable mem hlt iso⟩,
    fun lat lng r => ⟨rfl, FindNearestCitiesMem_frame spare m sortSlice mem hlt lat lng r⟩,
    fun coords => ⟨?_, FindFromCoordinatesMem_frame spare m sortSlice parseFloat mem hlt coords⟩,
    fun code => ⟨?_, FindFromPlusCodeMem_frame spare m sortSlice olcDecode mem hlt code⟩,
    rfl⟩
  · unfold LookupViaCityMem
    simp only []
    split <;> rfl
  · unfold FindFromCityStateProvinceMem
    split <;> rfl
  · unfold FindFromIsoCodeMem
    simp only []
    split <;> rfl
  · unfold FindFromCoordinatesMem
    split <;> rfl
  · unfold FindFromPlusCodeMem
    simp only []
    split
    · rfl
    · split <;> rfl

/-- C19 on the example memory, whose table lies in an array with one spare place: after
`LookupViaCity("a")`, which finds a record, and after `FindNearestCities`, which sorts four
results, `GetCityMapping()` still returns the example table. -/
theorem C19_queries_leave_table_witness :
    headerValid exampleMemory.cities exampleMemory.cityMapping ∧
    (LookupViaCityMem (fun n => n) asciiCaseTable exampleMemory "a".toList).1.len = 1 ∧
    tableOf (LookupViaCityMem (fun n => n) asciiCaseTable exampleMemory "a".toList).2 =
      exampleCities ∧
    tableOf (FindNearestCitiesMem (fun n => n) exampleMath insertionSort exampleMemory
      ⟨0⟩ ⟨0⟩ ⟨9⟩).2 = exampleCities :=
  ⟨exampleMemory_valid, by decide,
    ((C19_queries_leave_table (fun n => n) asciiCaseTable exampleMath insertionSort
      exampleParseFloat exampleDecode exampleMemory exampleMemory_valid).1 "a".toList).2.trans
      rfl,
    ((C19_queries_leave_table (fun n => n) asciiCaseTable exampleMath insertionSort
      exampleParseFloat exampleDecode exampleMemory exampleMemory_valid).2.2.2.1
      ⟨0⟩ ⟨0⟩ ⟨9⟩).2.trans rfl⟩

/-! ## The proximity queries return a slice -/

theorem sliceAppend_arr_ne_none {α : Type} (zero : α) (spare : Nat → Nat) (h : Heap α)
    (dst : SliceHeader) (x : α) : (sliceAppend zero spare h dst x).1.arr ≠ none := by
  unfold sliceAppend
  cases dst.arr with
  | none => simp
  | some a =>
    simp only []
    split <;> simp

/-- A loop that appends to a non-nil slice leaves a non-nil slice. -/
theorem rangeAppend_arr_ne_none {α β : Type} (zero : β) (spare : Nat → Nat) (f : α → Option β)
    (srcHeap : Heap β → Heap α) (src : SliceHeader) (n : Nat) :
    ∀ (i : Nat) (h : Heap β) (dst : SliceHeader), dst.arr ≠ none →
      (rangeAppend zero spare f srcHeap src n i (h, dst)).2.arr ≠ none := by
  induction n with
  | zero => intro i h dst hne; exact hne
  | succ n ih =>
    intro i h dst hne
    unfold rangeAppend
    cases hidx : sliceIndex (srcHeap h) src i with
    | none => exact hne
    | some c =>
      cases hf : f c with
      | none => simpa [hf] using ih (i + 1) h dst hne
      | some y =>
        simp only [hf]
        exact ih (i + 1) _ _ (sliceAppend_arr_ne_none zero spare h dst y)

theorem FindNearestCitiesMem_arr_ne_none (spare : Nat → Nat) (m : Math)
    (sortSlice : (CityDistance → CityDistance → Bool) → List CityDistance → List CityDistance)
    (mem : Memory) (lat lng radiusKm : F64) :
    (FindNearestCitiesMem spare m sortSlice mem lat lng radiusKm).1.arr ≠ none := by
  unfold FindNearestCitiesMem
  simp only []
  apply rangeAppend_arr_ne_none
  simp [sliceMake]

/-- C22: the proximity queries always return a slice, never nil.  For every table and every
input, `FindNearestCities`, `FindFromCoordinates` and `FindFromPlusCode` return a non-nil
slice: as Go slice values over the list of the records of the table, and on memory, where
the header returned points to a backing array. -/
theorem C22_proximity_never_nil (spare : Nat → Nat) (m : Math)
    (sortSlice : (CityDistance → CityDistance → Bool) → List CityDistance → List CityDistance)
    (parseFloat : GoString → Option F64) (olcDecode : GoString → Option CodeArea) :
    (∀ (cityMapping : List CityData) (lat lng radiusKm : F64),
      FindNearestCities m sortSlice cityMapping lat lng radiusKm ≠ Slice.nil) ∧
    (∀ (cityMapping : List CityData) (coords : Coords),
      FindFromCoordinates m sortSlice parseFloat cityMapping coords ≠ Slice.nil) ∧
    (∀ (cityMapping : List CityData) (plusCode : GoString),
      FindFromPlusCode m sortSlice olcDecode cityMapping plusCode ≠ Slice.nil) ∧
    (∀ (mem : Memory) (lat lng radiusKm : F64),
      (FindNearestCitiesMem spare m sortSlice mem lat lng radiusKm).1.arr ≠ none) ∧
    (∀ (mem : Memory) (coords : Coords),
      (FindFromCoordinatesMem spare m sortSlice parseFloat mem coords).1.arr ≠ none) ∧
    (∀ (mem : Memory) (plusCode : GoString),
      (FindFromPlusCodeMem spare m sortSlice olcDecode mem plusCode).1.arr ≠ none) := by
  refine ⟨fun cityMapping => FindNearestCities_ne_nil m sortSlice cityMapping,
    fun cityMapping => FindFromCoordinates_ne_nil m sortSlice parseFloat cityMapping,
    fun cityMapping => FindFromPlusCode_ne_nil m sortSlice olcDecode cityMapping,
    FindNearestCitiesMem_arr_ne_none spare m sortSlice, ?_, ?_⟩
  · intro mem coords
    unfold FindFromCoordinatesMem
    split
    · simp [sliceMake]
    · exact FindNearestCitiesMem_arr_ne_none spare m sortSlice mem _ _ _
  · intro mem plusCode
    unfold FindFromPlusCodeMem
    simp only []
    split
    · simp [sliceMake]
    · split
      · simp [sliceMake]
      · exact FindNearestCitiesMem_arr_ne_none spare m sortSlice mem _ _ _

/-! ## Exact matches are partial matches -/

theorem Join_cons_cons (e e2 : GoString) (es : List GoString) (sep : GoString) :
    Join (e :: e2 :: es) sep = e ++ sep ++ Join (e2 :: es) sep := rfl

/-- Every element is a contiguous part of the joined string. -/
theorem infix_Join_of_mem {f : GoString} {fs : List GoString} (sep : GoString) (h : f ∈ fs) :
    f <:+: Join fs sep := by
  induction fs with
  | nil => cases h
  | cons e es ih =>
    cases es with
    | nil =>
      rw [List.mem_singleton] at h
      subst h
      exact List.infix_refl _
    | cons e2 es =>
      rw [Join_cons_cons, List.append_assoc]
      rcases List.mem_cons.mp h with h | h
      · subst h
        exact (List.prefix_append _ _).isInfix
      · exact (ih h).trans
          ((List.suffix_append _ _).isInfix.trans (List.suffix_append _ _).isInfix)

theorem unicodeToLower_space (lowerTable : Char → Char) :
    unicodeToLower lowerTable ' ' = ' ' := by
  simp [unicodeToLower]

/-- Lower-casing the joined fields is joining the lower-cased fields. -/
theorem ToLower_Join (lowerTable : Char → Char) (fs : List GoString) :
    ToLower lowerTable (Join fs [' ']) = Join (fs.map (ToLower lowerTable)) [' '] := by
  induction fs with
  | nil => rfl
  | cons e es ih =>
    cases es with
    | nil => rfl
    | cons e2 es =>
      rw [Join_cons_cons, List.map_cons, List.map_cons, Join_cons_cons, ← List.map_cons, ← ih]
      simp [ToLower, unicodeToLower_space]

/-- The lower-cased form of a field is a contiguous part of the lower-cased joined fields. -/
theorem ToLower_infix_Join (lowerTable : Char → Char) {f : GoString} {fs : List GoString}
    (h : f ∈ fs) : ToLower lowerTable f <:+: ToLower lowerTable (Join fs [' ']) := by
  rw [ToLower_Join]
  exact infix_Join_of_mem _ (List.mem_map_of_mem _ h)

theorem City_mem_searchFieldsOf (c : CityData) : c.City ∈ searchFieldsOf c := by
  unfold searchFieldsOf
  simp only []
  split
  · split <;> simp
  · simp

/-- A record whose lower-cased name is the lower-cased trimmed query matches the query. -/
theorem findPartialMatch_of_city_eq (lowerTable : Char → Char) (c : CityData)
    (name : GoString) (hne : TrimSpace name ≠ [])
    (heq : ToLower lowerTable c.City = ToLower lowerTable (TrimSpace name)) :
    findPartialMatch lowerTable (searchFieldsOf c) name = true := by
  rw [findPartialMatch_iff]
  refine ⟨hne, fun term hterm => ?_⟩
  have h1 : term <:+: ToLower lowerTable c.City := by
    rw [heq]
    exact (mem_Fields hterm).2.2
  exact h1.trans (ToLower_infix_Join lowerTable (City_mem_searchFieldsOf c))

/-- C25: exact matches are partial matches.  For every table and every name, every record
that `LookupViaCity(name)` returns is returned by `FindFromCityStateProvince(name)`; more
precisely the records of the first result are, in their order and with their
multiplicity, a sublist of the records of the second. -/
theorem C25_exact_matches_are_partial (lowerTable : Char → Char)
    (cityMapping : List CityData) (name : GoString) :
    (∀ c ∈ (LookupViaCity lowerTable cityMapping name).toList,
      c ∈ (FindFromCityStateProvince lowerTable cityMapping name).toList) ∧
    List.Sublist (LookupViaCity lowerTable cityMapping name).toList
      (FindFromCityStateProvince lowerTable cityMapping name).toList := by
  have hsub : List.Sublist (LookupViaCity lowerTable cityMapping name).toList
      (FindFromCityStateProvince lowerTable cityMapping name).toList := by
    rw [LookupViaCity_toList, FindFromCityStateProvince_toList]
    by_cases hne : TrimSpace name = []
    · rw [if_pos hne]
      exact List.nil_sublist _
    · rw [if_neg hne]
      apply List.monotone_filter_right
      intro c hc
      exact findPartialMatch_of_city_eq lowerTable c name hne (of_decide_eq_true hc)
  exact ⟨fun c hc => hsub.subset hc, hsub⟩

/-! ## Terms and field boundaries -/

/-- A non-empty string without a space that is a contiguous part of the joined fields is a
contiguous part of one of the fields. -/
theorem infix_Join_space {x : GoString} (hne : x ≠ []) (hsp : ' ' ∉ x) :
    ∀ fs : List GoString, x <:+: Join fs [' '] → ∃ f ∈ fs, x <:+: f := by
  intro fs
  induction fs with
  | nil =>
    intro h
    exact absurd (List.infix_nil.mp h) hne
  | cons e es ih =>
    cases es with
    | nil =>
      intro h
      exact ⟨e, List.mem_singleton.mpr rfl, h⟩
    | cons e2 es =>
      intro h
      rw [Join_cons_cons, List.append_assoc, List.singleton_append] at h
      rcases infix_of_infix_append_cons h hsp with h | h
      · exact ⟨e, List.mem_cons_self _ _, h⟩
      · obtain ⟨f, hf, hx⟩ := ih h
        exact ⟨f, List.mem_cons_of_mem _ hf, hx⟩

/-- A term without white space is a contiguous part of the lower-cased joined fields exactly
when it is a contiguous part of the lower-cased form of one field. -/
theorem infix_ToLower_Join_iff (lowerTable : Char → Char) (fs : List GoString)
    {term : GoString} (hne : term ≠ []) (hsp : ∀ c ∈ term, isSpace c = false) :
    term <:+: ToLower lowerTable (Join fs [' ']) ↔
      ∃ f ∈ fs, term <:+: ToLower lowerTable f := by
  constructor
  · intro h
    rw [ToLower_Join] at h
    have hno : ' ' ∉ term := fun hmem => by
      have := hsp ' ' hmem
      simp [isSpace] at this
    obtain ⟨f, hf, hx⟩ := infix_Join_space hne hno _ h
    obtain ⟨g, hg, rfl⟩ := List.mem_map.mp hf
    exact ⟨g, hg, hx⟩
  · rintro ⟨f, hf, hx⟩
    exact hx.trans (ToLower_infix_Join lowerTable hf)

/-- The code of `findPartialMatch` decides the field-by-field condition on the terms that it
computes. -/
theorem findPartialMatch_eq_within (lowerTable : Char → Char) (searchFields : List GoString)
    (searchString : GoString) :
    findPartialMatch lowerTable searchFields searchString =
      (decide (TrimSpace searchString ≠ []) &&
        matchesWithinFields lowerTable searchFields
          (Fields (ToLower lowerTable (TrimSpace searchString)))) := by
  rw [Bool.eq_iff_iff, findPartialMatch_iff]
  simp only [Bool.and_eq_true, decide_eq_true_eq, matchesWithinFields, List.all_eq_true,
    List.any_eq_true, Contains_iff]
  constructor
  · rintro ⟨h1, h2⟩
    refine ⟨h1, fun term hterm => ?_⟩
    have hm := mem_Fields hterm
    exact (infix_ToLower_Join_iff lowerTable searchFields hm.1 hm.2.1).mp (h2 term hterm)
  · rintro ⟨h1, h2⟩
    refine ⟨h1, fun term hterm => ?_⟩
    have hm := mem_Fields hterm
    exact (infix_ToLower_Join_iff lowerTable searchFields hm.1 hm.2.1).mpr (h2 term hterm)

theorem fieldsLoop_map (f : Char → Char) (s : GoString)
    (h : ∀ c ∈ s, isSpace (f c) = isSpace c) :
    ∀ cur : GoString, fieldsLoop (cur.map f) (s.map f) = (fieldsLoop cur s).map (List.map f) := by
  induction s with
  | nil =>
    intro cur
    by_cases hc : cur = []
    · simp [fieldsLoop, hc]
    · simp [fieldsLoop, hc]
  | cons c cs ih =>
    intro cur
    have hc := h c (List.mem_cons_self _ _)
    have ih2 := ih (fun d hd => h d (List.mem_cons_of_mem _ hd))
    rw [List.map_cons]
    unfold fieldsLoop
    rw [hc]
    by_cases hsp : isSpace c = true
    · rw [if_pos hsp, if_pos hsp]
      have h0 := ih2 []
      rw [List.map_nil] at h0
      by_cases hcur : cur = []
      · simp [hcur, h0]
      · simp [hcur, h0]
    · rw [if_neg hsp, if_neg hsp]
      have h1 := ih2 (cur ++ [c])
      rw [List.map_append, List.map_singleton] at h1
      exact h1

/-- Splitting into fields commutes with a rune mapping that keeps white space white space and
everything else not. -/
theorem Fields_map (f : Char → Char) (s : GoString)
    (h : ∀ c ∈ s, isSpace (f c) = isSpace c) :
    Fields (s.map f) = (Fields s).map (List.map f) :=
  fieldsLoop_map f s h []

/-- The terms that `findPartialMatch` computes are the lower-cased terms of the trimmed query,
when lower-casing does not change which runes of the query are white space. -/
theorem Fields_ToLower_TrimSpace (lowerTable : Char → Char) (s : GoString)
    (h : ∀ c ∈ s, isSpace (unicodeToLower lowerTable c) = isSpace c) :
    Fields (ToLower lowerTable (TrimSpace s)) =
      (Fields (TrimSpace s)).map (ToLower lowerTable) :=
  Fields_map _ _ (fun c hc => h c ((TrimSpace_infix_self s).subset hc))

/-- C24: a search term never matches across a field boundary.  `findPartialMatch(fields,
query)` is true exactly when the trimmed query is non-empty and every term that the code
computes (a field of the lower-cased trimmed query) is a substring of the lower-cased form
of at least one individual field.  When lower-casing does not change which runes of the
query are white space, as is the case for Unicode, these terms are the lower-cased terms of
the trimmed query, and the code agrees with the description `findPartialMatchByField`. -/
theorem C24_findPartialMatch_by_field (lowerTable : Char → Char)
    (searchFields : List GoString) (searchString : GoString) :
    (findPartialMatch lowerTable searchFields searchString = true ↔
      TrimSpace searchString ≠ [] ∧
      ∀ term ∈ Fields (ToLower lowerTable (TrimSpace searchString)),
        ∃ field ∈ searchFields, term <:+: ToLower lowerTable field) ∧
    ((∀ c ∈ searchString, isSpace (unicodeToLower lowerTable c) = isSpace c) →
      findPartialMatch lowerTable searchFields searchString =
        findPartialMatchByField lowerTable searchFields searchString) := by
  constructor
  · rw [findPartialMatch_eq_within]
    simp only [Bool.and_eq_true, decide_eq_true_eq, matchesWithinFields, List.all_eq_true,
      List.any_eq_true, Contains_iff]
  · intro h
    rw [findPartialMatch_eq_within, findPartialMatchByField,
      Fields_ToLower_TrimSpace lowerTable searchString h]

/-- C24 on the fields `New York`, `NY`: the query `york ny` matches, a term spanning the
boundary (`k n` is two terms, `kny` is none of a field) does not; and the code agrees with
the description on these queries. -/
theorem C24_findPartialMatch_by_field_witness :
    (∀ c ∈ " York  ny ".toList, isSpace (unicodeToLower asciiCaseTable c) = isSpace c) ∧
    findPartialMatch asciiCaseTable ["New York".toList, "NY".toList] " York  ny ".toList =
      findPartialMatchByField asciiCaseTable ["New York".toList, "NY".toList]
        " York  ny ".toList ∧
    findPartialMatch asciiCaseTable ["New York".toList, "NY".toList] " York  ny ".toList =
      true ∧
    findPartialMatch asciiCaseTable ["New York".toList, "NY".toList] "kny".toList = false ∧
    findPartialMatchByField asciiCaseTable ["New York".toList, "NY".toList] "kny".toList =
      false :=
  ⟨by decide,
    (C24_findPartialMatch_by_field asciiCaseTable ["New York".toList, "NY".toList]
      " York  ny ".toList).2 (by decide),
    by decide, by decide, by decide⟩

/-! ## Queries of several terms -/

theorem fieldsLoop_append_space {c : Char} (hc : isSpace c = true) (b : GoString) :
    ∀ (a cur : GoString),
      fieldsLoop cur (a ++ c :: b) = fieldsLoop cur a ++ Fields b := by
  intro a
  induction a with
  | nil =>
    intro cur
    rw [List.nil_append]
    unfold fieldsLoop Fields
    rw [if_pos hc]
    by_cases hcur : cur = []
    · simp [hcur]
    · simp [hcur]
  | cons d a ih =>
    intro cur
    rw [List.cons_append]
    by_cases hd : isSpace d = true
    · unfold fieldsLoop
      rw [if_pos hd, if_pos hd, ih []]
      by_cases hcur : cur = []
      · simp [hcur]
      · simp [hcur]
    · unfold fieldsLoop
      rw [if_neg hd, if_neg hd, ih (cur ++ [d])]

/-- The fields of two strings with white space between them are the fields of the first
followed by the fields of the second. -/
theorem Fields_append_space {c : Char} (hc : isSpace c = true) (a b : GoString) :
    Fields (a ++ c :: b) = Fields a ++ Fields b :=
  fieldsLoop_append_space hc b a []

theorem Fields_of_blank {w : GoString} (h : ∀ c ∈ w, isSpace c = true) : Fields w = [] := by
  induction w with
  | nil => rfl
  | cons c w ih =>
    have hc := h c (List.mem_cons_self _ _)
    have := Fields_append_space hc [] w
    rw [List.nil_append] at this
    rw [this, ih (fun d hd => h d (List.mem_cons_of_mem _ hd))]
    rfl

theorem Fields_blank_append {w : GoString} (h : ∀ c ∈ w, isSpace c = true) (s : GoString) :
    Fields (w ++ s) = Fields s := by
  induction w with
  | nil => rfl
  | cons c w ih =>
    have hc := h c (List.mem_cons_self _ _)
    have := Fields_append_space hc [] (w ++ s)
    rw [List.nil_append] at this
    rw [List.cons_append, this, ih (fun d hd => h d (List.mem_cons_of_mem _ hd))]
    rfl

theorem Fields_append_blank {w : GoString} (h : ∀ c ∈ w, isSpace c = true) (s : GoString) :
    Fields (s ++ w) = Fields s := by
  cases w with
  | nil => rw [List.append_nil]
  | cons c w =>
    rw [Fields_append_space (h c (List.mem_cons_self _ _)),
      Fields_of_blank (fun d hd => h d (List.mem_cons_of_mem _ hd)), List.append_nil]

/-- A string is its trimmed form between two runs of white space. -/
theorem TrimSpace_decompose (s : GoString) :
    ∃ w1 w2 : GoString, (∀ c ∈ w1, isSpace c = true) ∧ (∀ c ∈ w2, isSpace c = true) ∧
      s = w1 ++ TrimSpace s ++ w2 := by
  refine ⟨s.takeWhile isSpace, ((s.dropWhile isSpace).reverse.takeWhile isSpace).reverse,
    fun c hc => (List.mem_takeWhile_imp hc), fun c hc => ?_, ?_⟩
  · exact List.mem_takeWhile_imp (List.mem_reverse.mp hc)
  · unfold TrimSpace
    rw [List.append_assoc, ← List.reverse_append, List.takeWhile_append_dropWhile,
      List.reverse_reverse, List.takeWhile_append_dropWhile]

/-- Trimming does not change the fields. -/
theorem Fields_TrimSpace (s : GoString) : Fields (TrimSpace s) = Fields s := by
  obtain ⟨w1, w2, h1, h2, hs⟩ := TrimSpace_decompose s
  conv_rhs => rw [hs]
  rw [Fields_append_blank h2, Fields_blank_append h1]

theorem Fields_ne_nil_of_exists {s : GoString} (h : ∃ c ∈ s, isSpace c = false) :
    Fields s ≠ [] := by
  obtain ⟨c, hc, hsp⟩ := h
  obtain ⟨a, b, rfl⟩ := List.mem_iff_append.mp hc
  have hinf : [c] <:+: a ++ c :: b := ⟨a, b, by simp⟩
  obtain ⟨f, hf, _⟩ := exists_mem_Fields (x := [c]) (by simp)
    (fun d hd => by rw [List.mem_singleton.mp hd]; exact hsp) hinf
  exact List.ne_nil_of_mem hf

/-- A string with a rune that is not white space has a non-empty trimmed form. -/
theorem TrimSpace_ne_nil_of_exists {s : GoString} (h : ∃ c ∈ s, isSpace c = false) :
    TrimSpace s ≠ [] := by
  intro hnil
  have := Fields_TrimSpace s
  rw [hnil] at this
  exact Fields_ne_nil_of_exists h this.symm

/-- The terms that `findPartialMatch` computes, when lower-casing does not change which runes
of the query are white space: the lower-cased fields of the query. -/
theorem searchTerms_eq (lowerTable : Char → Char) (s : GoString)
    (h : ∀ c ∈ s, isSpace (unicodeToLower lowerTable c) = isSpace c) :
    Fields (ToLower lowerTable (TrimSpace s)) = (Fields s).map (ToLower lowerTable) := by
  rw [Fields_ToLower_TrimSpace lowerTable s h, Fields_TrimSpace]

/-- A record matches `q1 + " " + q2` exactly when it matches `q1` and matches `q2`. -/
theorem findPartialMatch_append (lowerTable : Char → Char) (searchFields : List GoString)
    (q1 q2 : GoString) (hq1 : ∃ c ∈ q1, isSpace c = false) (hq2 : ∃ c ∈ q2, isSpace c = false)
    (hl : ∀ c ∈ q1 ++ q2, isSpace (unicodeToLower lowerTable c) = isSpace c) :
    findPartialMatch lowerTable searchFields (q1 ++ " ".toList ++ q2) =
      (findPartialMatch lowerTable searchFields q1 &&
        findPartialMatch lowerTable searchFields q2) := by
  have hl1 : ∀ c ∈ q1, isSpace (unicodeToLower lowerTable c) = isSpace c :=
    fun c hc => hl c (List.mem_append_left _ hc)
  have hl2 : ∀ c ∈ q2, isSpace (unicodeToLower lowerTable c) = isSpace c :=
    fun c hc => hl c (List.mem_append_right _ hc)
  have hform : q1 ++ " ".toList ++ q2 = q1 ++ ' ' :: q2 := by simp
  have hsp : isSpace ' ' = true := by decide
  have hl12 : ∀ c ∈ q1 ++ ' ' :: q2, isSpace (unicodeToLower lowerTable c) = isSpace c := by
    intro c hc
    rcases List.mem_append.mp hc with hc | hc
    · exact hl1 c hc
    · rcases List.mem_cons.mp hc with hc | hc
      · rw [hc, unicodeToLower_space]
      · exact hl2 c hc
  have hq12 : ∃ c ∈ q1 ++ ' ' :: q2, isSpace c = false := by
    obtain ⟨c, hc, h⟩ := hq1
    exact ⟨c, List.mem_append_left _ hc, h⟩
  rw [hform, findPartialMatch_eq_within, findPartialMatch_eq_within,
    findPartialMatch_eq_within, searchTerms_eq lowerTable _ hl12, searchTerms_eq lowerTable _ hl1,
    searchTerms_eq lowerTable _ hl2, Fields_append_space hsp]
  simp [matchesWithinFields, TrimSpace_ne_nil_of_exists hq1, TrimSpace_ne_nil_of_exists hq2,
    TrimSpace_ne_nil_of_exists hq12, List.all_append]

/-- C23: a query of several terms is an intersection.  For queries `q1` and `q2` that each
hold a rune that is not white space (and whose runes lower-casing leaves white space or not
white space as they are, which is so for Unicode), `FindFromCityStateProvince(q1 + " " +
q2)` returns the records of the table, in table order, that both
`FindFromCityStateProvince(q1)` and `FindFromCityStateProvince(q2)` return.  Hence the
result is the same for `q2 + " " + q1`, and repeating a query changes nothing. -/
theorem C23_multi_term_intersection (lowerTable : Char → Char) (cityMapping : List CityData)
    (q1 q2 : GoString) (hq1 : ∃ c ∈ q1, isSpace c = false) (hq2 : ∃ c ∈ q2, isSpace c = false)
    (hl : ∀ c ∈ q1 ++ q2, isSpace (unicodeToLower lowerTable c) = isSpace c) :
    (FindFromCityStateProvince lowerTable cityMapping (q1 ++ " ".toList ++ q2)).toList =
      cityMapping.filter (fun c =>
        decide (c ∈ (FindFromCityStateProvince lowerTable cityMapping q1).toList ∧
          c ∈ (FindFromCityStateProvince lowerTable cityMapping q2).toList)) ∧
    (FindFromCityStateProvince lowerTable cityMapping (q1 ++ " ".toList ++ q2)).toList =
      (FindFromCityStateProvince lowerTable cityMapping (q2 ++ " ".toList ++ q1)).toList ∧
    (FindFromCityStateProvince lowerTable cityMapping (q1 ++ " ".toList ++ q1)).toList =
      (FindFromCityStateProvince lowerTable cityMapping q1).toList := by
  have hl21 : ∀ c ∈ q2 ++ q1, isSpace (unicodeToLower lowerTable c) = isSpace c :=
    fun c hc => hl c (List.mem_append.mpr (List.mem_append.mp hc).symm)
  have hl11 : ∀ c ∈ q1 ++ q1, isSpace (unicodeToLower lowerTable c) = isSpace c :=
    fun c hc => hl c (List.mem_append_left _ ((List.mem_append.mp hc).elim id id))
  simp only [FindFromCityStateProvince_toList]
  refine ⟨?_, ?_, ?_⟩
  · apply List.filter_congr
    intro c hc
    rw [findPartialMatch_append lowerTable _ q1 q2 hq1 hq2 hl]
    simp [List.mem_filter, hc]
  · apply List.filter_congr
    intro c _
    rw [findPartialMatch_append lowerTable _ q1 q2 hq1 hq2 hl,
      findPartialMatch_append lowerTable _ q2 q1 hq2 hq1 hl21, Bool.and_comm]
  · apply List.filter_congr
    intro c _
    rw [findPartialMatch_append lowerTable _ q1 q1 hq1 hq1 hl11, Bool.and_self]

/-- C23 at the queries `Springfield` and `mo` over two Springfields and a Columbia: the
query `Springfield mo` returns the one record that both queries return. -/
theorem C23_multi_term_intersection_witness :
    (∃ c ∈ "Springfield".toList, isSpace c = false) ∧
    (∃ c ∈ "mo".toList, isSpace c = false) ∧
    (∀ c ∈ "Springfield".toList ++ "mo".toList,
      isSpace (unicodeToLower asciiCaseTable c) = isSpace c) ∧
    (FindFromCityStateProvince asciiCaseTable
        [mkCity "Springfield".toList (Any.str "MO".toList) "Missouri".toList
          "United States of America".toList (Any.str "US".toList) (Any.str "USA".toList),
         mkCity "Springfield".toList (Any.str "IL".toList) "Illinois".toList
          "United States of America".toList (Any.str "US".toList) (Any.str "USA".toList),
         mkCity "Columbia".toList (Any.str "MO".toList) "Missouri".toList
          "United States of America".toList (Any.str "US".toList) (Any.str "USA".toList)]
        ("Springfield".toList ++ " ".toList ++ "mo".toList)).toList =
      [mkCity "Springfield".toList (Any.str "MO".toList) "Missouri".toList
        "United States of America".toList (Any.str "US".toList) (Any.str "USA".toList)] :=
  ⟨⟨'S', by decide, by decide⟩, ⟨'m', by decide, by decide⟩, by decide,
    ((C23_multi_term_intersection asciiCaseTable
      [mkCity "Springfield".toList (Any.str "MO".toList) "Missouri".toList
        "United States of America".toList (Any.str "US".toList) (Any.str "USA".toList),
       mkCity "Springfield".toList (Any.str "IL".toList) "Illinois".toList
        "United States of America".toList (Any.str "US".toList) (Any.str "USA".toList),
       mkCity "Columbia".toList (Any.str "MO".toList) "Missouri".toList
        "United States of America".toList (Any.str "US".toList) (Any.str "USA".toList)]
      "Springfield".toList "mo".toList ⟨'S', by decide, by decide⟩
      ⟨'m', by decide, by decide⟩ (by decide)).1).trans (by decide)⟩

/-! ## Goroutines: what a step reads and writes -/

theorem headerValid_of_frame {α : Type} (h h2 : Heap α) (s : SliceHeader)
    (hv : headerValid h s) (hlen : h.length ≤ h2.length)
    (hsame : ∀ a, s.arr = some a → h2.getD a [] = h.getD a []) : headerValid h2 s := by
  refine ⟨hv.1, hv.2.1, fun a ha => ?_⟩
  obtain ⟨h1, h2'⟩ := hv.2.2 a ha
  rw [hsame a ha]
  exact ⟨Nat.lt_of_lt_of_le h1 hlen, h2'⟩

theorem sliceElems_of_frame {α : Type} (h h2 : Heap α) (s : SliceHeader)
    (hsame : ∀ a, s.arr = some a → h2.getD a [] = h.getD a []) :
    sliceElems h2 s = sliceElems h s := by
  unfold sliceElems
  cases harr : s.arr with
  | none => rfl
  | some a => simp only [hsame a harr]

/-- What `append` touches: it leaves every array but the one of its argument as it is, and
the slice it returns is in the array of its argument or in a new one. -/
theorem sliceAppend_footprint {α : Type} (zero : α) (spare : Nat → Nat) (h : Heap α)
    (dst : SliceHeader) (x : α) :
    h.length ≤ (sliceAppend zero spare h dst x).2.length ∧
    (∀ a, a < h.length → dst.arr ≠ some a →
      (sliceAppend zero spare h dst x).2.getD a [] = h.getD a []) ∧
    (∀ a, (sliceAppend zero spare h dst x).1.arr = some a →
      dst.arr = some a ∨ h.length ≤ a) := by
  unfold sliceAppend
  cases harr : dst.arr with
  | none =>
    simp only []
    refine ⟨by simp, fun a ha _ => heap_getD_append h _ ha, fun a ha => ?_⟩
    simp only [Option.some.injEq] at ha
    exact Or.inr (by omega)
  | some a0 =>
    simp only []
    split
    · refine ⟨by simp, fun a _ hne => ?_, fun a ha => Or.inl ha⟩
      exact heap_getD_set_ne h _ (fun heq => hne (by rw [heq]))
    · refine ⟨by simp, fun a ha _ => heap_getD_append h _ ha, fun a ha => ?_⟩
      simp only [Option.some.injEq] at ha
      exact Or.inr (by omega)

theorem sortInPlace_footprint
    (sortSlice : (CityDistance → CityDistance → Bool) → List CityDistance → List CityDistance)
    (less : CityDistance → CityDistance → Bool) (h : Heap CityDistance) (s : SliceHeader) :
    (sortInPlace sortSlice less h s).length = h.length ∧
    (∀ a, s.arr ≠ some a → (sortInPlace sortSlice less h s).getD a [] = h.getD a []) := by
  unfold sortInPlace
  cases harr : s.arr with
  | none => exact ⟨rfl, fun _ _ => rfl⟩
  | some a0 =>
    simp only []
    refine ⟨by simp, fun a hne => ?_⟩
    exact heap_getD_set_ne h _ (fun heq => hne (by rw [heq]))

theorem sliceMake_footprint {α : Type} (zero : α) (h : Heap α) (n : Nat) :
    (sliceMake zero h n).2.length = h.length + 1 ∧
    (∀ a, a < h.length → (sliceMake zero h n).2.getD a [] = h.getD a []) ∧
    (sliceMake zero h n).1.arr = some h.length := by
  refine ⟨by simp [sliceMake], fun a ha => heap_getD_append h _ ha, rfl⟩

/-- What a step touches.  The package variable stays; arrays are added, never removed; an
array that the goroutine does not hold in its own slice variable stays as it is; and the
slices that the goroutine holds afterwards are in the arrays it held, in new arrays, or
the table. -/
theorem Goroutine.step_footprint (spare : Nat → Nat) (lowerTable : Char → Char) (m : Math)
    (sortSlice : (CityDistance → CityDistance → Bool) → List CityDistance → List CityDistance)
    (mem : Memory) (g : Goroutine) :
    (g.step spare lowerTable m sortSlice mem).1.cityMapping = mem.cityMapping ∧
    mem.cities.length ≤ (g.step spare lowerTable m sortSlice mem).1.cities.length ∧
    mem.distances.length ≤ (g.step spare lowerTable m sortSlice mem).1.distances.length ∧
    (∀ a, a < mem.cities.length → g.cityHeader.arr ≠ some a →
      (g.step spare lowerTable m sortSlice mem).1.cities.getD a [] = mem.cities.getD a []) ∧
    (∀ a, a < mem.distances.length → g.distHeader.arr ≠ some a →
      (g.step spare lowerTable m sortSlice mem).1.distances.getD a [] =
        mem.distances.getD a []) ∧
    (∀ a, (g.step spare lowerTable m sortSlice mem).2.cityHeader.arr = some a →
      g.cityHeader.arr = some a ∨ mem.cities.length ≤ a ∨ mem.cityMapping.arr = some a) ∧
    (∀ a, (g.step spare lowerTable m sortSlice mem).2.distHeader.arr = some a →
      g.distHeader.arr = some a ∨ mem.distances.length ≤ a) := by
  have hnil : ∀ (P : Prop) (a : Nat), (⟨none, 0, 0⟩ : SliceHeader).arr = some a → P :=
    fun P a ha => by cases ha
  cases g with
  | called call =>
    cases call with
    | lookupViaCity city =>
      simp only [Goroutine.step, Call.enter]
      split
      · exact ⟨rfl, Nat.le_refl _, Nat.le_refl _, fun _ _ _ => rfl, fun _ _ _ => rfl,
          fun a ha => hnil _ a ha, fun a ha => hnil _ a ha⟩
      · exact ⟨rfl, Nat.le_refl _, Nat.le_refl _, fun _ _ _ => rfl, fun _ _ _ => rfl,
          fun a ha => hnil _ a ha, fun a ha => hnil _ a ha⟩
    | findFromIsoCode isoCode =>
      simp only [Goroutine.step, Call.enter]
      obtain ⟨f1, f2, f3⟩ := sliceMake_footprint CityData.zero mem.cities 0
      split
      · refine ⟨rfl, by rw [f1]; omega, Nat.le_refl _, fun a ha _ => f2 a ha,
          fun _ _ _ => rfl, fun a ha => ?_, fun a ha => hnil _ a ha⟩
        simp only [Goroutine.cityHeader] at ha
        rw [f3] at ha
        simp only [Option.some.injEq] at ha
        exact Or.inr (Or.inl (by omega))
      · exact ⟨rfl, Nat.le_refl _, Nat.le_refl _, fun _ _ _ => rfl, fun _ _ _ => rfl,
          fun a ha => hnil _ a ha, fun a ha => hnil _ a ha⟩
    | findNearestCities lat lng radiusKm =>
      exact ⟨rfl, Nat.le_refl _, Nat.le_refl _, fun _ _ _ => rfl, fun _ _ _ => rfl,
          fun a ha => hnil _ a ha, fun a ha => hnil _ a ha⟩
    | getCityMapping =>
      exact ⟨rfl, Nat.le_refl _, Nat.le_refl _, fun _ _ _ => rfl, fun _ _ _ => rfl,
          fun a ha => Or.inr (Or.inr ha), fun a ha => hnil _ a ha⟩
  | filtering f src i results =>
    simp only [Goroutine.step]
    split
    · split
      · exact ⟨rfl, Nat.le_refl _, Nat.le_refl _, fun _ _ _ => rfl, fun _ _ _ => rfl,
          fun a ha => Or.inl ha, fun a ha => hnil _ a ha⟩
      · split
        · rename_i y _
          obtain ⟨f1, f2, f3⟩ := sliceAppend_footprint CityData.zero spare mem.cities results y
          exact ⟨rfl, f1, Nat.le_refl _, fun a ha hne => f2 a ha hne, fun _ _ _ => rfl,
            fun a ha => (f3 a ha).elim Or.inl (fun h => Or.inr (Or.inl h)),
            fun a ha => hnil _ a ha⟩
        · exact ⟨rfl, Nat.le_refl _, Nat.le_refl _, fun _ _ _ => rfl, fun _ _ _ => rfl,
            fun a ha => Or.inl ha, fun a ha => hnil _ a ha⟩
    · exact ⟨rfl, Nat.le_refl _, Nat.le_refl _, fun _ _ _ => rfl, fun _ _ _ => rfl,
        fun a ha => Or.inl ha, fun a ha => hnil _ a ha⟩
  | measuring f src i results =>
    simp only [Goroutine.step]
    split
    · split
      · exact ⟨rfl, Nat.le_refl _, Nat.le_refl _, fun _ _ _ => rfl, fun _ _ _ => rfl,
          fun a ha => hnil _ a ha, fun a ha => Or.inl ha⟩
      · split
        · rename_i y _
          obtain ⟨f1, f2, f3⟩ :=
            sliceAppend_footprint CityDistance.zero spare mem.distances results y
          exact ⟨rfl, Nat.le_refl _, f1, fun _ _ _ => rfl, fun a ha hne => f2 a ha hne,
            fun a ha => hnil _ a ha, fun a ha => f3 a ha⟩
        · exact ⟨rfl, Nat.le_refl _, Nat.le_refl _, fun _ _ _ => rfl, fun _ _ _ => rfl,
            fun a ha => hnil _ a ha, fun a ha => Or.inl ha⟩
    · exact ⟨rfl, Nat.le_refl _, Nat.le_refl _, fun _ _ _ => rfl, fun _ _ _ => rfl,
        fun a ha => hnil _ a ha, fun a ha => Or.inl ha⟩
  | sorting results =>
    obtain ⟨f1, f2⟩ := sortInPlace_footprint sortSlice distanceLess mem.distances results
    exact ⟨rfl, Nat.le_refl _, Nat.le_of_eq f1.symm, fun _ _ _ => rfl,
      fun a _ hne => f2 a hne, fun a ha => hnil _ a ha, fun a ha => Or.inl ha⟩
  | making results =>
    obtain ⟨f1, f2, f3⟩ := sliceMake_footprint CityData.zero mem.cities results.len
    refine ⟨rfl, by simp only [Goroutine.step]; rw [f1]; omega, Nat.le_refl _,
      fun a ha _ => f2 a ha, fun _ _ _ => rfl, fun a ha => ?_, fun a ha => Or.inl ha⟩
    simp only [Goroutine.step, Goroutine.cityHeader] at ha
    rw [f3] at ha
    simp only [Option.some.injEq] at ha
    exact Or.inr (Or.inl (by omega))
  | copying results i cities =>
    simp only [Goroutine.step]
    split
    · split
      · exact ⟨rfl, Nat.le_refl _, Nat.le_refl _, fun _ _ _ => rfl, fun _ _ _ => rfl,
          fun a ha => Or.inl ha, fun a ha => hnil _ a ha⟩
      · rename_i result _
        obtain ⟨f1, f2, f3⟩ :=
          sliceAppend_footprint CityData.zero spare mem.cities cities result.toCityData
        exact ⟨rfl, f1, Nat.le_refl _, fun a ha hne => f2 a ha hne, fun _ _ _ => rfl,
          fun a ha => (f3 a ha).elim Or.inl (fun h => Or.inr (Or.inl h)),
          fun a ha => Or.inl ha⟩
    · exact ⟨rfl, Nat.le_refl _, Nat.le_refl _, fun _ _ _ => rfl, fun _ _ _ => rfl,
        fun a ha => Or.inl ha, fun a ha => hnil _ a ha⟩
  | returned result =>
    exact ⟨rfl, Nat.le_refl _, Nat.le_refl _, fun _ _ _ => rfl, fun _ _ _ => rfl,
      fun a ha => Or.inl ha, fun a ha => Or.inl ha⟩

/-- A goroutine in order keeps its slices in order when the memory changes elsewhere. -/
theorem Goroutine.ok_of_frame (lowerTable : Char → Char) (m : Math)
    (sortSlice : (CityDistance → CityDistance → Bool) → List CityDistance → List CityDistance)
    (hdr : SliceHeader) (T : List CityData) (call : Call) (mem mem2 : Memory) (g : Goroutine)
    (hok : g.ok lowerTable m sortSlice hdr T call mem)
    (hc : mem.cities.length ≤ mem2.cities.length)
    (hd : mem.distances.length ≤ mem2.distances.length)
    (hcs : ∀ a, g.cityHeader.arr = some a → mem2.cities.getD a [] = mem.cities.getD a [])
    (hds : ∀ a, g.distHeader.arr = some a →
      mem2.distances.getD a [] = mem.distances.getD a []) :
    g.ok lowerTable m sortSlice hdr T call mem2 := by
  obtain ⟨h1, h2, h3⟩ := hok
  refine ⟨headerValid_of_frame _ _ _ h1 hc hcs, headerValid_of_frame _ _ _ h2 hd hds, ?_⟩
  rw [sliceElems_of_frame _ _ _ hcs, sliceElems_of_frame _ _ _ hds]
  exact h3

/-- The slice that a goroutine in order holds is not the table, unless the goroutine has
returned. -/
theorem Goroutine.ok_notTable (lowerTable : Char → Char) (m : Math)
    (sortSlice : (CityDistance → CityDistance → Bool) → List CityDistance → List CityDistance)
    (hdr : SliceHeader) (T : List CityData) (call : Call) (mem : Memory) (g : Goroutine)
    (hok : g.ok lowerTable m sortSlice hdr T call mem)
    (hrun : ∀ result, g ≠ Goroutine.returned result) :
    ∀ a, g.cityHeader.arr = some a → hdr.arr ≠ some a := by
  intro a ha
  cases g with
  | called c => cases ha
  | filtering f src i results => exact hok.2.2.2.2.1 a ha
  | measuring f src i results => cases ha
  | sorting results => cases ha
  | making results => cases ha
  | copying results i cities => exact hok.2.2.1 a ha
  | returned result => exact absurd rfl (hrun result)

theorem Goroutine.step_returned (spare : Nat → Nat) (lowerTable : Char → Char) (m : Math)
    (sortSlice : (CityDistance → CityDistance → Bool) → List CityDistance → List CityDistance)
    (mem : Memory) (result : SliceHeader) :
    (Goroutine.returned result).step spare lowerTable m sortSlice mem =
      (mem, Goroutine.returned result) := rfl

/-- Every step of a goroutine that has not returned brings it nearer to its return. -/
theorem Goroutine.stepsLeft_step (spare : Nat → Nat) (lowerTable : Char → Char) (m : Math)
    (sortSlice : (CityDistance → CityDistance → Bool) → List CityDistance → List CityDistance)
    (mem : Memory) (g : Goroutine) :
    (g.step spare lowerTable m sortSlice mem).2.stepsLeft mem.cityMapping.len + 1 ≤
        g.stepsLeft mem.cityMapping.len ∨
      ∃ result, g = Goroutine.returned result := by
  cases g with
  | called call =>
    left
    cases call with
    | lookupViaCity city =>
      simp only [Goroutine.step, Call.enter]
      split <;> simp only [Goroutine.stepsLeft] <;> omega
    | findFromIsoCode isoCode =>
      simp only [Goroutine.step, Call.enter]
      split <;> simp only [Goroutine.stepsLeft] <;> omega
    | findNearestCities lat lng radiusKm =>
      simp only [Goroutine.step, Call.enter, Goroutine.stepsLeft]
      omega
    | getCityMapping =>
      simp only [Goroutine.step, Call.enter, Goroutine.stepsLeft]
      omega
  | filtering f src i results =>
    left
    simp only [Goroutine.step]
    split
    · split
      · simp only [Goroutine.stepsLeft]; omega
      · split <;> simp only [Goroutine.stepsLeft] <;> omega
    · simp only [Goroutine.stepsLeft]; omega
  | measuring f src i results =>
    left
    simp only [Goroutine.step]
    split
    · split
      · simp only [Goroutine.stepsLeft]; omega
      · split
        · rename_i y _
          have hl : (sliceAppend CityDistance.zero spare mem.distances results y).1.len =
              results.len + 1 := by
            unfold sliceAppend
            cases results.arr with
            | none => rfl
            | some a =>
              simp only []
              split <;> rfl
          simp only [Goroutine.stepsLeft, hl]
          omega
        · simp only [Goroutine.stepsLeft]; omega
    · simp only [Goroutine.stepsLeft]; omega
  | sorting results =>
    left
    simp only [Goroutine.step, Goroutine.stepsLeft]
    omega
  | making results =>
    left
    simp only [Goroutine.step, Goroutine.stepsLeft]
    omega
  | copying results i cities =>
    left
    simp only [Goroutine.step]
    split
    · split <;> simp only [Goroutine.stepsLeft] <;> omega
    · simp only [Goroutine.stepsLeft]; omega
  | returned result => exact Or.inr ⟨result, rfl⟩

/-! ## Goroutines: each step keeps the goroutine in order -/

theorem nil_headerValid {α : Type} (h : Heap α) : headerValid h (⟨none, 0, 0⟩ : SliceHeader) :=
  ⟨Nat.le_refl 0, fun _ => rfl, fun a ha => (by cases ha)⟩

theorem valueOfKept_filterMap_ite (p : CityData → Prop) [DecidablePred p] (T : List CityData) :
    valueOfKept (T.filterMap (fun c => if p c then some c else none)) =
      T.foldl (fun results c => if p c then results.append c else results) Slice.nil := by
  rw [filterMap_ite_eq_filter, foldl_append_eq]
  rfl

theorem tableIs_length {hdr : SliceHeader} {T : List CityData} {mem : Memory}
    (htab : tableIs hdr T mem) : T.length = hdr.len := by
  rw [← htab.2.2]
  exact sliceElems_length _ _ htab.2.1

theorem tableIs_index {hdr : SliceHeader} {T : List CityData} {mem : Memory}
    (htab : tableIs hdr T mem) {i : Nat} (hi : i < hdr.len) (hiT : i < T.length) :
    sliceIndex mem.cities hdr i = some T[i] := by
  rw [sliceIndex_eq _ _ _ hi, htab.2.2, List.getElem?_eq_getElem hiT]

theorem take_succ_get {α : Type} (l : List α) (i : Nat) (hi : i < l.length) :
    l.take (i + 1) = l.take i ++ [l[i]] := by
  rw [List.take_succ, List.getElem?_eq_getElem hi]
  rfl

/-- The first step of a call leaves the goroutine in order. -/
theorem Call.enter_ok (lowerTable : Char → Char) (m : Math)
    (sortSlice : (CityDistance → CityDistance → Bool) → List CityDistance → List CityDistance)
    (hdr : SliceHeader) (T : List CityData) (call : Call) (mem : Memory)
    (htab : tableIs hdr T mem) :
    (call.enter lowerTable m mem).2.ok lowerTable m sortSlice hdr T call
      (call.enter lowerTable m mem).1 := by
  have hT : mem.cityMapping = hdr := htab.1
  cases call with
  | lookupViaCity city =>
    simp only [Call.enter]
    by_cases h : TrimSpace city = []
    · rw [if_pos h]
      refine ⟨nil_headerValid _, nil_headerValid _, ?_⟩
      simp [Goroutine.inv, Goroutine.cityHeader, Call.result, LookupViaCity, h]
    · rw [if_neg h]
      refine ⟨nil_headerValid _, nil_headerValid _, hT, Nat.zero_le _, fun a ha => (by cases ha),
        rfl, Iff.intro (fun _ => rfl) (fun _ => rfl), ?_⟩
      simp only [Call.result, LookupViaCity, h, if_false]
      exact valueOfKept_filterMap_ite
        (fun c => ToLower lowerTable c.City = ToLower lowerTable (TrimSpace city)) T
  | findFromIsoCode isoCode =>
    simp only [Call.enter]
    by_cases h : TrimSpace isoCode = []
    · rw [if_pos h]
      obtain ⟨v1, v2, v3⟩ := sliceMake_valid CityData.zero mem.cities 0
      refine ⟨v1, nil_headerValid _, ?_⟩
      simp only [Goroutine.inv, Goroutine.cityHeader]
      rw [v2]
      simp [Call.result, FindFromIsoCode, h, sliceMake]
    · rw [if_neg h]
      refine ⟨nil_headerValid _, nil_headerValid _, hT, Nat.zero_le _, fun a ha => (by cases ha),
        rfl, Iff.intro (fun _ => rfl) (fun _ => rfl), ?_⟩
      simp only [Call.result, FindFromIsoCode, h, if_false]
      exact valueOfKept_filterMap_ite
        (fun c =>
          ((match c.ISO2 with
            | Any.str iso2Str =>
              decide (ToLower lowerTable iso2Str = ToLower lowerTable (TrimSpace isoCode))
            | _ => false) ||
           (match c.ISO3 with
            | Any.str iso3Str =>
              decide (ToLower lowerTable iso3Str = ToLower lowerTable (TrimSpace isoCode))
            | _ => false)) = true) T
  | findNearestCities lat lng radiusKm =>
    refine ⟨nil_headerValid _, nil_headerValid _, hT, Nat.zero_le _, rfl, ?_⟩
    simp only [Call.result]
    rw [Slice.eq_mk_toList _ (FindNearestCities_ne_nil m sortSlice T lat lng radiusKm),
      FindNearestCities_toList]
    have := filterMap_ite_eq_map_filter
      (fun c : CityData => F64.le (haversineDistance m lat lng c.Lat c.Lng) radiusKm = true)
      (fun c => (⟨c, haversineDistance m lat lng c.Lat c.Lng⟩ : CityDistance)) T
    simp only [Bool.decide_eq_true] at this
    rw [← this]
  | getCityMapping =>
    refine ⟨?_, nil_headerValid _, ?_⟩
    · simp only [Call.enter, Goroutine.cityHeader, hT]
      exact htab.2.1
    · simp only [Call.enter, Goroutine.cityHeader, Goroutine.inv, Call.result, hT, htab.2.2]

/-- The slice that a loop returns at its end, given how the loop has filled it. -/
theorem returned_of_kept {α : Type} (s : SliceHeader) (C : List α)
    (hnone : s.arr = none ↔ C = []) :
    (match s.arr with
      | none => Slice.nil
      | some _ => Slice.mk C) = valueOfKept C := by
  cases harr : s.arr with
  | none =>
    have := hnone.mp harr
    subst this
    rfl
  | some a =>
    have hne : C ≠ [] := fun h => by
      have := hnone.mpr h
      rw [harr] at this
      cases this
    cases C with
    | nil => exact absurd rfl hne
    | cons c C => rfl

/-- A step of a goroutine in one of the loops of the string queries leaves it in order. -/
theorem Goroutine.step_ok_filtering (spare : Nat → Nat) (lowerTable : Char → Char) (m : Math)
    (sortSlice : (CityDistance → CityDistance → Bool) → List CityDistance → List CityDistance)
    (hdr : SliceHeader) (T : List CityData) (call : Call) (mem : Memory)
    (htab : tableIs hdr T mem) (f : CityData → Option CityData) (src : SliceHeader) (i : Nat)
    (results : SliceHeader)
    (hok : (Goroutine.filtering f src i results).ok lowerTable m sortSlice hdr T call mem) :
    ((Goroutine.filtering f src i results).step spare lowerTable m sortSlice mem).2.ok
      lowerTable m sortSlice hdr T call
      ((Goroutine.filtering f src i results).step spare lowerTable m sortSlice mem).1 := by
  obtain ⟨hvC, hvD, hsrc, hi, hnt, hC, hnone, hexp⟩ := hok
  simp only [Goroutine.cityHeader] at hvC hC hnone
  subst hsrc
  have hlenT := tableIs_length htab
  simp only [Goroutine.step]
  by_cases hlt : i < src.len
  · have hiT : i < T.length := by rw [hlenT]; exact hlt
    rw [if_pos hlt, tableIs_index htab hlt hiT]
    simp only []
    have htake := take_succ_get T i hiT
    cases hf : f T[i] with
    | none =>
      simp only []
      refine ⟨hvC, hvD, rfl, by omega, hnt, ?_, ?_, hexp⟩
      · simp only [Goroutine.cityHeader]
        rw [hC, htake, List.filterMap_append]
        simp [hf]
      · simp only [Goroutine.cityHeader]
        exact hnone
    | some y =>
      simp only []
      obtain ⟨e1, e2, e3⟩ := sliceAppend_elems CityData.zero spare mem.cities results y hvC
      obtain ⟨_, _, f3⟩ := sliceAppend_footprint CityData.zero spare mem.cities results y
      refine ⟨e2, hvD, rfl, by omega, ?_, ?_, ?_, hexp⟩
      · intro a ha htable
        rcases f3 a ha with h | h
        · exact hnt a h htable
        · have := (htab.2.1.2.2 a htable).1
          omega
      · simp only [Goroutine.cityHeader]
        rw [e1, hC, htake, List.filterMap_append]
        simp [hf]
      · simp only [Goroutine.cityHeader]
        rw [e1]
        constructor
        · intro h
          exact absurd h e3
        · intro h
          simp at h
  · rw [if_neg hlt]
    have hi2 : T.take i = T := List.take_of_length_le (by omega)
    refine ⟨hvC, hvD, ?_⟩
    simp only [Goroutine.inv, Goroutine.cityHeader]
    rw [returned_of_kept results _ hnone, hC, hi2]
    exact hexp

/-- A step of a goroutine in the first loop of `FindNearestCities` leaves it in order. -/
theorem Goroutine.step_ok_measuring (spare : Nat → Nat) (lowerTable : Char → Char) (m : Math)
    (sortSlice : (CityDistance → CityDistance → Bool) → List CityDistance → List CityDistance)
    (hdr : SliceHeader) (T : List CityData) (call : Call) (mem : Memory)
    (htab : tableIs hdr T mem) (f : CityData → Option CityDistance) (src : SliceHeader)
    (i : Nat) (results : SliceHeader)
    (hok : (Goroutine.measuring f src i results).ok lowerTable m sortSlice hdr T call mem) :
    ((Goroutine.measuring f src i results).step spare lowerTable m sortSlice mem).2.ok
      lowerTable m sortSlice hdr T call
      ((Goroutine.measuring f src i results).step spare lowerTable m sortSlice mem).1 := by
  obtain ⟨hvC, hvD, hsrc, hi, hD, hexp⟩ := hok
  simp only [Goroutine.distHeader] at hvD hD
  subst hsrc
  have hlenT := tableIs_length htab
  simp only [Goroutine.step]
  by_cases hlt : i < src.len
  · have hiT : i < T.length := by rw [hlenT]; exact hlt
    rw [if_pos hlt, tableIs_index htab hlt hiT]
    simp only []
    have htake := take_succ_get T i hiT
    cases hf : f T[i] with
    | none =>
      simp only []
      refine ⟨hvC, hvD, rfl, by omega, ?_, hexp⟩
      simp only [Goroutine.distHeader]
      rw [hD, htake, List.filterMap_append]
      simp [hf]
    | some y =>
      simp only []
      obtain ⟨e1, e2, _⟩ :=
        sliceAppend_elems CityDistance.zero spare mem.distances results y hvD
      refine ⟨nil_headerValid _, e2, rfl, by omega, ?_, hexp⟩
      simp only [Goroutine.distHeader]
      rw [e1, hD, htake, List.filterMap_append]
      simp [hf]
  · rw [if_neg hlt]
    have hi2 : T.take i = T := List.take_of_length_le (by omega)
    refine ⟨nil_headerValid _, hvD, ?_⟩
    simp only [Goroutine.inv, Goroutine.distHeader]
    rw [hD, hi2]
    exact hexp

/-- The step that sorts leaves the goroutine in order, when sorting keeps the number of
elements. -/
theorem Goroutine.step_ok_sorting (spare : Nat → Nat) (lowerTable : Char → Char) (m : Math)
    (sortSlice : (CityDistance → CityDistance → Bool) → List CityDistance → List CityDistance)
    (hlen : ∀ l, (sortSlice distanceLess l).length = l.length)
    (hdr : SliceHeader) (T : List CityData) (call : Call) (mem : Memory)
    (results : SliceHeader)
    (hok : (Goroutine.sorting results).ok lowerTable m sortSlice hdr T call mem) :
    ((Goroutine.sorting results).step spare lowerTable m sortSlice mem).2.ok
      lowerTable m sortSlice hdr T call
      ((Goroutine.sorting results).step spare lowerTable m sortSlice mem).1 := by
  obtain ⟨hvC, hvD, hexp⟩ := hok
  simp only [Goroutine.distHeader] at hvD
  simp only [Goroutine.inv, Goroutine.distHeader] at hexp
  obtain ⟨es, vs⟩ := sortInPlace_elems sortSlice distanceLess hlen mem.distances results hvD
  refine ⟨nil_headerValid _, vs, ?_⟩
  simp only [Goroutine.step, Goroutine.inv, Goroutine.distHeader]
  rw [es]
  exact hexp

/-- The step that makes the result slice leaves the goroutine in order. -/
theorem Goroutine.step_ok_making (spare : Nat → Nat) (lowerTable : Char → Char) (m : Math)
    (sortSlice : (CityDistance → CityDistance → Bool) → List CityDistance → List CityDistance)
    (hdr : SliceHeader) (T : List CityData) (call : Call) (mem : Memory)
    (htab : tableIs hdr T mem) (results : SliceHeader)
    (hok : (Goroutine.making results).ok lowerTable m sortSlice hdr T call mem) :
    ((Goroutine.making results).step spare lowerTable m sortSlice mem).2.ok
      lowerTable m sortSlice hdr T call
      ((Goroutine.making results).step spare lowerTable m sortSlice mem).1 := by
  obtain ⟨hvC, hvD, hexp⟩ := hok
  simp only [Goroutine.distHeader] at hvD
  simp only [Goroutine.inv, Goroutine.distHeader] at hexp
  obtain ⟨vm, em, nm⟩ := sliceMake_valid CityData.zero mem.cities results.len
  refine ⟨vm, hvD, ?_, nm, Nat.zero_le _, ?_, hexp⟩
  · intro a ha htable
    have h1 : a = mem.cities.length := by
      simp only [Goroutine.step, sliceMake, Option.some.injEq] at ha
      exact ha.symm
    have h2 := (htab.2.1.2.2 a htable).1
    omega
  · simp only [Goroutine.step, Goroutine.cityHeader, Goroutine.distHeader]
    rw [em]
    rfl

/-- A step of a goroutine in the second loop of `FindNearestCities` leaves it in order. -/
theorem Goroutine.step_ok_copying (spare : Nat → Nat) (lowerTable : Char → Char) (m : Math)
    (sortSlice : (CityDistance → CityDistance → Bool) → List CityDistance → List CityDistance)
    (hdr : SliceHeader) (T : List CityData) (call : Call) (mem : Memory)
    (htab : tableIs hdr T mem) (results : SliceHeader) (i : Nat) (cities : SliceHeader)
    (hok : (Goroutine.copying results i cities).ok lowerTable m sortSlice hdr T call mem) :
    ((Goroutine.copying results i cities).step spare lowerTable m sortSlice mem).2.ok
      lowerTable m sortSlice hdr T call
      ((Goroutine.copying results i cities).step spare lowerTable m sortSlice mem).1 := by
  obtain ⟨hvC, hvD, hnt, hne, hi, hC, hexp⟩ := hok
  simp only [Goroutine.cityHeader] at hvC
  simp only [Goroutine.distHeader] at hvD
  simp only [Goroutine.cityHeader, Goroutine.distHeader] at hC hexp
  have hlenD := sliceElems_length mem.distances results hvD
  simp only [Goroutine.step]
  by_cases hlt : i < results.len
  · have hiD : i < (sliceElems mem.distances results).length := by rw [hlenD]; exact hlt
    rw [if_pos hlt, sliceIndex_eq _ _ _ hlt, List.getElem?_eq_getElem hiD]
    simp only []
    have htake := take_succ_get (sliceElems mem.distances results) i hiD
    obtain ⟨e1, e2, e3⟩ := sliceAppend_elems CityData.zero spare mem.cities cities
      (sliceElems mem.distances results)[i].toCityData hvC
    obtain ⟨_, _, f3⟩ := sliceAppend_footprint CityData.zero spare mem.cities cities
      (sliceElems mem.distances results)[i].toCityData
    refine ⟨e2, hvD, ?_, e3, by omega, ?_, hexp⟩
    · intro a ha htable
      rcases f3 a ha with h | h
      · exact hnt a h htable
      · have := (htab.2.1.2.2 a htable).1
        omega
    · simp only [Goroutine.cityHeader, Goroutine.distHeader]
      rw [e1, hC, htake, List.map_append]
      rfl
  · rw [if_neg hlt]
    have hi2 : (sliceElems mem.distances results).take i = sliceElems mem.distances results :=
      List.take_of_length_le (by omega)
    refine ⟨hvC, nil_headerValid _, ?_⟩
    simp only [Goroutine.inv, Goroutine.cityHeader]
    cases harr : cities.arr with
    | none => exact absurd harr hne
    | some a =>
      simp only []
      rw [hC, hi2]
      exact hexp

/-- Every step leaves a goroutine in order, when sorting keeps the number of elements. -/
theorem Goroutine.step_ok (spare : Nat → Nat) (lowerTable : Char → Char) (m : Math)
    (sortSlice : (CityDistance → CityDistance → Bool) → List CityDistance → List CityDistance)
    (hlen : ∀ l, (sortSlice distanceLess l).length = l.length)
    (hdr : SliceHeader) (T : List CityData) (call : Call) (mem : Memory)
    (htab : tableIs hdr T mem) (g : Goroutine)
    (hok : g.ok lowerTable m sortSlice hdr T call mem) :
    (g.step spare lowerTable m sortSlice mem).2.ok lowerTable m sortSlice hdr T call
      (g.step spare lowerTable m sortSlice mem).1 := by
  cases g with
  | called c =>
    have hc : c = call := hok.2.2
    subst hc
    exact Call.enter_ok lowerTable m sortSlice hdr T c mem htab
  | filtering f src i results =>
    exact Goroutine.step_ok_filtering spare lowerTable m sortSlice hdr T call mem htab _ _ _ _ hok
  | measuring f src i results =>
    exact Goroutine.step_ok_measuring spare lowerTable m sortSlice hdr T call mem htab _ _ _ _ hok
  | sorting results =>
    exact Goroutine.step_ok_sorting spare lowerTable m sortSlice hlen hdr T call mem _ hok
  | making results =>
    exact Goroutine.step_ok_making spare lowerTable m sortSlice hdr T call mem htab _ hok
  | copying results i cities =>
    exact Goroutine.step_ok_copying spare lowerTable m sortSlice hdr T call mem htab _ _ _ hok
  | returned result => exact hok

/-! ## Goroutines: any schedule keeps all goroutines in order -/

theorem lookup_set {α : Type} {gs : List α} {k j : Nat} {g g2 x : α} (hk : gs[k]? = some g)
    (hx : (gs.set k g2)[j]? = some x) : (j = k ∧ x = g2) ∨ (j ≠ k ∧ gs[j]? = some x) := by
  by_cases hjk : j = k
  · subst hjk
    obtain ⟨hlt, _⟩ := List.getElem?_eq_some_iff.mp hk
    rw [List.getElem?_set_self hlt] at hx
    exact Or.inl ⟨rfl, (Option.some.inj hx).symm⟩
  · rw [List.getElem?_set_ne (fun h => hjk h.symm)] at hx
    exact Or.inr ⟨hjk, hx⟩

/-- A step of one goroutine leaves all goroutines in order. -/
theorem schedStep_ok (spare : Nat → Nat) (lowerTable : Char → Char) (m : Math)
    (sortSlice : (CityDistance → CityDistance → Bool) → List CityDistance → List CityDistance)
    (hlen : ∀ l, (sortSlice distanceLess l).length = l.length)
    (hdr : SliceHeader) (T : List CityData) (calls : List Call)
    (st : Memory × List Goroutine) (k : Nat)
    (h : goroutinesOk lowerTable m sortSlice hdr T calls st) :
    goroutinesOk lowerTable m sortSlice hdr T calls
      (schedStep spare lowerTable m sortSlice st k) := by
  obtain ⟨htab, hall, hownC, hownD⟩ := h
  unfold schedStep
  cases hk : st.2[k]? with
  | none => exact ⟨htab, hall, hownC, hownD⟩
  | some g =>
    simp only []
    obtain ⟨call, hcall, hok⟩ := hall k g hk
    obtain ⟨F1, F2, F3, F4, F5, F6, F7⟩ :=
      Goroutine.step_footprint spare lowerTable m sortSlice st.1 g
    have hok2 := Goroutine.step_ok spare lowerTable m sortSlice hlen hdr T call st.1 htab g hok
    -- the arrays of the table and of the other goroutines are as they were
    have hkeepC : ∀ a, a < st.1.cities.length →
        (g.cityHeader.arr = some a → hdr.arr = some a) →
        (g.step spare lowerTable m sortSlice st.1).1.cities.getD a [] =
          st.1.cities.getD a [] := by
      intro a ha himp
      by_cases hret : ∃ result, g = Goroutine.returned result
      · obtain ⟨result, rfl⟩ := hret
        rfl
      · apply F4 a ha
        intro hga
        exact Goroutine.ok_notTable lowerTable m sortSlice hdr T call st.1 g hok
          (fun result hr => hret ⟨result, hr⟩) a hga (himp hga)
    have htab2 : tableIs hdr T (g.step spare lowerTable m sortSlice st.1).1 := by
      have hsame : ∀ a, hdr.arr = some a →
          (g.step spare lowerTable m sortSlice st.1).1.cities.getD a [] =
            st.1.cities.getD a [] :=
        fun a ha => hkeepC a (htab.2.1.2.2 a ha).1 (fun _ => ha)
      refine ⟨F1.trans htab.1, headerValid_of_frame _ _ _ htab.2.1 F2 hsame, ?_⟩
      rw [sliceElems_of_frame _ _ _ hsame]
      exact htab.2.2
    have hothers : ∀ j gj, j ≠ k → st.2[j]? = some gj →
        ∃ callj, calls[j]? = some callj ∧
          gj.ok lowerTable m sortSlice hdr T callj
            (g.step spare lowerTable m sortSlice st.1).1 := by
      intro j gj hjk hj
      obtain ⟨callj, hcallj, hokj⟩ := hall j gj hj
      refine ⟨callj, hcallj, Goroutine.ok_of_frame lowerTable m sortSlice hdr T callj st.1 _ gj
        hokj F2 F3 ?_ ?_⟩
      · intro a ha
        exact hkeepC a (hokj.1.2.2 a ha).1 (fun hga => hownC j k gj g a hjk hj hk ha hga)
      · intro a ha
        exact F5 a (hokj.2.1.2.2 a ha).1 (fun hga => hownD j k gj g a hjk hj hk ha hga)
    refine ⟨htab2, ?_, ?_, ?_⟩
    · intro j x hx
      rcases lookup_set hk hx with ⟨hjk, hxg⟩ | ⟨hjk, hxj⟩
      · subst hjk hxg
        exact ⟨call, hcall, hok2⟩
      · exact hothers j x hjk hxj
    · intro j1 j2 g1 g2 a hne h1 h2 ha1 ha2
      have hnew : ∀ j gj, j ≠ k → st.2[j]? = some gj → gj.cityHeader.arr = some a →
          (g.step spare lowerTable m sortSlice st.1).2.cityHeader.arr = some a →
          hdr.arr = some a := by
        intro j gj hjk hj haj hag
        obtain ⟨_, _, hokj⟩ := hall j gj hj
        rcases F6 a hag with h | h | h
        · exact hownC j k gj g a hjk hj hk haj h
        · have := (hokj.1.2.2 a haj).1
          omega
        · rw [← htab.1]
          exact h
      rcases lookup_set hk h1 with ⟨hj1, hx1⟩ | ⟨hj1, hx1⟩
      · rcases lookup_set hk h2 with ⟨hj2, hx2⟩ | ⟨hj2, hx2⟩
        · exact absurd (hj1.trans hj2.symm) hne
        · subst hx1
          exact hnew j2 g2 hj2 hx2 ha2 ha1
      · rcases lookup_set hk h2 with ⟨hj2, hx2⟩ | ⟨hj2, hx2⟩
        · subst hx2
          exact hnew j1 g1 hj1 hx1 ha1 ha2
        · exact hownC j1 j2 g1 g2 a hne hx1 hx2 ha1 ha2
    · intro j1 j2 g1 g2 a hne h1 h2 ha1 ha2
      have hnew : ∀ j gj, j ≠ k → st.2[j]? = some gj → gj.distHeader.arr = some a →
          (g.step spare lowerTable m sortSlice st.1).2.distHeader.arr = some a → False := by
        intro j gj hjk hj haj hag
        obtain ⟨_, _, hokj⟩ := hall j gj hj
        rcases F7 a hag with h | h
        · exact hownD j k gj g a hjk hj hk haj h
        · have := (hokj.2.1.2.2 a haj).1
          omega
      rcases lookup_set hk h1 with ⟨hj1, hx1⟩ | ⟨hj1, hx1⟩
      · rcases lookup_set hk h2 with ⟨hj2, hx2⟩ | ⟨hj2, hx2⟩
        · exact absurd (hj1.trans hj2.symm) hne
        · subst hx1
          exact hnew j2 g2 hj2 hx2 ha2 ha1
      · rcases lookup_set hk h2 with ⟨hj2, hx2⟩ | ⟨hj2, hx2⟩
        · subst hx2
          exact hnew j1 g1 hj1 hx1 ha1 ha2
        · exact hownD j1 j2 g1 g2 a hne hx1 hx2 ha1 ha2

/-- Any schedule leaves all goroutines in order. -/
theorem runSchedule_ok (spare : Nat → Nat) (lowerTable : Char → Char) (m : Math)
    (sortSlice : (CityDistance → CityDistance → Bool) → List CityDistance → List CityDistance)
    (hlen : ∀ l, (sortSlice distanceLess l).length = l.length)
    (hdr : SliceHeader) (T : List CityData) (calls : List Call) (sched : List Nat) :
    ∀ st : Memory × List Goroutine, goroutinesOk lowerTable m sortSlice hdr T calls st →
      goroutinesOk lowerTable m sortSlice hdr T calls
        (runSchedule spare lowerTable m sortSlice sched st) := by
  induction sched with
  | nil => intro st h; exact h
  | cons k sched ih =>
    intro st h
    exact ih _ (schedStep_ok spare lowerTable m sortSlice hlen hdr T calls st k h)

/-- At the start, with every goroutine about to enter its call, all goroutines are in
order. -/
theorem goroutinesOk_start (lowerTable : Char → Char) (m : Math)
    (sortSlice : (CityDistance → CityDistance → Bool) → List CityDistance → List CityDistance)
    (mem : Memory) (hvalid : headerValid mem.cities mem.cityMapping) (calls : List Call) :
    goroutinesOk lowerTable m sortSlice mem.cityMapping (tableOf mem) calls
      (mem, calls.map Goroutine.called) := by
  have hget : ∀ (k : Nat) (g : Goroutine), (calls.map Goroutine.called)[k]? = some g →
      ∃ call, calls[k]? = some call ∧ g = Goroutine.called call := by
    intro k g hg
    rw [List.getElem?_map] at hg
    cases hc : calls[k]? with
    | none => rw [hc] at hg; cases hg
    | some call =>
      rw [hc] at hg
      exact ⟨call, rfl, (Option.some.inj hg).symm⟩
  refine ⟨⟨rfl, hvalid, rfl⟩, ?_, ?_, ?_⟩
  · intro k g hg
    obtain ⟨call, hcall, rfl⟩ := hget k g hg
    exact ⟨call, hcall, nil_headerValid _, nil_headerValid _, rfl⟩
  · intro j k gj gk a _ hj _ haj _
    obtain ⟨call, _, rfl⟩ := hget j gj hj
    cases haj
  · intro j k gj gk a _ hj _ haj _
    obtain ⟨call, _, rfl⟩ := hget j gj hj
    cases haj

/-! ## Goroutines: every call returns what it returns alone -/

/-- The value that a call returns when run alone is the value of the list-level function of
the call on the records of the table. -/
theorem Call.valueAlone_eq (spare : Nat → Nat) (lowerTable : Char → Char) (m : Math)
    (sortSlice : (CityDistance → CityDistance → Bool) → List CityDistance → List CityDistance)
    (hlen : ∀ l, (sortSlice distanceLess l).length = l.length)
    (mem : Memory) (hvalid : headerValid mem.cities mem.cityMapping) (call : Call) :
    call.valueAlone spare lowerTable m sortSlice mem =
      call.result lowerTable m sortSlice mem.cityMapping (tableOf mem) := by
  cases call with
  | lookupViaCity city => exact LookupViaCityMem_refines spare lowerTable mem hvalid city
  | findFromIsoCode isoCode => exact FindFromIsoCodeMem_refines spare lowerTable mem hvalid isoCode
  | findNearestCities lat lng radiusKm =>
    exact FindNearestCitiesMem_refines spare m sortSlice hlen mem hvalid lat lng radiusKm
  | getCityMapping => rfl

theorem Goroutine.stepsLeft_eq_zero (n : Nat) (g : Goroutine) (h : g.stepsLeft n = 0) :
    ∃ result, g = Goroutine.returned result := by
  cases g with
  | returned result => exact ⟨result, rfl⟩
  | called c => simp [Goroutine.stepsLeft] at h
  | filtering f src i results => simp [Goroutine.stepsLeft] at h
  | measuring f src i results => simp [Goroutine.stepsLeft] at h
  | sorting results => simp [Goroutine.stepsLeft] at h
  | making results => simp [Goroutine.stepsLeft] at h
  | copying results i cities => simp [Goroutine.stepsLeft] at h

theorem schedStep_cityMapping (spare : Nat → Nat) (lowerTable : Char → Char) (m : Math)
    (sortSlice : (CityDistance → CityDistance → Bool) → List CityDistance → List CityDistance)
    (st : Memory × List Goroutine) (j : Nat) :
    (schedStep spare lowerTable m sortSlice st j).1.cityMapping = st.1.cityMapping := by
  unfold schedStep
  cases st.2[j]? with
  | none => rfl
  | some g => exact (Goroutine.step_footprint spare lowerTable m sortSlice st.1 g).1

/-- Each step that the schedule gives to a goroutine brings it nearer to its return, and the
steps of the others do not take it farther. -/
theorem runSchedule_stepsLeft (spare : Nat → Nat) (lowerTable : Char → Char) (m : Math)
    (sortSlice : (CityDistance → CityDistance → Bool) → List CityDistance → List CityDistance)
    (n k : Nat) (sched : List Nat) :
    ∀ (st : Memory × List Goroutine) (g : Goroutine), st.1.cityMapping.len = n →
      st.2[k]? = some g →
      ∃ g2, (runSchedule spare lowerTable m sortSlice sched st).2[k]? = some g2 ∧
        g2.stepsLeft n ≤ g.stepsLeft n - sched.count k := by
  induction sched with
  | nil =>
    intro st g _ hg
    exact ⟨g, hg, by simp⟩
  | cons j sched ih =>
    intro st g hn hg
    have hn2 : (schedStep spare lowerTable m sortSlice st j).1.cityMapping.len = n := by
      rw [schedStep_cityMapping]
      exact hn
    by_cases hjk : j = k
    · subst hjk
      have hlt := (List.getElem?_eq_some_iff.mp hg).1
      have hg2 : (schedStep spare lowerTable m sortSlice st j).2[j]? =
          some (g.step spare lowerTable m sortSlice st.1).2 := by
        unfold schedStep
        rw [hg]
        exact List.getElem?_set_self hlt
      obtain ⟨g2, h1, h2⟩ := ih _ _ hn2 hg2
      refine ⟨g2, h1, ?_⟩
      have hc : (j :: sched).count j = sched.count j + 1 := by simp
      rw [hc]
      rcases Goroutine.stepsLeft_step spare lowerTable m sortSlice st.1 g with h | ⟨r, rfl⟩
      · rw [hn] at h
        omega
      · rw [Goroutine.step_returned] at h2
        have h0 : (Goroutine.returned r).stepsLeft n = 0 := rfl
        rw [h0] at h2 ⊢
        omega
    · have hg2 : (schedStep spare lowerTable m sortSlice st j).2[k]? = some g := by
        unfold schedStep
        cases hj : st.2[j]? with
        | none => exact hg
        | some gj =>
          simp only []
          rw [List.getElem?_set_ne hjk]
          exact hg
      obtain ⟨g2, h1, h2⟩ := ih _ _ hn2 hg2
      refine ⟨g2, h1, ?_⟩
      have hc : (j :: sched).count k = sched.count k := by
        rw [List.count_cons]
        simp [hjk]
      rw [hc]
      exact h2

/-- C21: goroutines that call `LookupViaCity`, `FindFromIsoCode`, `FindNearestCities` and
`GetCityMapping` at the same time, without synchronisation, each get the result that the
call returns when it runs alone.  The goroutines share one memory, which holds the loaded
table in a valid slice; the steps of the calls (entering the function, one loop iteration,
`sort.Slice`, `make`) interleave in any order `sched`; `append` and `make` hand out arrays
that no other goroutine holds; `sort.Slice` keeps the number of elements.  Then, whatever
the schedule: a goroutine that has returned holds a slice whose value in the memory at the
end is the value of the call run alone on the memory at the start; a goroutine that the
schedule gives `2 * len(cityMapping) + 5` steps has returned; and the package variable and
the records of the table are the same at the end as at the start. -/
theorem C21_concurrent_calls (spare : Nat → Nat) (lowerTable : Char → Char) (m : Math)
    (sortSlice : (CityDistance → CityDistance → Bool) → List CityDistance → List CityDistance)
    (hlen : ∀ l, (sortSlice distanceLess l).length = l.length)
    (mem : Memory) (hvalid : headerValid mem.cities mem.cityMapping) (calls : List Call)
    (sched : List Nat) :
    (∀ (k : Nat) (call : Call) (result : SliceHeader), calls[k]? = some call →
      (runSchedule spare lowerTable m sortSlice sched
        (mem, calls.map Goroutine.called)).2[k]? = some (Goroutine.returned result) →
      sliceValue
          (runSchedule spare lowerTable m sortSlice sched
            (mem, calls.map Goroutine.called)).1.cities result =
        call.valueAlone spare lowerTable m sortSlice mem) ∧
    (∀ (k : Nat) (call : Call), calls[k]? = some call →
      2 * mem.cityMapping.len + 5 ≤ sched.count k →
      ∃ result, (runSchedule spare lowerTable m sortSlice sched
        (mem, calls.map Goroutine.called)).2[k]? = some (Goroutine.returned result)) ∧
    (runSchedule spare lowerTable m sortSlice sched
      (mem, calls.map Goroutine.called)).1.cityMapping = mem.cityMapping ∧
    tableOf (runSchedule spare lowerTable m sortSlice sched
      (mem, calls.map Goroutine.called)).1 = tableOf mem := by
  obtain ⟨htab, hall, _, _⟩ := runSchedule_ok spare lowerTable m sortSlice hlen mem.cityMapping
    (tableOf mem) calls sched _ (goroutinesOk_start lowerTable m sortSlice mem hvalid calls)
  refine ⟨?_, ?_, htab.1, ?_⟩
  · intro k call result hcall hres
    obtain ⟨call2, hcall2, hok⟩ := hall k _ hres
    have hc : call2 = call := Option.some.inj (hcall2.symm.trans hcall)
    subst hc
    rw [Call.valueAlone_eq spare lowerTable m sortSlice hlen mem hvalid]
    exact hok.2.2
  · intro k call hcall hcount
    have hstart : (mem, calls.map Goroutine.called).2[k]? = some (Goroutine.called call) := by
      simp only [List.getElem?_map, hcall, Option.map_some']
    obtain ⟨g2, h1, h2⟩ := runSchedule_stepsLeft spare lowerTable m sortSlice
      mem.cityMapping.len k sched (mem, calls.map Goroutine.called) _ rfl hstart
    have h0 : g2.stepsLeft mem.cityMapping.len = 0 := by
      have hs : (Goroutine.called call).stepsLeft mem.cityMapping.len =
          2 * mem.cityMapping.len + 5 := rfl
      rw [hs] at h2
      omega
    obtain ⟨result, rfl⟩ := Goroutine.stepsLeft_eq_zero _ g2 h0
    exact ⟨result, h1⟩
  · unfold tableOf GetCityMappingMem
    simp only [htab.1]
    exact htab.2.2

/-- C21 on the example memory: under the example schedule the goroutine that calls
`FindNearestCities` has returned, with the records that the call returns alone (`b`, then
the two at the same distance, then `d`), and the table is as it was. -/
theorem C21_concurrent_calls_witness :
    (∀ l, (insertionSort distanceLess l).length = l.length) ∧
    headerValid exampleMemory.cities exampleMemory.cityMapping ∧
    2 * exampleMemory.cityMapping.len + 5 ≤ exampleSchedule.count 1 ∧
    (∃ result,
      (runSchedule (fun n => n) asciiCaseTable exampleMath insertionSort exampleSchedule
        (exampleMemory, exampleCalls.map Goroutine.called)).2[1]? =
          some (Goroutine.returned result) ∧
      sliceValue
          (runSchedule (fun n => n) asciiCaseTable exampleMath insertionSort exampleSchedule
            (exampleMemory, exampleCalls.map Goroutine.called)).1.cities result =
        Slice.mk [cityAt "b".toList ⟨3⟩ ⟨0⟩, cityAt "c".toList ⟨5⟩ ⟨1⟩,
          cityAt "a".toList ⟨5⟩ ⟨0⟩, cityAt "d".toList ⟨9⟩ ⟨1⟩]) ∧
    tableOf (runSchedule (fun n => n) asciiCaseTable exampleMath insertionSort exampleSchedule
      (exampleMemory, exampleCalls.map Goroutine.called)).1 = exampleCities :=
  have h := C21_concurrent_calls (fun n => n) asciiCaseTable exampleMath insertionSort
    (fun l => (insertionSort_perm distanceLess l).length_eq) exampleMemory exampleMemory_valid
    exampleCalls exampleSchedule
  ⟨fun l => (insertionSort_perm distanceLess l).length_eq, exampleMemory_valid, by decide,
    (h.2.1 1 (Call.findNearestCities ⟨0⟩ ⟨0⟩ ⟨9⟩) rfl (by decide)).elim
      (fun result hr =>
        ⟨result, hr,
          (h.1 1 (Call.findNearestCities ⟨0⟩ ⟨0⟩ ⟨9⟩) result rfl hr).trans (by decide)⟩),
    h.2.2.2.trans rfl⟩

end CityTimezones
